import Mathlib

/-! # wed: the editor's validation glue and the incremental validation controller

A shallow embedding of the parts of `wed` that connect the editor to its
validator (`build/standalone/lib/wed/wed.js`), followed by a model of the
validation controller itself, and by the embedding of helpers of the editor:
`lib/wed/util.ts`, `lib/wed/wundo.js`, the options and the namespace check of
`wed.js`, `decorator.js` and the autoinsertion of the generic mode.

JavaScript objects become structures, `this` is passed explicitly, a handler
that may throw returns an `Outcome` holding the thrown message (if any) and the
object as the handler left it. Numbers are given by their exact values, and
where the rounding of an operation matters the operation is followed by
`roundDouble`.
-/

namespace Wed

/-! ## Outcomes of handlers -/

/-- The result of running a handler on an object of type `σ`: `thrown` is the
message of the `Error` the handler threw (`none` when it returned normally) and
`state` is the object as the handler left it. -/
structure Outcome (σ : Type) where
  thrown : Option String
  state : σ
  deriving Repr, DecidableEq

/-! ## The validator as the editor sees it -/

/-- The working states exported by `wed/validator`. -/
inductive WState
  | INCOMPLETE
  | WORKING
  | INVALID
  | VALID
  deriving Repr, DecidableEq

/-- The value of `validator.getWorkingState()`; `part_done` is a number, given
by its exact value. -/
structure WorkingState where
  state : WState
  part_done : ℚ
  deriving Repr, DecidableEq

/-- An `error` notification of the validator, as pushed on
`_validation_errors`. -/
structure ErrorEvent where
  error : String
  node : Nat
  index : Nat
  deriving Repr, DecidableEq

/-- A `reset-errors` notification: `ev.at`. -/
structure ResetErrorsEvent where
  «at» : Nat
  deriving Repr, DecidableEq

/-- A call the editor made on `this.validator`. -/
inductive ValidatorCall
  | restartAt (node : Nat)
  | start
  | stop
  deriving Repr, DecidableEq

/-- A DOM element of the GUI as far as these handlers look at it: its tag and
its class list. -/
structure GuiElement where
  tagName : String
  classList : List String
  deriving Repr, DecidableEq

/-- A node handed to a `children-changed` handler: the GUI tree holds text
nodes and elements. -/
inductive GuiNode
  | text (data : String)
  | element (classList : List String)
  deriving Repr, DecidableEq

/-- A node of an XML DOM (clipboard data parsed by `DOMParser`, or the fake
`div` built around plain text). `ns` is what reading the `namespace` property
of the node yields. -/
inductive DomNode
  | text (data : String)
  | element (tagName : String) (ns : Option String) (childNodes : List DomNode)
  deriving Repr

/-- What `paste_tr` is fired with: `{node: caret.node, to_paste: data}`. -/
structure PasteTransformation where
  node : Nat
  to_paste : DomNode
  deriving Repr

/-- The callback `_pasteHandler` hands to `_paste_modal.modal`, as the values
it closes over. -/
structure PasteModalCallback where
  text : String
  caretNode : Nat
  deriving Repr, DecidableEq

/-- The fields of `Editor` that the validation handlers read and write. -/
structure Editor where
  _validation_errors : List ErrorEvent := []
  /-- The children of `$error_list`. -/
  error_list : List GuiElement := []
  /-- The elements below `$widget`. -/
  widget : List GuiElement := []
  _last_done_shown : ℚ := 0
  _first_validation_complete : Bool := false
  /-- The conditions set through `_setCondition`. -/
  conditions : List String := []
  /-- The `width` style of `$validation_progress`. -/
  validation_progress_width : String := ""
  /-- The classes of `$validation_progress`. -/
  validation_progress_classes : List String := []
  /-- The text of `$validation_message`. -/
  validation_message : String := ""
  /-- The calls made on `this.validator`, oldest first. -/
  validator_calls : List ValidatorCall := []
  /-- The callbacks handed to `setTimeout(…, 0)`, oldest first. -/
  timeouts : List ValidatorCall := []
  /-- The transformations fired through `fireTransformation(this.paste_tr, …)`. -/
  fired_paste : List PasteTransformation := []
  /-- The callback of the paste modal, while the modal is up. -/
  paste_modal : Option PasteModalCallback := none
  /-- Whether `this.validator` has been created. -/
  has_validator : Bool := true
  max_label_level : Option Int := none
  _current_label_level : Option Int := none
  attributes : Option String := none
  /-- The body last given to `_limitation_modal.setBody`. -/
  limitation_modal_body : Option String := none
  /-- The number of calls to `_limitation_modal.modal`. -/
  limitation_modal_shown : Nat := 0
  /-- The calls `resolver.definePrefix(prefix, uri)`, oldest first; `none` is
  `undefined`. -/
  resolver_definitions : List (String × Option String) := []
  /-- The steps of `_postInitialize` that follow the namespace check and come
  before `validator.start()`, as they are run. -/
  post_initialize_log : List String := []
  _destroyed : Bool := false
  deriving Repr

/-! ## `_onResetErrors` -/

/-- The handler of `reset-errors`:
```
if (ev.at !== 0) throw new Error("internal error: wed does not yet support " +
                                 "resetting errors at an arbitrary location");
this._validation_errors = [];
this.$error_list.children("li").remove();
this.$widget.find('.wed-validation-error').remove();
``` -/
def _onResetErrors (ev : ResetErrorsEvent) (ed : Editor) : Outcome Editor :=
  if ev.at ≠ 0 then
    { thrown := some ("internal error: wed does not yet support " ++
                      "resetting errors at an arbitrary location"),
      state := ed }
  else
    { thrown := none,
      state := { ed with
        _validation_errors := [],
        error_list := ed.error_list.filter (fun c => !(c.tagName == "li")),
        widget := ed.widget.filter
          (fun c => !(c.classList.contains "wed-validation-error")) } }

/-! ## The mutation handlers installed by `_postInitialize` -/

/-- The test made on each added or removed child:
`(child.nodeType === Node.TEXT_NODE) || child.classList.contains("_real") ||
child.classList.contains("_phantom_wrap")`. -/
def affectsValidation : GuiNode → Bool
  | .text _ => true
  | .element classList =>
      classList.contains "_real" || classList.contains "_phantom_wrap"

/-- The loop
`for(var ix = 0, limit = all.length; !found && ix < limit; ++ix) found = …`
run on the nodes not yet visited, from the current value of `found`. -/
def childrenChangedFound : List GuiNode → Bool → Bool
  | [], found => found
  | child :: rest, found =>
      if !found then childrenChangedFound rest (affectsValidation child)
      else found

/-- The first `children-changed` handler of `_postInitialize`:
```
var all = added.concat(removed);
var found = false;
for(…) { … }
if (found) {
    this._last_done_shown = 0;
    this.validator.restartAt(target);
}
``` -/
def onChildrenChanged (added removed : List GuiNode) (target : Nat)
    (ed : Editor) : Editor :=
  let all := added ++ removed
  let found := childrenChangedFound all false
  if found then
    { ed with
      _last_done_shown := 0,
      validator_calls := ed.validator_calls ++ [ValidatorCall.restartAt target] }
  else ed

/-- `String.prototype.indexOf(search, 0)` on the characters of a string: the
least index at which `search` occurs in `s`, or `-1`. -/
def indexOf (s search : List Char) : Int :=
  if search.isPrefixOf s then 0
  else match s with
    | [] => -1
    | _ :: rest =>
        let r := indexOf rest search
        if r < 0 then -1 else r + 1

/-- JavaScript's `!namespace` for an attribute namespace that is `null`
(`none`) or a string: the empty string is falsy. -/
def noNamespace : Option String → Bool
  | none => true
  | some ns => ns == ""

/-- The `attribute-changed` handler of `_postInitialize`:
```
if (!namespace && name.indexOf("data-wed", 0) === 0) {
    var me = this;
    setTimeout(function () { me.validator.restartAt(el); }, 0);
}
``` -/
def onAttributeChanged (el : Nat) (ns : Option String) (name : String)
    (ed : Editor) : Editor :=
  if noNamespace ns && indexOf name.toList "data-wed".toList == 0 then
    { ed with timeouts := ed.timeouts ++ [ValidatorCall.restartAt el] }
  else ed

/-- The host loop runs the oldest pending `setTimeout` callback. -/
def runTimeout (ed : Editor) : Editor :=
  match ed.timeouts with
  | [] => ed
  | call :: rest =>
      { ed with timeouts := rest, validator_calls := ed.validator_calls ++ [call] }

/-! ## `_onValidatorStateChange` -/

/-- The table `state_to_str`. -/
def state_to_str : WState → String
  | .INCOMPLETE => "stopped"
  | .WORKING => "working"
  | .INVALID => "invalid"
  | .VALID => "valid"

/-- The table `state_to_progress_type`. -/
def state_to_progress_type : WState → String
  | .INCOMPLETE => "info"
  | .WORKING => "info"
  | .INVALID => "danger"
  | .VALID => "success"

/-- The number of binary digits of a natural number, `fuel` bounding the
recursion. -/
def bitLengthAux : Nat → Nat → Nat
  | 0, _ => 0
  | fuel + 1, n => if n = 0 then 0 else bitLengthAux fuel (n / 2) + 1

/-- The number of binary digits of a natural number. -/
def bitLength (n : Nat) : Nat := bitLengthAux n n

/-- The binary exponent of a positive rational `a`: the `e` with
`2 ^ e ≤ a < 2 ^ (e + 1)`. -/
def binade (a : ℚ) : Int :=
  let e0 : Int := (bitLength a.num.natAbs : Int) - (bitLength a.den : Int)
  if (2 : ℚ) ^ e0 ≤ a then e0 else e0 - 1

/-- Rounding to the nearest integer, a tie going to the even one. -/
def roundHalfEven (m : ℚ) : Int :=
  let f := ⌊m⌋
  let r := m - f
  if r < 1 / 2 then f
  else if 1 / 2 < r then f + 1
  else if f % 2 = 0 then f else f + 1

/-- The value of a JavaScript number is a binary64 floating-point number, and
every arithmetic operation returns the exact result rounded to the nearest such
number, a tie going to the one with an even significand. This is that rounding,
on the exact rational value: 53 significant binary digits, the smallest
exponent being that of the subnormal numbers. Results beyond the largest finite
number (infinities) are not represented. -/
def roundDouble (x : ℚ) : ℚ :=
  if x = 0 then 0
  else
    let q := max (binade |x| - 52) (-1074)
    (if x < 0 then -1 else 1) * roundHalfEven (|x| / (2 : ℚ) ^ q) * (2 : ℚ) ^ q

/-- The operation `x >> 0`: truncate towards zero, then wrap to a signed 32-bit
integer. -/
def toInt32 (x : ℚ) : Int :=
  let t : Int := if 0 ≤ x then x.floor else x.ceil
  (t + 2 ^ 31) % 2 ^ 32 - 2 ^ 31

/-- jQuery's `removeClass` with a list of classes. -/
def removeClasses (classes removed : List String) : List String :=
  classes.filter (fun c => !(removed.contains c))

/-- jQuery's `addClass` with one class. -/
def addClass (classes : List String) (c : String) : List String :=
  if classes.contains c then classes else classes ++ [c]

/-- The tail of `_onValidatorStateChange`, which updates the display, with
`var percent = (working_state.part_done * 100) >> 0;` from its head, the
product being the rounded one:
```
this._last_done_shown = working_state.part_done;
this.$validation_progress.css("width", percent + "%");
this.$validation_progress.removeClass(
    "progress-bar-info progress-bar-success progress-bar-danger");
var type = state_to_progress_type[working_state.state];
this.$validation_progress.addClass("progress-bar-" + type);
this.$validation_message.text(message);
``` -/
def showProgress (working_state : WorkingState) (ed : Editor) : Editor :=
  let message := state_to_str working_state.state
  let percent := toInt32 (roundDouble (working_state.part_done * 100))
  { ed with
    _last_done_shown := working_state.part_done,
    validation_progress_width := toString percent ++ "%",
    validation_progress_classes :=
      addClass
        (removeClasses ed.validation_progress_classes
          ["progress-bar-info", "progress-bar-success", "progress-bar-danger"])
        ("progress-bar-" ++ state_to_progress_type working_state.state),
    validation_message := message }

/-- The handler of `state-update`, given what `validator.getWorkingState()`
returns. The difference compared is the rounded one and `0.05` is the number
nearest to 5/100:
```
if (working_state.state === validator.WORKING) {
    // Do not show changes less than 5%
    if (working_state.part_done - this._last_done_shown < 0.05) return;
}
else if (working_state.state === validator.VALID ||
         working_state.state === validator.INVALID) {
    if (!this._first_validation_complete) {
        this._first_validation_complete = true;
        this._setCondition("first-validation-complete", {editor: this});
    }
}
…
``` -/
def _onValidatorStateChange (working_state : WorkingState) (ed : Editor) : Editor :=
  if working_state.state = WState.WORKING then
    if roundDouble (working_state.part_done - ed._last_done_shown) < roundDouble (5 / 100) then ed
    else showProgress working_state ed
  else if working_state.state = WState.VALID ∨ working_state.state = WState.INVALID then
    if !ed._first_validation_complete then
      showProgress working_state { ed with
        _first_validation_complete := true,
        conditions := ed.conditions ++ ["first-validation-complete"] }
    else showProgress working_state ed
  else showProgress working_state ed

/-! ## `_pasteHandler` -/

/-- A data caret: `caret.node` and `caret.offset`. -/
structure Caret where
  node : Nat
  offset : Nat
  deriving Repr, DecidableEq

/-- What `validator.speculativelyValidate` returns: `false`, or an array of
errors. -/
inductive SpeculativeResult (ε : Type)
  | noError
  | errors (es : List ε)
  deriving Repr, DecidableEq

/-- JavaScript's truthiness of the value `speculativelyValidate` returned:
`false` is falsy, every array is truthy. -/
def SpeculativeResult.truthy {ε : Type} : SpeculativeResult ε → Bool
  | .noError => false
  | .errors _ => true

/-- The property `childNodes` of a DOM node. -/
def DomNode.children : DomNode → List DomNode
  | .text _ => []
  | .element _ _ childNodes => childNodes

/-- The property `tagName` of a DOM node (`undefined` on a text node). -/
def DomNode.tag : DomNode → Option String
  | .text _ => none
  | .element tagName _ _ => some tagName

/-- The property `namespace` of a DOM node, as the handler reads it. -/
def DomNode.namespaceProp : DomNode → Option String
  | .text _ => none
  | .element _ ns _ => ns

/-- What `_pasteHandler` gets from its surroundings: the data caret
(`undefined` is `none`), the clipboard's `getData("text")`, the window's
`DOMParser` (giving `doc.firstChild` for a source text) and the validator's
`speculativelyValidate`. -/
structure PasteEnv (ε : Type) where
  getDataCaret : Option Caret
  clipboardText : Option String
  parseFromString : String → DomNode
  speculativelyValidate : Caret → List DomNode → SpeculativeResult ε

/-- The test the handler makes on the parsed clipboard text:
```
var as_xml = true;
if (doc.firstChild.tagName === "parsererror" &&
    doc.firstChild.namespace ===
    "http://www.mozilla.org/newlayout/xml/parsererror.xml") as_xml = false;
``` -/
def pasteAsXml (firstChild : DomNode) : Bool :=
  !(firstChild.tag == some "parsererror" &&
    firstChild.namespaceProp ==
      some "http://www.mozilla.org/newlayout/xml/parsererror.xml")

/-- The fake element built for plain text:
`data = document.createElement("div"); data.textContent = text;`. -/
def textDiv (text : String) : DomNode :=
  .element "div" none (if text = "" then [] else [.text text])

/-- Calls `this.fireTransformation(this.paste_tr, {node: …, to_paste: data})`. -/
def firePaste (node : Nat) (data : DomNode) (ed : Editor) : Editor :=
  { ed with fired_paste := ed.fired_paste ++ [⟨node, data⟩] }

/-- The handler `Editor.prototype._pasteHandler`. -/
def _pasteHandler {ε : Type} (env : PasteEnv ε) (ed : Editor) : Editor :=
  match env.getDataCaret with
  | none => ed
  | some caret =>
    match env.clipboardText with
    | none => ed
    | some text =>
      if text = "" then ed
      else
        let firstChild := env.parseFromString ("<div>" ++ text ++ "</div>")
        if pasteAsXml firstChild then
          let data := firstChild
          let errors := env.speculativelyValidate caret data.children
          if errors.truthy then
            { ed with paste_modal := some ⟨text, caret.node⟩ }
          else firePaste caret.node data ed
        else firePaste caret.node (textDiv text) ed

/-- The callback of the paste modal, run when the user dismisses the modal
with the button whose text is `clicked`:
```
if (this._paste_modal.getClickedAsText() === "Yes") {
    data = this.my_window.document.createElement("div");
    data.textContent = text;
    this.fireTransformation(this.paste_tr, {node: caret.node, to_paste: data, e: e});
}
``` -/
def pasteModalDismissed (clicked : String) (ed : Editor) : Editor :=
  match ed.paste_modal with
  | none => ed
  | some cb =>
      let ed := { ed with paste_modal := none }
      if clicked = "Yes" then firePaste cb.caretNode (textDiv cb.text) ed
      else ed

/-- The reading of "the handler discards every error at or after `ev.at`": the
handler returns normally and no error it leaves in `_validation_errors` is
located (by `pos`) at or after `ev.at`. -/
def DiscardsFrom (pos : ErrorEvent → Nat) (ev : ResetErrorsEvent) (ed : Editor) : Prop :=
  (_onResetErrors ev ed).thrown = none ∧
    ∀ e ∈ (_onResetErrors ev ed).state._validation_errors, pos e < ev.at

/-- A node whose addition or removal matters to validation, in the words of the
handler's contract: a text node, or an element with class `_real` or
`_phantom_wrap`. -/
def StructuralNode : GuiNode → Prop
  | .text _ => True
  | .element classList => "_real" ∈ classList ∨ "_phantom_wrap" ∈ classList

/-! ## The validation controller

The controller lives in `lib/wed/validator.js` and drives the grammar automaton
of the library `salve`; neither is among the sources embedded above. What
follows is modelled from the design document of the validation engine, and
checked against the expectations of `browser_test/validator_test.js`. -/

/-- Modelled from the spec: a node is identified by its path: the child indices
leading to it from the root of the validated tree. The root is `[]`. -/
abbrev Path := List Nat

/-- Modelled from the spec: an expanded name: namespace URI and local name. -/
structure EName where
  ns : String
  name : String
  deriving Repr, DecidableEq

/-- Modelled from the spec: an attribute of an element. -/
structure Attr where
  ns : String
  name : String
  value : String
  deriving Repr, DecidableEq

/-- Modelled from the spec: a node of the validated document: a text node or an
element. -/
inductive XNode
  | text (data : String)
  | element (ns name : String) (attrs : List Attr) (children : List XNode)
  deriving Repr

/-- Modelled from the spec: the data-model entry `Event`, the sole vocabulary
exchanged with the grammar automaton. -/
inductive Event
  | enterStartTag (ns name : String)
  | endTag (ns name : String)
  | attributeName (ns name : String)
  | attributeValue (value : String)
  | text
  deriving Repr, DecidableEq

/-- Modelled from the spec: the external Grammar Automaton, `advance(state,
event) -> {newState | reject}` (`none` is reject) and `possibleEvents(state)`. -/
structure Grammar (σ : Type) where
  start : σ
  advance : σ → Event → Option σ
  possibleEvents : σ → List Event

/-- Modelled from the spec: the machine-readable kinds of validation error named
by the spec: grammar-rejection errors and required-element-missing errors. -/
inductive ErrorKind
  | rejected
  | requiredMissing
  deriving Repr, DecidableEq

/-- Modelled from the spec: the data-model entry `Validation Error` (offending
node, offset, machine-readable kind, set of expected names); `event` is the
rejected event, absent when the document closes. The human-readable rendering
is `ValidationError.toString`. -/
structure ValidationError where
  node : Path
  offset : Nat
  kind : ErrorKind
  event : Option Event
  names : List EName
  deriving Repr, DecidableEq

/-- Modelled from the spec: the rendering `{ns}name` of an expanded name. -/
def EName.toString (n : EName) : String :=
  "\x7b" ++ n.ns ++ "\x7d" ++ n.name

/-- Modelled from the spec: the human-readable rendering of a validation error.
The two renderings the tests expect are `tag required: {}html` and
`tag not allowed here: {}em`. -/
def ValidationError.toString (e : ValidationError) : String :=
  match e.kind, e.event with
  | .requiredMissing, _ =>
      "tag required: " ++ ", ".intercalate (e.names.map EName.toString)
  | .rejected, some (.enterStartTag ns name) =>
      "tag not allowed here: " ++ EName.toString ⟨ns, name⟩
  | .rejected, some (.endTag ns name) =>
      "unexpected end tag: " ++ EName.toString ⟨ns, name⟩
  | .rejected, some (.attributeName ns name) =>
      "attribute not allowed here: " ++ EName.toString ⟨ns, name⟩
  | .rejected, some (.attributeValue _) => "invalid attribute value"
  | .rejected, some .text => "text not allowed here"
  | .rejected, none => "unexpected end of document"

/-- Modelled from the spec: the names of the elements among a set of possible
events. -/
def startTagNames : List Event → List EName
  | [] => []
  | .enterStartTag ns name :: rest => ⟨ns, name⟩ :: startTagNames rest
  | _ :: rest => startTagNames rest

/-- Modelled from the spec: the Position Walker, one automaton state plus the
open-element depth bookkeeping. `misplaced` counts the open elements below a
start tag the automaton rejected: while it is positive the walker is inside a
subtree the automaton knows nothing of. -/
structure Walker (σ : Type) where
  state : σ
  misplaced : Nat
  deriving Repr, DecidableEq

/-- Modelled from the spec: what the walker reports for an event the automaton
rejected: the kind of the error and the names the automaton would have accepted.
-/
structure Rejection where
  kind : ErrorKind
  names : List EName
  deriving Repr, DecidableEq

/-- Modelled from the spec: `fireEvent(event)` of the Position Walker. The
event is handed to the automaton; on reject the walker keeps its automaton
state (the walk goes on) and reports the rejection. A rejected end tag where
some element was still possible is a required-element-missing error ("a
container closes without a mandatory child ever appearing"). A rejected start
tag opens a misplaced subtree, whose events are skipped up to the matching end
tag. -/
def Walker.fireEvent {σ : Type} (g : Grammar σ) (w : Walker σ) (ev : Event) :
    Walker σ × Option Rejection :=
  if w.misplaced > 0 then
    match ev with
    | .enterStartTag _ _ => ({ w with misplaced := w.misplaced + 1 }, none)
    | .endTag _ _ => ({ w with misplaced := w.misplaced - 1 }, none)
    | _ => (w, none)
  else
    match g.advance w.state ev with
    | some s => ({ w with state := s }, none)
    | none =>
      let names := startTagNames (g.possibleEvents w.state)
      match ev with
      | .enterStartTag _ _ => ({ w with misplaced := 1 }, some ⟨.rejected, names⟩)
      | .endTag _ _ =>
          (w, some ⟨if names = [] then .rejected else .requiredMissing, names⟩)
      | _ => (w, some ⟨.rejected, names⟩)

/-- Modelled from the spec: the walker a fresh controller starts with. -/
def Walker.initial {σ : Type} (g : Grammar σ) : Walker σ :=
  { state := g.start, misplaced := 0 }

/-! ### The tree cursor -/

/-- Modelled from the spec: one event of the Tree Cursor, with what the
controller needs to know about it: the node that yields it (`self`), the tree
location `(node, offset)` it is reported at, whether the scheduler's cycle ends
after it (a cycle ends with each start tag and each end tag), and the share of
the document that is done once it is processed. -/
structure CursorEvent where
  ev : Event
  self : Path
  node : Path
  offset : Nat
  endsCycle : Bool
  gain : ℚ
  deriving Repr, DecidableEq

/-- Modelled from the spec: the number of element children among a list of
children. -/
def elementCount : List XNode → Nat
  | [] => 0
  | .text _ :: rest => elementCount rest
  | .element _ _ _ _ :: rest => elementCount rest + 1

/-- Modelled from the spec: the Tree Cursor on the attributes of an element,
"one `attributeName`/`attributeValue` pair per attribute in a stable order".
The start tag's cycle ends with the last attribute value. -/
def attrEvents (self parent : Path) (i : Nat) : List Attr → List CursorEvent
  | [] => []
  | a :: rest =>
      ⟨.attributeName a.ns a.name, self, parent, i, false, 0⟩ ::
      ⟨.attributeValue a.value, self, parent, i, rest.isEmpty, 0⟩ ::
      attrEvents self parent i rest

mutual
/-- Modelled from the spec: the Tree Cursor on child `i` of `parent`: a text
node yields a single `text` event; an element yields `enterStartTag`, its
attributes, its children in document order, then `endTag`. `portion` is the
share of the document the node stands for: an element divides its share
equally among its element children, and the share of an element without
element children is gained when its end tag is processed; these are the values
of `_part_done` the test "percent done" expects cycle by cycle. -/
def nodeEvents (portion : ℚ) (parent : Path) (i : Nat) : XNode → List CursorEvent
  | .text _ => [⟨.text, parent ++ [i], parent, i, false, 0⟩]
  | .element ns name attrs children =>
      ⟨.enterStartTag ns name, parent ++ [i], parent, i, attrs.isEmpty, 0⟩ ::
      (attrEvents (parent ++ [i]) parent i attrs ++
       (childrenEvents (portion / elementCount children) (parent ++ [i]) 0 children ++
        [⟨.endTag ns name, parent ++ [i], parent ++ [i], children.length, true,
          if elementCount children = 0 then portion else 0⟩]))
/-- Modelled from the spec: the Tree Cursor on the children of `parent`, from
child `i` on, in document order. -/
def childrenEvents (portion : ℚ) (parent : Path) (i : Nat) : List XNode → List CursorEvent
  | [] => []
  | c :: rest => nodeEvents portion parent i c ++ childrenEvents portion parent (i + 1) rest
end

/-- Modelled from the spec: the Tree Cursor over a whole document, given as
the children of its root; the root stands for the whole document. -/
def documentEvents (root : List XNode) : List CursorEvent :=
  childrenEvents (1 / elementCount root) [] 0 root

/-- Modelled from the spec: the position of a node in document order: the index
of the first cursor event it yields; the root is at 0. -/
def position (root : List XNode) (n : Path) : Option Nat :=
  if n = [] then some 0
  else
    let i := (documentEvents root).findIdx (fun e => e.self == n)
    if i < (documentEvents root).length then some i else none

/-- Modelled from the spec: the position of the tree location `(node, offset)`:
the index of the first cursor event reported there; the end of the root is where
the cursor is exhausted. -/
def locationPosition (root : List XNode) (node : Path) (offset : Nat) : Option Nat :=
  let i := (documentEvents root).findIdx (fun e => e.node == node && e.offset == offset)
  if i < (documentEvents root).length then some i
  else if node = [] ∧ offset = root.length then some (documentEvents root).length
  else none

/-! ### The controller -/

/-- Modelled from the spec: an entry of the controller's ordered error list: a
validation error and the cursor position at which it was discovered. -/
structure RecordedError where
  position : Nat
  error : ValidationError
  deriving Repr, DecidableEq

/-- Modelled from the spec: the data-model entry `Walker Cache Entry`: keyed by
a node, it stores the walker "as it existed just before that node was entered",
together with the cursor position at which the node is entered. -/
structure CacheEntry (σ : Type) where
  node : Path
  position : Nat
  walker : Walker σ
  deriving Repr, DecidableEq

/-- Modelled from the spec: the outbound notifications of the controller,
`state-update` (working state and fraction done), `error` (one validation
error with its node and offset) and `reset-errors` (where the error list was
truncated). -/
inductive Notification
  | stateUpdate (state : WState) (part_done : ℚ)
  | error (e : ValidationError)
  | resetErrors (pos : Nat)
  deriving Repr, DecidableEq

/-- Modelled from the spec: the Validation Controller: the tree it validates
(the children of its root), the position of the cursor, the walker at that
position, the Walker Cache (for a node, the walker as it was just before the
node was entered), the ordered error list, the working state with its fraction
done, whether the scheduler is armed, and the notifications emitted so far.
The cursor is exhausted at `(documentEvents root).length`, where the document
closes; one past it the walk is over. -/
structure Controller (σ : Type) where
  root : List XNode
  cursor : Nat := 0
  walker : Walker σ
  cache : List (CacheEntry σ) := []
  _errors : List RecordedError := []
  _working_state : WState := WState.INCOMPLETE
  _part_done : ℚ := 0
  running : Bool := false
  notifications : List Notification := []

/-- Modelled from the spec: a new controller for a tree; nothing is scheduled
yet and the state is `Incomplete`. -/
def Controller.new {σ : Type} (g : Grammar σ) (root : List XNode) : Controller σ :=
  { root := root, walker := Walker.initial g }

/-- Modelled from the spec: the walk of the controller is over: the cursor went
through every event and the document was closed. -/
def Controller.finished {σ : Type} (c : Controller σ) : Bool :=
  decide ((documentEvents c.root).length < c.cursor)

/-- Modelled from the spec: the validation error made of a rejection and the
cursor event rejected. -/
def mkError (e : CursorEvent) (r : Rejection) : ValidationError :=
  { node := e.node, offset := e.offset, kind := r.kind, event := some e.ev, names := r.names }

/-- Modelled from the spec: the entries of the Walker Cache once the cursor is
about to process event `e`: on entering an element, the walker as it is just
before is cached for it. -/
def enterCache {σ : Type} (c : Controller σ) (e : CursorEvent) : List (CacheEntry σ) :=
  match e.ev with
  | .enterStartTag _ _ => ⟨e.self, c.cursor, c.walker⟩ :: c.cache
  | _ => c.cache

/-- Modelled from the spec: the entry of the error list for what the walker
reported on event `e` at cursor position `pos`, if it reported a rejection. -/
def recorded (pos : Nat) (e : CursorEvent) : Option Rejection → List RecordedError
  | some r => [⟨pos, mkError e r⟩]
  | none => []

/-- Modelled from the spec: the controller processes one cursor event. On
entering an element it caches the walker as it is just before; it fires the
event; a rejection is recorded at the end of the error list and notified, and
flips the working state to `Invalid` at once, while the walk goes on. -/
def consume {σ : Type} (g : Grammar σ) (c : Controller σ) (e : CursorEvent) :
    Controller σ :=
  let fired := c.walker.fireEvent g e.ev
  { c with
    cursor := c.cursor + 1,
    walker := fired.1,
    cache := enterCache c e,
    _errors := c._errors ++ recorded c.cursor e fired.2,
    _working_state := if fired.2.isSome then WState.INVALID else c._working_state,
    _part_done := c._part_done + e.gain,
    notifications := c.notifications ++
      (recorded c.cursor e fired.2).map (fun r => Notification.error r.error) }

/-- Modelled from the spec: the error raised when the root closes while the
automaton still offers elements: the required-element-missing error, reported at
the end of the root. -/
def closingErrors {σ : Type} (g : Grammar σ) (root : List XNode) (w : Walker σ) :
    List ValidationError :=
  let names := startTagNames (g.possibleEvents w.state)
  if names = [] then []
  else [{ node := [], offset := root.length, kind := ErrorKind.requiredMissing,
          event := none, names := names }]

/-- Modelled from the spec: the cursor is exhausted and the document closes:
a missing required element is recorded and notified, the working state becomes
`Valid` with zero errors and `Invalid` otherwise, the fraction done is 1 and
the scheduler stops. -/
def finish {σ : Type} (g : Grammar σ) (c : Controller σ) : Controller σ :=
  let errs := closingErrors g c.root c.walker
  let all := c._errors ++ errs.map (fun e => ⟨c.cursor, e⟩)
  { c with cursor := c.cursor + 1,
           _errors := all,
           _working_state := if all.isEmpty then WState.VALID else WState.INVALID,
           _part_done := 1,
           running := false,
           notifications := c.notifications ++ errs.map Notification.error }

/-- Modelled from the spec: the quantum of one cycle, on the events the cursor
has left: events are processed up to and including the first that ends the
cycle; when none is left the document closes. -/
def walkCycle {σ : Type} (g : Grammar σ) : List CursorEvent → Controller σ → Controller σ
  | [], c => finish g c
  | e :: rest, c =>
      if e.endsCycle then consume g c e else walkCycle g rest (consume g c e)

/-- Modelled from the spec: one cycle of the Scheduler, `_cycle()`: a bounded
quantum of cursor advancement followed by a `state-update` notification. Once
the walk is over a cycle has nothing to do and the scheduler stops. -/
def _cycle {σ : Type} (g : Grammar σ) (c : Controller σ) : Controller σ :=
  if c.finished then { c with running := false }
  else
    let c1 := walkCycle g ((documentEvents c.root).drop c.cursor) c
    { c1 with notifications :=
        c1.notifications ++ [Notification.stateUpdate c1._working_state c1._part_done] }

/-- Modelled from the spec: `start()`: arms the scheduler; `Incomplete` becomes
`Working` on first scheduling; idempotent if already running. -/
def start {σ : Type} (c : Controller σ) : Controller σ :=
  if c.running then c
  else { c with running := true,
                _working_state :=
                  if c._working_state = WState.INCOMPLETE then WState.WORKING
                  else c._working_state }

/-- Modelled from the spec: `stop()`: halts scheduling and keeps the state. -/
def stop {σ : Type} (c : Controller σ) : Controller σ :=
  { c with running := false }

/-- Modelled from the spec: the Scheduler with a zero time budget ("run to
completion synchronously"): cycles follow one another while the scheduler is
armed. `fuel` bounds the number of cycles; `none` means the bound was reached
with the scheduler still armed. -/
def runToCompletion {σ : Type} (g : Grammar σ) : Nat → Controller σ → Option (Controller σ)
  | 0, c => if c.running then none else some c
  | fuel + 1, c => if c.running then runToCompletion g fuel (_cycle g c) else some c

/-- Modelled from the spec: `initialize(onReady)`: the walk is started and run
until the first full pass completes; the result is the controller `onReady`
is invoked on. -/
def firstPass {σ : Type} (g : Grammar σ) (fuel : Nat) (c : Controller σ) :
    Option (Controller σ) :=
  runToCompletion g fuel (start c)

/-! ### The schema of the tests -/

/-- Modelled from the spec: the schema of the tests, `simplified-rng`, is not
among the sources; this is the state of an automaton for it: the stack of open
elements, innermost first, each with the number of children seen so far; the
bottom frame, named `""`, is the document. -/
abbrev TestState := List (String × Nat)

/-- Modelled from the spec: what the schema of the tests allows in an open
element with `seen` children so far, as the tests of `possibleAt` show it: the
document holds one `html`; `html` holds `head` then `body`; `head` holds one
`title`; `title` holds text; `body` holds any number of `em`; `em` holds text
and `em`. -/
def testPossible : TestState → List Event
  | [] => []
  | ("", 0) :: _ => [.enterStartTag "" "html"]
  | ("html", 0) :: _ => [.enterStartTag "" "head"]
  | ("html", 1) :: _ => [.enterStartTag "" "body"]
  | ("html", _) :: _ => [.endTag "" "html"]
  | ("head", 0) :: _ => [.enterStartTag "" "title"]
  | ("head", _) :: _ => [.endTag "" "head"]
  | ("title", _) :: _ => [.endTag "" "title", .text]
  | ("body", _) :: _ => [.enterStartTag "" "em", .endTag "" "body"]
  | ("em", _) :: _ => [.enterStartTag "" "em", .endTag "" "em", .text]
  | _ => []

/-- Modelled from the spec: the transition function of the schema of the tests:
an event that is not possible is rejected; a start tag opens a frame, an end tag
closes one and counts one more child in the frame below, text changes nothing.
-/
def testAdvance (s : TestState) (ev : Event) : Option TestState :=
  if (testPossible s).contains ev then
    match ev, s with
    | .enterStartTag _ name, _ => some ((name, 0) :: s)
    | .endTag _ _, _ :: (parent, seen) :: below => some ((parent, seen + 1) :: below)
    | .endTag _ _, _ => none
    | _, _ => some s
  else none

/-- Modelled from the spec: the schema of the tests (`simplified-rng`) as a
grammar automaton. -/
def testGrammar : Grammar TestState :=
  { start := [("", 0)], advance := testAdvance, possibleEvents := testPossible }

/-- An element without namespace or attributes. -/
def el (name : String) (children : List XNode) : XNode :=
  .element "" name [] children

/-- Modelled from the spec: the document of the test "percent done",
`percent_to_parse_converted.xml`, which is not among the sources: the elements
the test names cycle by cycle. -/
def percentDocument : List XNode :=
  [el "html" [el "head" [el "title" [.text "abcd"]],
              el "body" [el "em" [], el "em" [el "em" [], el "em" []]]]]

/-! ### Replay, restart and speculative validation -/

/-- Modelled from the spec: replaying events on a walker without recording
anything, as the queries do ("replaying from the nearest cached ancestor
Walker up to location"). -/
def replay {σ : Type} (g : Grammar σ) (w : Walker σ) : List CursorEvent → Walker σ
  | [] => w
  | e :: rest => replay g (w.fireEvent g e.ev).1 rest

/-- Modelled from the spec: step (1) of the restart algorithm: the nearest
ancestor of a node (the node included) that has an entry in the Walker Cache
taken at or before position `p`, as the position and the walker of the entry;
"this always exists for the root", whose walker is the initial one. -/
def nearestCached {σ : Type} (g : Grammar σ) (c : Controller σ) (n : Path) (p : Nat) :
    Nat × Walker σ :=
  (n.inits.reverse.findSome? (fun a =>
      (c.cache.find? (fun entry => entry.node == a && decide (entry.position ≤ p))).map
        (fun entry => (entry.position, entry.walker)))).getD (0, Walker.initial g)

/-- Modelled from the spec: the walker at cursor position `p`, replayed from
the nearest cached ancestor of node `n`. -/
def walkerFrom {σ : Type} (g : Grammar σ) (c : Controller σ) (n : Path) (p : Nat) :
    Walker σ :=
  replay g (nearestCached g c n p).2
    (((documentEvents c.root).drop (nearestCached g c n p).1).take
      (p - (nearestCached g c n p).1))

/-- Modelled from the spec: the fraction done at a cursor position: the shares
gained before it. -/
def partDoneAt (root : List XNode) (p : Nat) : ℚ :=
  (((documentEvents root).take p).map (fun e => e.gain)).sum

/-- Modelled from the spec: the restart algorithm (§4.4) on a node, `_resetTo`:
the walker at the node is recovered from the nearest cached ancestor, the cache
entries of the node, its descendants and its followers in document order are
evicted, the error list is truncated to the errors strictly before the node's
position, the fraction done is reset accordingly, the state returns to
`Working` and `reset-errors` is emitted. A restart never moves the cursor
forward: a node the walk has not reached yet leaves the cursor where it is. A
path that is no node of the tree changes nothing. -/
def _resetTo {σ : Type} (g : Grammar σ) (n : Path) (c : Controller σ) : Controller σ :=
  match position c.root n with
  | none => c
  | some q =>
    let p := min q c.cursor
    { c with
      cursor := p,
      walker := walkerFrom g c n p,
      cache := c.cache.filter (fun entry => decide (entry.position < p)),
      _errors := c._errors.filter (fun e => decide (e.position < p)),
      _working_state := WState.WORKING,
      _part_done := partDoneAt c.root p,
      notifications := c.notifications ++ [Notification.resetErrors p] }

/-- Modelled from the spec: `restartAt(node)`: the restart algorithm, after
which the scheduler resumes the walk. -/
def restartAt {σ : Type} (g : Grammar σ) (n : Path) (c : Controller σ) : Controller σ :=
  { _resetTo g n c with running := (position c.root n).isSome || c.running }

/-- Modelled from the spec: the walk run synchronously, event by event, until
the cursor has reached position `target` (or is exhausted), as `_validateUpTo`
does; the document is not closed. `fuel` bounds the number of events; `none`
means the bound was reached first. -/
def walkTo {σ : Type} (g : Grammar σ) (target : Nat) : Nat → Controller σ → Option (Controller σ)
  | 0, c => if target ≤ c.cursor then some c else none
  | fuel + 1, c =>
      if target ≤ c.cursor then some c
      else match (documentEvents c.root)[c.cursor]? with
        | none => some c
        | some e => walkTo g target fuel (consume g c e)

/-- Modelled from the spec: `_validateUpTo(container, -1)`: the walk is run up
to the position of the container itself. -/
def _validateUpTo {σ : Type} (g : Grammar σ) (fuel : Nat) (container : Path)
    (c : Controller σ) : Option (Controller σ) :=
  match position c.root container with
  | none => some c
  | some p => walkTo g p fuel c

/-- Modelled from the spec: `speculativelyValidate(container, offset,
candidateSubtree)`. The walker at the insertion point is replayed from the
live Walker Cache; a disposable controller over the candidate nodes starts
from that walker with an empty error list and walks the whole candidate; the
result is `false` when it recorded no error and the list of its errors
otherwise. The live controller is handed back as it was. The result is `none`
when `(container, offset)` is no location of the live tree or when `fuel` was
too small for the walk. -/
def speculativelyValidate {σ : Type} (g : Grammar σ) (fuel : Nat) (c : Controller σ)
    (container : Path) (offset : Nat) (candidate : List XNode) :
    Option (SpeculativeResult ValidationError × Controller σ) :=
  match locationPosition c.root container offset with
  | none => none
  | some p =>
    let sandbox : Controller σ :=
      { root := candidate, walker := walkerFrom g c container p,
        _working_state := WState.WORKING }
    match walkTo g (documentEvents candidate).length fuel sandbox with
    | none => none
    | some done =>
      if done._errors.isEmpty then some (SpeculativeResult.noError, c)
      else some (SpeculativeResult.errors (done._errors.map (fun e => e.error)), c)

/-- Modelled from the spec: the document of the other tests of the validator,
`to_parse_converted.xml`, as far as the tests show it: a `title` with text, and
a `body` with `em` elements. -/
def testDocument : List XNode :=
  [el "html" [el "head" [el "title" [.text "abcd"]],
              el "body" [el "em" [.text "blah"], el "em" [el "em" [.text "foo"]]]]]

/-! ### What a walk is expected to find -/

/-- The errors a walk records when it processes `events` from walker `w`, the
first event being at cursor position `pos`. -/
def walkErrors {σ : Type} (g : Grammar σ) (w : Walker σ) (pos : Nat) :
    List CursorEvent → List RecordedError
  | [] => []
  | e :: rest =>
      recorded pos e (w.fireEvent g e.ev).2 ++
      walkErrors g (w.fireEvent g e.ev).1 (pos + 1) rest

/-- The walker at cursor position `p` of a tree, replayed from the start of
the document. -/
def walkerAt {σ : Type} (g : Grammar σ) (root : List XNode) (p : Nat) : Walker σ :=
  replay g (Walker.initial g) ((documentEvents root).take p)

/-- The errors of a complete walk of a tree from its start: those of the
events, then those of the closing of the document. -/
def expectedErrors {σ : Type} (g : Grammar σ) (root : List XNode) : List RecordedError :=
  walkErrors g (Walker.initial g) 0 (documentEvents root) ++
    (closingErrors g root (walkerAt g root (documentEvents root).length)).map
      (fun e => ⟨(documentEvents root).length, e⟩)

/-- The automaton run on a sequence of events: the state reached, or `none` as
soon as an event is rejected. -/
def accepts {σ : Type} (g : Grammar σ) (s : σ) : List Event → Option σ
  | [] => some s
  | ev :: rest =>
      match g.advance s ev with
      | some s1 => accepts g s1 rest
      | none => none

/-- A document fully conforms to the grammar: the automaton accepts the events
of the document in order and, when the document closes, offers no further
element. -/
def conforms {σ : Type} (g : Grammar σ) (root : List XNode) : Bool :=
  match accepts g g.start ((documentEvents root).map (fun e => e.ev)) with
  | some s => (startTagNames (g.possibleEvents s)).isEmpty
  | none => false

/-- The errors the candidate nodes would produce if walked from the walker at
position `p` of the tree `root`. -/
def fragmentErrors {σ : Type} (g : Grammar σ) (root : List XNode) (p : Nat)
    (candidate : List XNode) : List ValidationError :=
  (walkErrors g (walkerAt g root p) 0 (documentEvents candidate)).map (fun e => e.error)

/-- The error the design promises for a cursor event the automaton rejects in
state `s`, spelled out: it is located where the event is reported, carries the
event and the names of the elements the automaton would have accepted, and is
a required-element-missing error when the event closes a container in which an
element was still due, a grammar-rejection error otherwise. -/
def rejectionOf {σ : Type} (g : Grammar σ) (s : σ) (e : CursorEvent) : ValidationError :=
  { node := e.node,
    offset := e.offset,
    kind :=
      match e.ev with
      | .endTag _ _ =>
          if startTagNames (g.possibleEvents s) = [] then ErrorKind.rejected
          else ErrorKind.requiredMissing
      | _ => ErrorKind.rejected,
    event := some e.ev,
    names := startTagNames (g.possibleEvents s) }

/-! ### Histories of a controller -/

/-- An operation on a controller: the public contract and the scheduler's
cycle. -/
inductive Op
  | start
  | stop
  | cycle
  | restartAt (n : Path)
  | speculativelyValidate (fuel : Nat) (container : Path) (offset : Nat)
      (candidate : List XNode)
  deriving Repr

/-- The controller after one operation. -/
def exec {σ : Type} (g : Grammar σ) (c : Controller σ) : Op → Controller σ
  | .start => start c
  | .stop => stop c
  | .cycle => _cycle g c
  | .restartAt n => restartAt g n c
  | .speculativelyValidate fuel container offset candidate =>
      match speculativelyValidate g fuel c container offset candidate with
      | some (_, c1) => c1
      | none => c

/-- The controller after a history of operations, oldest first. -/
def execAll {σ : Type} (g : Grammar σ) (c : Controller σ) (ops : List Op) : Controller σ :=
  ops.foldl (exec g) c

/-- Whether an operation is a speculative validation. -/
def Op.isSpeculative : Op → Bool
  | .speculativelyValidate _ _ _ _ => true
  | _ => false

/-- The state of a controller is consistent with its tree: the cursor is within
the walk, the walker is the one a walk from the start of the document has at
the cursor, every cache entry was taken before the cursor and holds the walker
a walk from the start has at the entry's position, the error list holds what a
walk from the start records before the cursor (and at the closing, once the
walk is over), and so does the fraction done; once the walk is over the
working state is the final judgment. -/
structure Consistent {σ : Type} (g : Grammar σ) (c : Controller σ) : Prop where
  cursor_le : c.cursor ≤ (documentEvents c.root).length + 1
  walker_eq : c.walker = walkerAt g c.root c.cursor
  cache_ok : ∀ entry ∈ c.cache,
    entry.position < c.cursor ∧ entry.walker = walkerAt g c.root entry.position
  errors_eq : c._errors =
    if c.cursor ≤ (documentEvents c.root).length then
      walkErrors g (Walker.initial g) 0 ((documentEvents c.root).take c.cursor)
    else expectedErrors g c.root
  part_done_eq : c._part_done =
    if c.cursor ≤ (documentEvents c.root).length then partDoneAt c.root c.cursor else 1
  state_final : (documentEvents c.root).length < c.cursor →
    c._working_state = (if c._errors.isEmpty then WState.VALID else WState.INVALID)

/-- Whether a notification is an `error` notification. -/
def Notification.isError : Notification → Bool
  | .error _ => true
  | _ => false

/-- The controller of the tests once initialized: a new controller on the
document of the tests, started and run for eighteen cycles. -/
def initializedTest : Controller TestState :=
  execAll testGrammar (Controller.new testGrammar testDocument)
    (Op.start :: List.replicate 18 Op.cycle)

/-- The error the tests expect for an `em` offered where `body` is due:
`tag not allowed here: {}em`. -/
def misplacedEm : ValidationError :=
  { node := [], offset := 0, kind := ErrorKind.rejected,
    event := some (Event.enterStartTag "" "em"), names := [⟨"", "body"⟩] }

/-- The environment of a paste for the tests: a caret in node 5, the clipboard
text, a parser that wraps the text in a `div` holding one `em` element, and a
validator that answers alike whatever it is asked. -/
def testPasteEnv (text : String) (answer : SpeculativeResult ValidationError) :
    PasteEnv ValidationError :=
  { getDataCaret := some ⟨5, 0⟩,
    clipboardText := some text,
    parseFromString := fun _ => .element "div" none [.element "em" none []],
    speculativelyValidate := fun _ _ => answer }

/-- The controller of the test "percent done" after `n` cycles. -/
def percentWalk (n : Nat) : Controller TestState :=
  execAll testGrammar (Controller.new testGrammar percentDocument)
    (Op.start :: List.replicate n Op.cycle)

/-- A document whose first element the schema of the tests does not allow. -/
def misplacedDocument : List XNode :=
  [el "body" [el "em" []], el "em" []]

/-- The controller on the misplaced document after `n` cycles. -/
def misplacedWalk (n : Nat) : Controller TestState :=
  execAll testGrammar (Controller.new testGrammar misplacedDocument)
    (Op.start :: List.replicate n Op.cycle)

/-! ## `util.ts`: attribute names -/

/-- A global replacement whose pattern matches whole runs of dashes, as
`replace` does with the global regular expressions `--(-+)` and `---(-+)`: the
pattern is greedy and matches from the first dash of a run, so each maximal run
of `k` dashes is rewritten as a run of `f k` dashes and everything else is
copied. `pending` is the length of the run being read. -/
def mapDashRuns (f : Nat → Nat) : Nat → List Char → List Char
  | pending, [] => List.replicate (f pending) '-'
  | pending, c :: rest =>
      if c = '-' then mapDashRuns f (pending + 1) rest
      else List.replicate (f pending) '-' ++ c :: mapDashRuns f 0 rest

/-- The replacement of the global regular expression `--(-+)` by `---$1`: a run
of three dashes or more gets one more dash. -/
def escapeDashes (s : List Char) : List Char :=
  mapDashRuns (fun k => if 3 ≤ k then k + 1 else k) 0 s

/-- The replacement of the global regular expression `---(-+)` by `--$1`: a run
of four dashes or more loses one dash. -/
def unescapeDashes (s : List Char) : List Char :=
  mapDashRuns (fun k => if 4 ≤ k then k - 1 else k) 0 s

/-- The replacement of the regular expression `:` (not global) by `---`: the
first colon, if any, becomes three dashes. -/
def replaceFirstColon : List Char → List Char
  | [] => []
  | c :: rest => if c = ':' then '-' :: '-' :: '-' :: rest else c :: replaceFirstColon rest

/-- The replacement of the regular expression `---` (not global) by `:`: the
first occurrence of three dashes, if any, becomes a colon. -/
def replaceFirstTripleDash : List Char → List Char
  | '-' :: '-' :: '-' :: rest => ':' :: rest
  | c :: rest => c :: replaceFirstTripleDash rest
  | [] => []

/-- The function `encodeAttrName` of `util.ts`: `data-wed-` followed by the
name in which runs of dashes are escaped (`--(-+)` becomes `---$1`, globally)
and then the first colon is replaced by `---`. -/
def encodeAttrName (name : String) : String :=
  "data-wed-" ++ String.mk (replaceFirstColon (escapeDashes name.toList))

/-- The function `decodeAttrName` of `util.ts`: `name.slice(9)` skips
`data-wed-`, then the first `---` is replaced by a colon, then runs of dashes
are unescaped (`---(-+)` becomes `--$1`, globally). -/
def decodeAttrName (name : String) : String :=
  String.mk (unescapeDashes (replaceFirstTripleDash (name.toList.drop 9)))

/-! ## `util.ts`: distances and identifiers -/

/-- The function `distFromDeltas` of `util.ts`:
`Math.sqrt(delta1 * delta1 + delta2 * delta2)`. Numbers are exact rationals and
`Math.sqrt` is a parameter. -/
def distFromDeltas (sqrt : ℚ → ℚ) (delta1 delta2 : ℚ) : ℚ :=
  sqrt (delta1 * delta1 + delta2 * delta2)

/-- The function `distFromRect` of `util.ts`:
```
const topDelta = y - top;       const leftDelta = x - left;
const bottomDelta = y - bottom; const rightDelta = x - right;
const above = topDelta < 0;     const below = bottomDelta > 0;
const lefter = leftDelta < 0;   const righter = rightDelta > 0;
const deltaX = lefter ? leftDelta : (righter ? rightDelta : 0);
const deltaY = above ? topDelta : (below ? bottomDelta : 0);
return distFromDeltas(deltaX, deltaY);
``` -/
def distFromRect (sqrt : ℚ → ℚ) (x y left top right bottom : ℚ) : ℚ :=
  let topDelta := y - top
  let leftDelta := x - left
  let bottomDelta := y - bottom
  let rightDelta := x - right
  let above := decide (topDelta < 0)
  let below := decide (bottomDelta > 0)
  let lefter := decide (leftDelta < 0)
  let righter := decide (rightDelta > 0)
  let deltaX := if lefter then leftDelta else (if righter then rightDelta else 0)
  let deltaY := if above then topDelta else (if below then bottomDelta else 0)
  distFromDeltas sqrt deltaX deltaY

/-- The object `{x, y}` that `distsFromRect` returns. -/
structure Dists where
  x : ℚ
  y : ℚ
  deriving Repr, DecidableEq

/-- The function `distsFromRect` of `util.ts`: the same deltas as in
`distFromRect`, returned as `{ x: Math.abs(deltaX), y: Math.abs(deltaY) }`. -/
def distsFromRect (x y left top right bottom : ℚ) : Dists :=
  let topDelta := y - top
  let leftDelta := x - left
  let bottomDelta := y - bottom
  let rightDelta := x - right
  let above := decide (topDelta < 0)
  let below := decide (bottomDelta > 0)
  let lefter := decide (leftDelta < 0)
  let righter := decide (rightDelta > 0)
  let deltaX := if lefter then leftDelta else (if righter then rightDelta else 0)
  let deltaY := if above then topDelta else (if below then bottomDelta else 0)
  { x := |deltaX|, y := |deltaY| }

/-- The function `newGenericID` of `util.ts`, on the module variable `nextID`:
the id `WED-ID-` followed by the incremented counter, and the new value of the
counter. -/
def newGenericID (nextID : Nat) : String × Nat :=
  ("WED-ID-" ++ toString (nextID + 1), nextID + 1)

/-- The ids returned by `n` successive calls of `newGenericID`, oldest first,
from the value `nextID` of the counter, and the value of the counter after
them. -/
def newGenericIDs : Nat → Nat → List String × Nat
  | 0, nextID => ([], nextID)
  | n + 1, nextID =>
      ((newGenericID nextID).1 :: (newGenericIDs n (newGenericID nextID).2).1,
       (newGenericIDs n (newGenericID nextID).2).2)

/-- The number a string of decimal digits stands for. -/
def decimalValue (l : List Char) : Nat :=
  l.foldl (fun acc c => acc * 10 + (c.toNat - 48)) 0

/-! ## `util.ts`: name patterns -/

/-- A "pattern object", the result of `toObject()` on a name pattern of salve,
as `convertPatternObj` reads it: the fields `a` and `b` of a `NameChoice`, the
field `pattern`, the fields `ns` and `name`, and the field `except`; a field
that is `undefined` (or `null`) is `none`. -/
inductive PatternObj
  | mk (a b : Option PatternObj) (pattern ns name : Option String)
      (except : Option PatternObj)
  deriving Repr

/-- The resolver handed to `convertPatternObj`: `unresolveName(ns, name)` and
`prefixFromURI(uri)`, each returning `undefined` (`none`) when it cannot
resolve. -/
structure NameResolver where
  unresolveName : String → String → Option String
  prefixFromURI : String → Option String

/-- The function `convertPatternObj` of `util.ts`; the result is the string, or
the message of the error thrown. -/
def convertPatternObj (resolver : NameResolver) : PatternObj → Except String String
  | .mk a b pattern ns name except =>
    match a, b with
    | some a1, some b1 =>
      -- NameChoice
      match convertPatternObj resolver a1, convertPatternObj resolver b1 with
      | .ok sa, .ok sb => .ok ("(" ++ sa ++ ") or (" ++ sb ++ ")")
      | .error e, _ => .error e
      | .ok _, .error e => .error e
    | _, _ =>
      let base : Except String String :=
        if pattern = some "AnyName" then .ok "*:*"
        else
          -- Name and NsName
          match ns with
          | none => .error "unexpected undefined obj.ns"
          | some uri =>
            match name with
            | some local1 =>
              match resolver.unresolveName uri local1 with
              | some ret => .ok ret
              -- Cannot unresolve, use the expanded name.
              | none => .ok ("\x7b" ++ uri ++ "\x7d" ++ local1)
            | none =>
              match resolver.prefixFromURI uri with
              | none => .ok ("\x7b" ++ uri ++ "\x7d" ++ "*")
              | some p => .ok ((if p ≠ "" then p ++ ":" else p) ++ "*")
      match base with
      | .error e => .error e
      | .ok ret =>
        match except with
        | some ex =>
          match convertPatternObj resolver ex with
          | .ok se => .ok (ret ++ " except (" ++ se ++ ")")
          | .error e => .error e
        | none => .ok ret

/-- A resolver for the tests of `convertPatternObj`: `uri:d` is the default
namespace, `uri:p` is bound to the prefix `p`, nothing else is known. -/
def testResolver : NameResolver :=
  { unresolveName := fun uri n =>
      if uri = "uri:d" then some n
      else if uri = "uri:p" then some ("p:" ++ n)
      else none,
    prefixFromURI := fun uri =>
      if uri = "uri:d" then some ""
      else if uri = "uri:p" then some "p"
      else none }

/-- The pattern object of the name pattern "any name of the default namespace
except `foo`": an `NsName` with an exception. -/
def nsNameExceptFoo : PatternObj :=
  .mk none none (some "NsName") (some "uri:d") none
    (some (.mk none none (some "Name") (some "uri:d") (some "foo") none))

/-! ## `wundo.js`: `TextUndoGroup` -/

/-- A `TextUndoGroup`: the `_list` of undo operations recorded so far (kept by
the parent class `undo.UndoGroup`), the `_limit` given to the constructor, and
the number of calls made to `endGroup()` on the owning `_undo_list`. -/
structure TextUndoGroup (α : Type) where
  _list : List α
  _limit : Nat
  endGroup_calls : Nat := 0
  deriving Repr, DecidableEq

/-- The group made by `new TextUndoGroup(desc, editor, undo_list, limit)`: no
operation recorded yet. -/
def TextUndoGroup.create (α : Type) (limit : Nat) : TextUndoGroup α :=
  { _list := [], _limit := limit }

/-- The method `TextUndoGroup.prototype.record`:
```
if (this._list.length >= this._limit)
    throw new Error("TextUndoGroup.record called beyond the limit");
undo.UndoGroup.prototype.record.apply(this, arguments);
if (this._list.length === this._limit)
    this._undo_list.endGroup();
```
The parent's `record`, of `undo.js`, is the parameter `parentRecord`: what it
makes of `_list` when it is given an operation. -/
def TextUndoGroup.record {α : Type} (parentRecord : List α → α → List α)
    (this : TextUndoGroup α) (op : α) : Outcome (TextUndoGroup α) :=
  if this._list.length ≥ this._limit then
    { thrown := some "TextUndoGroup.record called beyond the limit", state := this }
  else
    let this1 := { this with _list := parentRecord this._list op }
    if this1._list.length = this1._limit then
      { thrown := none, state := { this1 with endGroup_calls := this1.endGroup_calls + 1 } }
    else
      { thrown := none, state := this1 }

/-- A sequence of calls to `record` on one group, a call that throws being
caught by the caller. -/
def TextUndoGroup.recordAll {α : Type} (parentRecord : List α → α → List α)
    (this : TextUndoGroup α) : List α → TextUndoGroup α
  | [] => this
  | op :: rest =>
      TextUndoGroup.recordAll parentRecord (TextUndoGroup.record parentRecord this op).state rest

/-! ## `destroy` and `_processWedOptions` -/

/-- The method `destroy`, as far as the state of this model goes:
```
if (this._destroyed) return;
…
try { if (this.validator) this.validator.stop(); } catch (ex) { log.unhandled(ex); }
…
try { this.$widget.empty(); … } catch (ex) { log.unhandled(ex); }
…
this._destroyed = true;
```
The deletion of the editor's own properties is not represented. -/
def destroy (ed : Editor) : Editor :=
  if ed._destroyed then ed
  else
    { ed with
      validator_calls :=
        if ed.has_validator then ed.validator_calls ++ [ValidatorCall.stop]
        else ed.validator_calls,
      widget := [],
      _destroyed := true }

/-- The `label_levels` of the options a mode passes to wed. -/
structure LabelLevels where
  max : Int
  initial : Int
  deriving Repr, DecidableEq

/-- The options a mode passes to wed, without the `metadata`, which only the
template check reads. -/
structure WedOptions where
  label_levels : LabelLevels
  attributes : Option String := none
  deriving Repr, DecidableEq

/-- What `object_check.check(template, options)` returns. -/
structure CheckResult where
  missing : Option (List String) := none
  extra : Option (List String) := none
  deriving Repr, DecidableEq

/-- The method `Array.prototype.join`. -/
def join (sep : String) : List String → String
  | [] => ""
  | [x] => x
  | x :: y :: rest => x ++ sep ++ join sep (y :: rest)

/-- The local function `terminate` of `_processWedOptions`:
```
this._limitation_modal.setBody("<p>The mode you are trying to use is passing incorrect " +
    "options to wed. Contact the mode author with the following information: </p>" +
    "<ul><li>" + errors.join("</li><li>") + "</li></ul>");
this._limitation_modal.modal(function () { window.location.reload(); });
this.destroy();
return false;
``` -/
def terminate (errors : List String) (ed : Editor) : Bool × Editor :=
  (false,
   destroy { ed with
     limitation_modal_body := some (
       "<p>The mode you are trying to use is passing incorrect " ++
       "options to wed. Contact the mode author with the " ++
       "following information: </p>" ++
       "<ul><li>" ++ join "</li><li>" errors ++ "</li></ul>"),
     limitation_modal_shown := ed.limitation_modal_shown + 1 })

/-- The method `decreaseLabelVisiblityLevel`, without its effects on the GUI:
```
if (!this._current_label_level) return;
…
this._current_label_level--;
``` -/
def decreaseLabelVisiblityLevel (ed : Editor) : Editor :=
  match ed._current_label_level with
  | none => ed
  | some c => if c = 0 then ed else { ed with _current_label_level := some (c - 1) }

/-- The condition `this._current_label_level > initial`, false while the level
is undefined. -/
def aboveLevel (initial : Int) (ed : Editor) : Bool :=
  match ed._current_label_level with
  | some c => decide (c > initial)
  | none => false

/-- The loop
```
while(this._current_label_level > initial)
    this.decreaseLabelVisiblityLevel();
```
with `fuel` bounding the number of iterations: `none` when the fuel is used up
before the condition becomes false. -/
def lowerLabelLevel (initial : Int) : Nat → Editor → Option Editor
  | 0, ed => if aboveLevel initial ed then none else some ed
  | fuel + 1, ed =>
      if aboveLevel initial ed then
        lowerLabelLevel initial fuel (decreaseLabelVisiblityLevel ed)
      else some ed

/-- The value of `options.attributes` after
```
if (!options.attributes) options.attributes = "hide";
``` -/
def attributesOrDefault (attributes : Option String) : String :=
  match attributes with
  | none => "hide"
  | some a => if a = "" then "hide" else a

/-- The errors `_processWedOptions` draws from the template check:
```
if (ret.missing) ret.missing.forEach(function (name) { errors.push("missing option: " + name); });
if (ret.extra) ret.extra.forEach(function (name) { errors.push("extra option: " + name); });
``` -/
def templateErrors (ret : CheckResult) : List String :=
  (match ret.missing with
   | some names => names.map (fun name => "missing option: " ++ name)
   | none => []) ++
  (match ret.extra with
   | some names => names.map (fun name => "extra option: " ++ name)
   | none => [])

/-- The errors `_processWedOptions` finds in options that passed the template
check, `attributes` being the value after the default was filled in:
```
if (this.max_label_level < 1) errors.push("label_levels.max must be >= 1");
…
if (initial > this.max_label_level)
    errors.push("label_levels.initial must be < label_levels.max");
if (initial < 1) errors.push("label_levels.initial must be >= 1");
…
var valid_attributes = ["hide", "show", "edit"];
if (valid_attributes.indexOf(attributes) === -1)
    errors.push("attributes option not a valid value: " + attributes +
                "; must be one of " + valid_attributes.join(", "));
``` -/
def optionErrors (levels : LabelLevels) (attributes : String) : List String :=
  (if levels.max < 1 then ["label_levels.max must be >= 1"] else []) ++
  (if levels.initial > levels.max then
     ["label_levels.initial must be < label_levels.max"] else []) ++
  (if levels.initial < 1 then ["label_levels.initial must be >= 1"] else []) ++
  (if ¬ attributes ∈ ["hide", "show", "edit"] then
     ["attributes option not a valid value: " ++ attributes ++
      "; must be one of " ++ join ", " ["hide", "show", "edit"]] else [])

/-- The method `_processWedOptions`, given what `object_check.check(template,
options)` returned. The result is the returned boolean, the editor and the
options (which the method fills in) afterwards; `none` when the loop that
lowers the label level does not end within `fuel` iterations.
```
if (errors.length) return terminate();
this.max_label_level = options.label_levels.max;
…
this._current_label_level = this.max_label_level;
var initial = options.label_levels.initial;
…
if (!options.attributes) options.attributes = "hide";
var attributes = this.attributes = options.attributes;
…
while(this._current_label_level > initial) this.decreaseLabelVisiblityLevel();
if (errors.length) return terminate();
return true;
``` -/
def _processWedOptions (ret : CheckResult) (fuel : Nat) (options : WedOptions) (ed : Editor) :
    Option (Bool × Editor × WedOptions) :=
  if templateErrors ret ≠ [] then
    let r := terminate (templateErrors ret) ed
    some (r.1, r.2, options)
  else
    let attributes : String := attributesOrDefault options.attributes
    let options1 := { options with attributes := some attributes }
    let errors := optionErrors options.label_levels attributes
    let ed1 := { ed with
      max_label_level := some options.label_levels.max,
      _current_label_level := some options.label_levels.max,
      attributes := some attributes }
    match lowerLabelLevel options.label_levels.initial fuel ed1 with
    | none => none
    | some ed2 =>
      if errors ≠ [] then
        let r := terminate errors ed2
        some (r.1, r.2, options1)
      else some (true, ed2, options1)

/-! ## `decorator.js`: `mustHideAttribute` -/

/-- The function `attributeSelectorMatch`:
```
return selector === "*" || selector === name;
``` -/
def attributeSelectorMatch (selector name : String) : Bool :=
  selector == "*" || selector == name

/-- An item of the `attributes` of an element spec: a string, which selects
attributes, or an object whose `except` lists selectors of exceptions. -/
inductive AttributeSpec
  | selector (s : String)
  | exceptions (except : List String)
  deriving Repr, DecidableEq

/-- An item of `attributeHidingSpecs.elements`. -/
structure ElementSpec where
  selector : String
  attributes : List AttributeSpec
  deriving Repr, DecidableEq

/-- The value of `attributeHidingSpecs`, when it is not `null`. -/
structure AttributeHidingSpecs where
  elements : List ElementSpec
  deriving Repr, DecidableEq

/-- The loop over `attribute.except`, entered with `matches` true:
```
for (exception of attribute.except) {
    matches = !attributeSelectorMatch(exception, name);
    if (!matches) break;
}
``` -/
def exceptLoop (name : String) : List String → Bool
  | [] => true
  | exception :: rest =>
      if !(!attributeSelectorMatch exception name) then false
      else exceptLoop name rest

/-- The loop over `element.attributes`, `matched` being the variable `matches`:
```
if (typeof attribute === "string") {
    if (!matches) matches = attributeSelectorMatch(attribute, name);
}
else {
    if (matches) { … the loop over attribute.except … }
}
``` -/
def attributesLoop (name : String) : Bool → List AttributeSpec → Bool
  | matched, [] => matched
  | matched, .selector sel :: rest =>
      attributesLoop name
        (if !matched then attributeSelectorMatch sel name else matched) rest
  | matched, .exceptions except :: rest =>
      attributesLoop name (if matched then exceptLoop name except else matched) rest

/-- The loop over `specs.elements` with the `return false` that follows it;
`elMatches` is `el.matches`:
```
if (el.matches(element.selector)) {
    var matches = false;
    …
    return matches;
}
``` -/
def elementsLoop (elMatches : String → Bool) (name : String) : List ElementSpec → Bool
  | [] => false
  | element :: rest =>
      if elMatches element.selector then attributesLoop name false element.attributes
      else elementsLoop elMatches name rest

/-- The method `mustHideAttribute(el, name)`, `el` being given by its method
`matches` and `specs` being `this.attributeHidingSpecs` (`none` for `null`). -/
def mustHideAttribute (specs : Option AttributeHidingSpecs) (elMatches : String → Bool)
    (name : String) : Bool :=
  match specs with
  | none => false
  | some specs => elementsLoop elMatches name specs.elements

/-- Specs for the tests of `mustHideAttribute`: hide everything on `div`,
everything but `type` on `p`, and everything on any element. -/
def testHidingSpecs : AttributeHidingSpecs :=
  { elements := [
      { selector := "div", attributes := [.selector "*"] },
      { selector := "p", attributes := [.selector "*", .exceptions ["type"]] },
      { selector := "*", attributes := [.selector "*"] }] }

/-! ## `decorator.js`: `listDecorator` -/

/-- An element child of the element that `listDecorator` decorates: its class
list, its attributes and its text content. -/
structure Element where
  tagName : String := "div"
  classList : List String
  attributes : List (String × String) := []
  textContent : String := ""
  deriving Repr, DecidableEq

/-- The test `child.classList.contains("_real")`. -/
def Element.isReal (child : Element) : Bool :=
  child.classList.contains "_real"

/-- The method `hasAttribute`. -/
def Element.hasAttribute (child : Element) (name : String) : Bool :=
  child.attributes.any (fun a => a.1 == name)

/-- The method `setAttribute` on a list of attributes. -/
def setAttributeIn (name value : String) : List (String × String) → List (String × String)
  | [] => [(name, value)]
  | a :: rest => if a.1 == name then (name, value) :: rest else a :: setAttributeIn name value rest

/-- The method `setAttribute`. -/
def Element.setAttribute (child : Element) (name value : String) : Element :=
  { child with attributes := setAttributeIn name value child.attributes }

/-- The function `util.getOriginalName`:
```
return el.classList[0];
``` -/
def getOriginalName (el : Element) : String :=
  match el.classList with
  | [] => "undefined"
  | c :: _ => c

/-- The keys of `nameMap` after `nameMap[key] = 1`. -/
def setKey (keys : List String) (key : String) : List String :=
  if key ∈ keys then keys else keys ++ [key]

/-- The first loop of `listDecorator`, from the child `child` on; `nameMap` is
given by its keys:
```
while (child !== null) {
    if (child.classList.contains("_real")) nameMap[util.getOriginalName(child)] = 1;
    child = child.nextElementSibling;
}
``` -/
def collectNames : List String → List Element → List String
  | nameMap, [] => nameMap
  | nameMap, child :: rest =>
      collectNames (if child.isReal then setKey nameMap (getOriginalName child) else nameMap) rest

/-- The second loop of `listDecorator`, which drops the separators:
```
while (child !== null) {
    var next = child.nextElementSibling;
    if (child.hasAttribute("data-wed--separator-for")) this.guiUpdater.removeNode(child);
    child = next;
}
``` -/
def dropSeparators : List Element → List Element
  | [] => []
  | child :: rest =>
      if child.hasAttribute "data-wed--separator-for" then dropSeparators rest
      else child :: dropSeparators rest

/-- The argument `sep` of `listDecorator`: a string or an element. -/
inductive Separator
  | text (sep : String)
  | node (sep : Element)
  deriving Repr, DecidableEq

/-- The node `sepNode` of `listDecorator`:
```
if (typeof sep === "string") {
    sepNode = el.ownerDocument.createElement("div");
    sepNode.textContent = sep;
}
else sepNode = sep;
sepNode.classList.add("_text");
sepNode.classList.add("_phantom");
sepNode.setAttribute("data-wed--separator-for", tagName);
``` -/
def makeSepNode (sep : Separator) (tagName : String) : Element :=
  let sepNode : Element :=
    match sep with
    | .text s => { tagName := "div", classList := [], textContent := s }
    | .node e => e
  let sepNode := { sepNode with classList := addClass sepNode.classList "_text" }
  let sepNode := { sepNode with classList := addClass sepNode.classList "_phantom" }
  sepNode.setAttribute "data-wed--separator-for" tagName

/-- The third loop of `listDecorator`, from the child `child` on, `first` being
the variable of that name; a clone of `sepNode` is a value equal to it:
```
while (child !== null) {
    if (child.classList.contains("_real")) {
        if (!first) this.guiUpdater.insertBefore(el, sepNode.cloneNode(true), child);
        else first = false;
    }
    child = child.nextElementSibling;
}
``` -/
def insertSeparators (sepNode : Element) : Bool → List Element → List Element
  | _, [] => []
  | first, child :: rest =>
      if child.isReal then
        if !first then sepNode :: child :: insertSeparators sepNode first rest
        else child :: insertSeparators sepNode false rest
      else child :: insertSeparators sepNode first rest

/-- The method `listDecorator(el, sep)`, `el` being given by the list of its
element children (the loops go from `firstElementChild` along
`nextElementSibling`, so the text nodes in between play no part) and the
result being that list afterwards:
```
var tags = Object.keys(nameMap);
if (tags.length > 1) throw new Error("calling listDecorator on a non-homogeneous list.");
if (tags.length === 0) return;
…
var tagName = tags[0];
``` -/
def listDecorator (el : List Element) (sep : Separator) : Outcome (List Element) :=
  let tags := collectNames [] el
  if tags.length > 1 then
    { thrown := some "calling listDecorator on a non-homogeneous list.", state := el }
  else
    match tags with
    | [] => { thrown := none, state := el }
    | tagName :: _ =>
      { thrown := none,
        state := insertSeparators (makeSepNode sep tagName) true (dropSeparators el) }

/-- A `_real` element of the data tree with original name `p`. -/
def realP (text : String) : Element :=
  { classList := ["p", "_real"], textContent := text }

/-! ## `generic-tr.js`: `_autoinsert` -/

/-- An item of the array `ename.toArray()`: a name with its `ns` and `name`. -/
structure SimpleName where
  ns : String
  name : String
  deriving Repr, DecidableEq

/-- A name pattern as `_autoinsert` looks at it: what its `toArray()` returns,
`none` for `null`. -/
structure NamePattern where
  toArray : Option (List SimpleName)
  deriving Repr, DecidableEq

/-- The `error` of an item of `validator.getErrorsFor(el)`, as `_autoinsert`
looks at it: its `toString()` and its `getNames()`. -/
structure ErrorInfo where
  toString : String
  getNames : List NamePattern
  deriving Repr, DecidableEq

/-- `String.prototype.lastIndexOf(search, 0)`: a search backwards from index 0
can only find `search` at index 0. -/
def lastIndexOfFromZero (s search : List Char) : Int :=
  if search.isPrefixOf s then 0 else -1

/-- The function `errFilter`:
```
var errMsg = err.error.toString();
return errMsg.lastIndexOf("tag required: ", 0) === 0;
``` -/
def errFilter (err : ErrorInfo) : Bool :=
  lastIndexOfFromZero err.toString.toList "tag required: ".toList == 0

/-- An action of the mode over the state `W` of the editor (document, caret and
validator): its `needsInput` and its `execute`, called with `{name: …}`. -/
structure Action (W : Type) where
  needsInput : Bool
  execute : Option String → W → W

/-- What `_autoinsert(el, editor)` calls on the editor, `el` being fixed and `W`
being the state of the editor:
`editor.validator.getErrorsFor(el)`,
`editor.validator.possibleWhere(el, new salve.Event("enterStartTag", ns, name))`,
`editor.resolver.unresolveName(ns, name)` (`none` for `undefined`),
`editor.mode.getContextualActions("insert", unresolved, el, location)` and
`editor.caretManager.setCaret(el, location)`. -/
structure AutoinsertEnv (W : Type) where
  getErrorsFor : W → List ErrorInfo
  possibleWhere : W → SimpleName → List Nat
  unresolveName : W → String → String → Option String
  getContextualActions : W → Option String → Nat → List (Action W)
  setCaret : W → Nat → W

/-- What one iteration of the loop of `_autoinsert` comes to: a `break`, a
`TypeError` on reading a property of `undefined`, or the execution of an action,
with the state it leaves. -/
inductive AutoinsertStep (W : Type)
  | stop
  | thrown (message : String)
  | executed (action : Action W) (after : W)

/-- One iteration of the loop of `_autoinsert`:
```
var errors = editor.validator.getErrorsFor(el);
errors = errors.filter(errFilter);
if (errors.length === 0) break;
var ename = errors[0].error.getNames()[0];
var names = ename.toArray();
if (names === null || names.length > 1) break;
var name_1 = names[0];
var locations = editor.validator.possibleWhere(el,
    new salve.Event("enterStartTag", name_1.ns, name_1.name));
if (locations.length !== 1) break;
var unresolved = editor.resolver.unresolveName(name_1.ns, name_1.name);
var actions = editor.mode.getContextualActions("insert", unresolved, el, locations[0]);
if (actions.length !== 1) break;
if (actions[0].needsInput) break;
editor.caretManager.setCaret(el, locations[0]);
actions[0].execute({ name: unresolved });
``` -/
def autoinsertStep {W : Type} (env : AutoinsertEnv W) (w : W) : AutoinsertStep W :=
  match (env.getErrorsFor w).filter errFilter with
  | [] => .stop
  | err :: _ =>
    match err.getNames with
    | [] => .thrown "TypeError: ename is undefined"
    | ename :: _ =>
      match ename.toArray with
      | none => .stop
      | some names =>
        if names.length > 1 then .stop
        else
          match names with
          | [] => .thrown "TypeError: name_1 is undefined"
          | name_1 :: _ =>
            match env.possibleWhere w name_1 with
            | [location] =>
              let unresolved := env.unresolveName w name_1.ns name_1.name
              match env.getContextualActions w unresolved location with
              | [action] =>
                if action.needsInput then .stop
                else .executed action (action.execute unresolved (env.setCaret w location))
              | _ => .stop
            | _ => .stop

/-- An execution made by `_autoinsert`: the state in which the iteration began,
the action and the state the action left. -/
structure Execution (W : Type) where
  before : W
  action : Action W
  after : W

/-- How a run of `_autoinsert` ended: the loop was left by a `break`, an
exception went up, or the iterations allowed were used up. -/
inductive RunEnd
  | returned
  | thrown (message : String)
  | unfinished
  deriving Repr, DecidableEq

/-- A run of `_autoinsert`: the executions made, oldest first, the state at the
end and how the run ended. -/
structure Run (W : Type) where
  executions : List (Execution W)
  state : W
  ending : RunEnd

/-- The function `_autoinsert(el, editor)`: the loop `while (true)` over
`autoinsertStep`, cut after `fuel` iterations. -/
def _autoinsert {W : Type} (env : AutoinsertEnv W) : Nat → W → Run W
  | 0, w => { executions := [], state := w, ending := .unfinished }
  | fuel + 1, w =>
    match autoinsertStep env w with
    | .stop => { executions := [], state := w, ending := .returned }
    | .thrown message => { executions := [], state := w, ending := .thrown message }
    | .executed action after =>
      let run := _autoinsert env fuel after
      { run with executions := { before := w, action := action, after := after } :: run.executions }

/-- The conditions of an insertion, in the words of the specification: in the
state `w`, the first "tag required" error returned by
`validator.getErrorsFor(el)` names exactly one simple name,
`validator.possibleWhere(el, enterStartTag of that name)` returns exactly one
location, the mode offers exactly one contextual "insert" action there, which
is `action`, and `after` is the state after the caret was set to that location
and the action executed with the unresolved name. -/
def InsertionCalledFor {W : Type} (env : AutoinsertEnv W) (w : W) (action : Action W)
    (after : W) : Prop :=
  ∃ err errs ename enames name location,
    (env.getErrorsFor w).filter errFilter = err :: errs ∧
    err.getNames = ename :: enames ∧
    ename.toArray = some [name] ∧
    env.possibleWhere w name = [location] ∧
    env.getContextualActions w (env.unresolveName w name.ns name.name) location = [action] ∧
    after = action.execute (env.unresolveName w name.ns name.name) (env.setCaret w location)

/-- The executions of a run follow one another from `w` to `final`: each begins
in the state the previous one left. -/
def Linked {W : Type} : W → List (Execution W) → W → Prop
  | w, [], final => final = w
  | w, e :: rest, final => e.before = w ∧ Linked e.after rest final

/-- The error salve reports when an element `p` of no namespace is required. -/
def tagRequiredP : ErrorInfo :=
  { toString := "tag required: \x7b\x7dp",
    getNames := [{ toArray := some [{ ns := "", name := "p" }] }] }

/-- An editor for the tests of `_autoinsert`, whose state is the number of
children of `el`: two children `p` are required, a `p` may only go at the end,
and the mode offers one action that inserts it, which needs input or not. -/
def testAutoinsertEnv (needsInput : Bool) : AutoinsertEnv Nat :=
  { getErrorsFor := fun w =>
      if w < 2 then [{ toString := "text not allowed here", getNames := [] }, tagRequiredP]
      else [],
    possibleWhere := fun w _ => [w],
    unresolveName := fun _ _ name => some name,
    getContextualActions := fun _ _ _ =>
      [{ needsInput := needsInput, execute := fun _ w => w + 1 }],
    setCaret := fun w _ => w }

/-! ## Namespaces: `getDocumentNamespaces` and the check of `_postInitialize` -/

/-- Modelled from the spec: the namespace of the attributes that declare
namespaces, `xmlns` and `xmlns:…`. -/
def xmlnsURI : String := "http://www.w3.org/2000/xmlns/"

/-- Modelled from the spec: the namespace declarations among the attributes of
an element, as pairs of the declared name (the empty string for `xmlns`) and
the URI. -/
def attrDeclarations : List Attr → List (String × String)
  | [] => []
  | a :: rest =>
      if a.ns = xmlnsURI then
        ((if a.name = "xmlns" then "" else a.name), a.value) :: attrDeclarations rest
      else attrDeclarations rest

mutual
/-- Modelled from the spec: the namespace declarations of a node and of its
descendants, in document order. -/
def nodeDeclarations : XNode → List (String × String)
  | .text _ => []
  | .element _ _ attrs children => attrDeclarations attrs ++ childrenDeclarations children
/-- Modelled from the spec: the namespace declarations of a list of nodes and of
their descendants, in document order. -/
def childrenDeclarations : List XNode → List (String × String)
  | [] => []
  | c :: rest => nodeDeclarations c ++ childrenDeclarations rest
end

/-- Modelled from the spec: one more binding recorded under its name,
"aggregated by prefix with possibly multiple URIs recorded". -/
def addBinding : List (String × List String) → String × String → List (String × List String)
  | [], d => [(d.1, [d.2])]
  | entry :: rest, d =>
      if entry.1 = d.1 then (entry.1, entry.2 ++ [d.2]) :: rest
      else entry :: addBinding rest d

/-- Modelled from the spec: `getDocumentNamespaces()`, "the set of
namespace-prefix-to-URI bindings visible at the document's top, aggregated by
prefix with possibly multiple URIs recorded (detecting redefinition)": the
object returned, as the list of its keys with their arrays. -/
def getDocumentNamespaces (root : List XNode) : List (String × List String) :=
  (childrenDeclarations root).foldl addBinding []

/-- The URIs bound to the name `pfx` by a list of declarations, in order. -/
def urisOf (pfx : String) (declarations : List (String × String)) : List String :=
  (declarations.filter (fun d => d.1 = pfx)).map (fun d => d.2)

/-- A document in which `x` is bound to `uri:x` on the top element and to
`uri:x2` further down, as the test "document with redefined namespaces" has
it. -/
def redefinedDocument : List XNode :=
  [.element "http://www.tei-c.org/ns/1.0" "TEI"
    [⟨xmlnsURI, "xmlns", "http://www.tei-c.org/ns/1.0"⟩, ⟨xmlnsURI, "x", "uri:x"⟩]
    [.element "http://www.tei-c.org/ns/1.0" "text" []
      [.element "http://www.tei-c.org/ns/1.0" "body" [⟨xmlnsURI, "x", "uri:x2"⟩]
        [.text "abc"]]]]

/-- A document that declares the default namespace only, as the test "simple
document" has it. -/
def simpleDocument : List XNode :=
  [.element "http://www.tei-c.org/ns/1.0" "TEI"
    [⟨xmlnsURI, "xmlns", "http://www.tei-c.org/ns/1.0"⟩]
    [.element "http://www.tei-c.org/ns/1.0" "text" [] [.text "abc"]]]

/-- The loop of `_postInitialize` over the namespaces of the document, `fail`
being the variable of that name:
```
Object.keys(namespaces).forEach(function (prefix) {
    var uri = namespaces[prefix];
    if (uri.length > 1) fail = true;
    resolver.definePrefix(prefix, uri[0]);
});
``` -/
def definePrefixes : List (String × List String) → Bool × Editor → Bool × Editor
  | [], r => r
  | (pfx, uri) :: rest, (fail, ed) =>
      definePrefixes rest
        ((if uri.length > 1 then true else fail),
         { ed with resolver_definitions := ed.resolver_definitions ++ [(pfx, uri.head?)] })

/-- The part of `_postInitialize` that follows the installation of the
handlers, for a document that is not empty, `namespaces` being what
`this.validator.getDocumentNamespaces()` returns:
```
if (this._destroyed) return;
…
var namespaces = this.validator.getDocumentNamespaces();
var fail = false;
var resolver = this.resolver;
Object.keys(namespaces).forEach(…);
if (fail) {
    this._limitation_modal.setBody("The document you are trying to edit uses namespaces in a " +
        "way not supported by this version of wed.");
    this._limitation_modal.modal(function () { … });
    this.destroy();
    return;
}
…
this.domlistener.processImmediately();
this._undo = new undo.UndoList();
this.$gui_root.focus();
this.validator.start();
``` -/
def _postInitialize (namespaces : List (String × List String)) (ed : Editor) : Outcome Editor :=
  if ed._destroyed then { thrown := none, state := ed }
  else
    let r := definePrefixes namespaces (false, ed)
    if r.1 then
      { thrown := none,
        state := destroy { r.2 with
          limitation_modal_body := some (
            "The document you are trying to edit uses namespaces in a " ++
            "way not supported by this version of wed."),
          limitation_modal_shown := r.2.limitation_modal_shown + 1 } }
    else
      { thrown := none,
        state := { r.2 with
          post_initialize_log := r.2.post_initialize_log ++
            ["domlistener.processImmediately", "_undo = new undo.UndoList", "$gui_root.focus"],
          validator_calls := r.2.validator_calls ++ [ValidatorCall.start] } }

/-- The property `namespaces[pfx]` of the object `getDocumentNamespaces()`
returns; `none` is `undefined`. -/
def namespacesAt (pfx : String) : List (String × List String) → Option (List String)
  | [] => none
  | entry :: rest => if entry.1 = pfx then some entry.2 else namespacesAt pfx rest

/-! ## `isAttrProtected` -/

/-- The argument `attr` of `isAttrProtected`: an `Attr` node of the data tree,
given by its `name`; an `Element` of the GUI tree; a string; or any other
value. -/
inductive AttrArgument
  | attrNode (name : String)
  | element (el : Element)
  | string (name : String)
  | other
  deriving Repr, DecidableEq

/-- The method `isAttrProtected(attr, parent)`; `siblingByClass` is
`domutil.siblingByClass` (`none` for `null`) and `parent` is `none` when it is
not passed. A `name` left `undefined`, or a sibling that is `null`, makes the
method throw a `TypeError`:
```
var name;
if (attr instanceof this.my_window.Attr) {
    name = attr.name;
}
else if (attr instanceof this.my_window.Element) {
    name = domutil.siblingByClass(attr, "_attribute_name").textContent
}
else if (typeof attr === "string") {
    name = attr;
    if (!parent)
        throw new Error("must specify a parent");
}
return (name === "xmlns" || name.lastIndexOf("xmlns:", 0) === 0);
``` -/
def isAttrProtected (siblingByClass : Element → String → Option Element)
    (attr : AttrArgument) (parent : Option Element) : Except String Bool :=
  let name : Except String (Option String) :=
    match attr with
    | .attrNode n => .ok (some n)
    | .element el =>
        match siblingByClass el "_attribute_name" with
        | some sibling => .ok (some sibling.textContent)
        | none => .error "TypeError: siblingByClass(...) is null"
    | .string s =>
        if parent.isNone then .error "must specify a parent"
        else .ok (some s)
    | .other => .ok none
  match name with
  | .error e => .error e
  | .ok none => .error "TypeError: name is undefined"
  | .ok (some n) =>
      .ok (n == "xmlns" || lastIndexOfFromZero n.toList "xmlns:".toList == 0)

/-- The names the specification calls protected: `xmlns` itself and the names
that start with `xmlns:`. -/
def ProtectedName (name : String) : Prop :=
  name = "xmlns" ∨ ∃ rest : String, name = "xmlns:" ++ rest

/-- A `siblingByClass` for the tests of `isAttrProtected`: the sibling of a GUI
element holds, as its text, the first class of the element. -/
def testSiblingByClass (el : Element) (cls : String) : Option Element :=
  match el.classList with
  | [] => none
  | c :: _ => some { classList := [cls], textContent := c }

/-! ### Validators as objects: walkers shared by address

The controller above is a value; what follows keeps the walkers and the
validators as objects of a store, so that the sandbox of a speculative
validation and the live validator can share, or fail to share, what they
refer to. -/

/-- Modelled from the spec: an entry of the Walker Cache of a validator object:
the node, the cursor position at which the node is entered, and the address of
the walker the entry owns. -/
structure CacheRef where
  node : Path
  position : Nat
  walker : Nat
  deriving Repr, DecidableEq

/-- Modelled from the spec: a validator as an object: the fields of the
controller, its walker and the walkers of its cache being objects it refers to
by their addresses. -/
structure ValidatorObject where
  root : List XNode
  cursor : Nat := 0
  walker : Nat
  cache : List CacheRef := []
  _errors : List RecordedError := []
  _working_state : WState := WState.INCOMPLETE
  _part_done : ℚ := 0
  running : Bool := false
  notifications : List Notification := []

/-- Modelled from the spec: the store of the objects alive: the walkers, which
`fireEvent` changes in place, and the validators; an object's address is its
index. -/
structure Heap (σ : Type) where
  walkers : List (Walker σ)
  validators : List ValidatorObject

/-- Modelled from the spec: the walker at an address; an address that holds no
walker reads as the initial walker. -/
def Heap.read {σ : Type} (g : Grammar σ) (h : Heap σ) (a : Nat) : Walker σ :=
  (h.walkers[a]?).getD (Walker.initial g)

/-- Modelled from the spec: `clone()` of the walker at an address: "cloning
produces an independent owner", a new object with the same content, whose
address is returned. -/
def Heap.clone {σ : Type} (g : Grammar σ) (h : Heap σ) (a : Nat) : Heap σ × Nat :=
  ({ h with walkers := h.walkers ++ [h.read g a] }, h.walkers.length)

/-- Modelled from the spec: `fireEvent(event)` on the walker at an address: the
walker is changed in place; whoever refers to that address sees the change. -/
def Heap.fireEvent {σ : Type} (g : Grammar σ) (h : Heap σ) (a : Nat) (ev : Event) :
    Heap σ × Option Rejection :=
  ({ h with walkers := h.walkers.set a ((h.read g a).fireEvent g ev).1 },
   ((h.read g a).fireEvent g ev).2)

/-- Modelled from the spec: events replayed on the walker at an address, nothing
being recorded. -/
def Heap.replay {σ : Type} (g : Grammar σ) (h : Heap σ) (a : Nat) :
    List CursorEvent → Heap σ
  | [] => h
  | e :: rest => Heap.replay g (h.fireEvent g a e.ev).1 a rest

/-- Modelled from the spec: what entering a node does to the cache of a
validator object: on an `enterStartTag` the cache gets an entry that owns a
clone of the validator's walker as it is just before; otherwise nothing. -/
def Heap.enterCache {σ : Type} (g : Grammar σ) (h : Heap σ) (obj : ValidatorObject)
    (e : CursorEvent) : Heap σ × List CacheRef :=
  match e.ev with
  | .enterStartTag _ _ =>
      ((h.clone g obj.walker).1,
       ⟨e.self, obj.cursor, (h.clone g obj.walker).2⟩ :: obj.cache)
  | _ => (h, obj.cache)

/-- Modelled from the spec: the validator at address `v` processes one cursor
event, as `consume` does: the node is entered in its cache; the event is fired
on its walker, in place; a rejection is recorded in its own error list. -/
def Heap.consume {σ : Type} (g : Grammar σ) (h : Heap σ) (v : Nat) (e : CursorEvent) :
    Heap σ :=
  match h.validators[v]? with
  | none => h
  | some obj =>
    let cached := h.enterCache g obj e
    let fired := cached.1.fireEvent g obj.walker e.ev
    { fired.1 with
      validators := fired.1.validators.set v
        { obj with
          cursor := obj.cursor + 1,
          cache := cached.2,
          _errors := obj._errors ++ recorded obj.cursor e fired.2,
          _working_state := if fired.2.isSome then WState.INVALID else obj._working_state,
          _part_done := obj._part_done + e.gain,
          notifications := obj.notifications ++
            (recorded obj.cursor e fired.2).map (fun r => Notification.error r.error) } }

/-- Modelled from the spec: the walk of the validator at address `v` run event
by event until its cursor has reached `target`, as `walkTo` does. -/
def Heap.walkTo {σ : Type} (g : Grammar σ) (target : Nat) (v : Nat) :
    Nat → Heap σ → Option (Heap σ)
  | 0, h =>
      match h.validators[v]? with
      | none => some h
      | some obj => if target ≤ obj.cursor then some h else none
  | fuel + 1, h =>
      match h.validators[v]? with
      | none => some h
      | some obj =>
        if target ≤ obj.cursor then some h
        else match (documentEvents obj.root)[obj.cursor]? with
          | none => some h
          | some e => Heap.walkTo g target v fuel (h.consume g v e)

/-- Modelled from the spec: step (1) of the restart algorithm on a validator
object: the entry of its cache for the nearest ancestor of a node (the node
included) taken at or before position `p`. -/
def ValidatorObject.nearestCached (obj : ValidatorObject) (n : Path) (p : Nat) :
    Option CacheRef :=
  n.inits.reverse.findSome? (fun a =>
    obj.cache.find? (fun entry => entry.node == a && decide (entry.position ≤ p)))

/-- Modelled from the spec: the walker at cursor position `p` of a validator
object, "computed by replaying from the nearest cached ancestor Walker up to
location without mutating the cache": the cached walker is cloned and the
events are fired on the clone, whose address is returned; without a cached
ancestor the replay starts from a new initial walker. -/
def Heap.walkerAt {σ : Type} (g : Grammar σ) (h : Heap σ) (obj : ValidatorObject)
    (n : Path) (p : Nat) : Heap σ × Nat :=
  match obj.nearestCached n p with
  | some entry =>
      (Heap.replay g (h.clone g entry.walker).1 (h.clone g entry.walker).2
        (((documentEvents obj.root).drop entry.position).take (p - entry.position)),
       (h.clone g entry.walker).2)
  | none =>
      (Heap.replay g { h with walkers := h.walkers ++ [Walker.initial g] } h.walkers.length
        ((documentEvents obj.root).take p),
       h.walkers.length)

/-- Modelled from the spec: `speculativelyValidate(container, offset,
candidateSubtree)` on the validator at address `v`, "in a disposable sandbox
that shares but never mutates the live Walker Cache": the walker at the
insertion point is a clone replayed from the live cache; the sandbox is a new
validator over the candidate nodes, with that walker, an empty cache and an
error list of its own, which walks the whole candidate; the result is `false`
when its error list is empty and that list otherwise. The store is returned as
the call leaves it. -/
def Heap.speculativelyValidate {σ : Type} (g : Grammar σ) (fuel : Nat) (h : Heap σ)
    (v : Nat) (container : Path) (offset : Nat) (candidate : List XNode) :
    Option (SpeculativeResult ValidationError × Heap σ) :=
  match h.validators[v]? with
  | none => none
  | some obj =>
    match locationPosition obj.root container offset with
    | none => none
    | some p =>
      let located := h.walkerAt g obj container p
      let sandbox : ValidatorObject :=
        { root := candidate, walker := located.2, _working_state := WState.WORKING }
      let d := located.1.validators.length
      match Heap.walkTo g (documentEvents candidate).length d fuel
          { located.1 with validators := located.1.validators ++ [sandbox] } with
      | none => none
      | some h1 =>
        match h1.validators[d]? with
        | none => none
        | some done =>
          if done._errors.isEmpty then some (SpeculativeResult.noError, h1)
          else some (SpeculativeResult.errors (done._errors.map (fun e => e.error)), h1)

/-- Modelled from the spec: the validator at address `v` read as a controller:
each address is replaced by the walker it holds. -/
def Heap.view {σ : Type} (g : Grammar σ) (h : Heap σ) (v : Nat) : Option (Controller σ) :=
  (h.validators[v]?).map (fun obj =>
    { root := obj.root,
      cursor := obj.cursor,
      walker := h.read g obj.walker,
      cache := obj.cache.map (fun r => ⟨r.node, r.position, h.read g r.walker⟩),
      _errors := obj._errors,
      _working_state := obj._working_state,
      _part_done := obj._part_done,
      running := obj.running,
      notifications := obj.notifications })

/-- Modelled from the spec: the addresses a validator object refers to hold
walkers. -/
def Heap.Owns {σ : Type} (h : Heap σ) (obj : ValidatorObject) : Prop :=
  obj.walker < h.walkers.length ∧ ∀ r ∈ obj.cache, r.walker < h.walkers.length

/-- Modelled from the spec: the entries of a Walker Cache as references, the
walkers they own being stored one after the other from address `a` on. -/
def refsFrom {σ : Type} : Nat → List (CacheEntry σ) → List CacheRef
  | _, [] => []
  | a, entry :: rest => ⟨entry.node, entry.position, a⟩ :: refsFrom (a + 1) rest

/-- Modelled from the spec: the validator object of a controller whose walker is
stored at address 0 and whose cached walkers follow it. -/
def Controller.toObject {σ : Type} (c : Controller σ) : ValidatorObject :=
  { root := c.root,
    cursor := c.cursor,
    walker := 0,
    cache := refsFrom 1 c.cache,
    _errors := c._errors,
    _working_state := c._working_state,
    _part_done := c._part_done,
    running := c.running,
    notifications := c.notifications }

/-- Modelled from the spec: a controller put into an empty store as its only
validator: its walker at address 0 and the walkers of its cache after it. -/
def Heap.ofController {σ : Type} (c : Controller σ) : Heap σ :=
  { walkers := c.walker :: c.cache.map (fun entry => entry.walker),
    validators := [c.toObject] }

/-- Modelled from the spec: the store `h` keeps the objects of the store `h0`:
every walker and every validator of `h0` is in `h` at its address, as it was. -/
def Heap.Keeps {σ : Type} (h0 h : Heap σ) : Prop :=
  h.walkers.take h0.walkers.length = h0.walkers ∧
  h.validators.take h0.validators.length = h0.validators

end Wed

/-! # Theorems -/

namespace Wed

/-! ## The editor's handlers -/

/-- C1, as stated, fails: notified of a reset at position 1, the editor throws
and still holds the error it had recorded at position 3. -/
theorem onResetErrors_nonzero_keeps_errors :
    ¬ DiscardsFrom (fun e => e.index) ⟨1⟩
        { _validation_errors := [⟨"tag required: \x7b\x7dhtml", 0, 3⟩] } := by
  intro h
  have h1 := h.1
  simp [_onResetErrors] at h1

/-- C1, amended: a reset notified at position 0 empties `_validation_errors`,
removes every `li` of the error list and every `.wed-validation-error` marker,
and returns normally; a reset notified at any other position throws the
internal error and leaves the editor as it was. -/
theorem onResetErrors_spec (ev : ResetErrorsEvent) (ed : Editor) :
    (ev.at = 0 →
      (_onResetErrors ev ed).thrown = none ∧
      (_onResetErrors ev ed).state._validation_errors = [] ∧
      (∀ c ∈ (_onResetErrors ev ed).state.error_list, c.tagName ≠ "li") ∧
      (∀ c ∈ (_onResetErrors ev ed).state.widget,
        "wed-validation-error" ∉ c.classList) ∧
      ∀ pos, DiscardsFrom pos ev ed) ∧
    (ev.at ≠ 0 →
      (_onResetErrors ev ed).thrown =
        some "internal error: wed does not yet support resetting errors at an arbitrary location" ∧
      (_onResetErrors ev ed).state = ed) := by
  constructor
  · intro h0
    have hout : _onResetErrors ev ed =
        { thrown := none,
          state := { ed with
            _validation_errors := [],
            error_list := ed.error_list.filter (fun c => !(c.tagName == "li")),
            widget := ed.widget.filter
              (fun c => !(c.classList.contains "wed-validation-error")) } } := by
      simp [_onResetErrors, h0]
    refine ⟨by rw [hout], by rw [hout], ?_, ?_, ?_⟩
    · intro c hc
      rw [hout] at hc
      simpa using (List.mem_filter.mp hc).2
    · intro c hc
      rw [hout] at hc
      simpa using (List.mem_filter.mp hc).2
    · intro pos
      refine ⟨by rw [hout], ?_⟩
      intro e he
      rw [hout] at he
      simp at he
  · intro h0
    simp [_onResetErrors, h0]

/-- Witness of `onResetErrors_spec`: both branches on concrete editors. -/
theorem onResetErrors_spec_witness :
    ((_onResetErrors ⟨0⟩ { _validation_errors := [⟨"tag required: \x7b\x7dhtml", 0, 3⟩] }).thrown = none ∧
      (_onResetErrors ⟨0⟩
        { _validation_errors := [⟨"tag required: \x7b\x7dhtml", 0, 3⟩] }).state._validation_errors = []) ∧
    (_onResetErrors ⟨2⟩ { _validation_errors := [⟨"tag required: \x7b\x7dhtml", 0, 3⟩] }).state =
      { _validation_errors := [⟨"tag required: \x7b\x7dhtml", 0, 3⟩] } :=
  ⟨⟨((onResetErrors_spec ⟨0⟩ _).1 rfl).1, ((onResetErrors_spec ⟨0⟩ _).1 rfl).2.1⟩,
   ((onResetErrors_spec ⟨2⟩ _).2 (by decide)).2⟩

theorem affectsValidation_iff (n : GuiNode) :
    affectsValidation n = true ↔ StructuralNode n := by
  cases n <;> simp [affectsValidation, StructuralNode]

theorem childrenChangedFound_eq (all : List GuiNode) (found : Bool) :
    childrenChangedFound all found = (found || all.any affectsValidation) := by
  induction all generalizing found with
  | nil => simp [childrenChangedFound]
  | cons child rest ih =>
    cases found
    · simp [childrenChangedFound, ih]
    · simp [childrenChangedFound]

theorem childrenChangedFound_iff (all : List GuiNode) :
    childrenChangedFound all false = true ↔ ∃ n ∈ all, StructuralNode n := by
  rw [childrenChangedFound_eq]
  simp [List.any_eq_true, affectsValidation_iff]

theorem indexOf_eq_zero_iff (s search : List Char) :
    indexOf s search = 0 ↔ search <+: s := by
  rw [← List.isPrefixOf_iff_prefix]
  by_cases h : search.isPrefixOf s = true
  · unfold indexOf
    simp [h]
  · simp only [h, iff_false]
    cases s with
    | nil => unfold indexOf; simp [h]
    | cons c rest =>
      unfold indexOf
      simp only [h]
      by_cases hr : indexOf rest search < 0
      · simp [hr]
      · simp only [Bool.false_eq_true, ↓reduceIte, hr]
        constructor
        · intro h0
          exact hr (by omega)
        · exact False.elim

/-- C2: a `children-changed` notification in which some added or removed node is
a text node or an element with class `_real` or `_phantom_wrap` makes the
handler call `validator.restartAt(target)` exactly once (the log of validator
calls grows by that one call); with no such node the handler calls nothing and
leaves the editor as it was; and an `attribute-changed` notification that has
no namespace and names an attribute starting with `data-wed` schedules
`validator.restartAt(el)`, which the next turn of the host loop then performs. -/
theorem mutation_handlers_restart (added removed : List GuiNode) (target el : Nat)
    (ns : Option String) (name : String) (ed : Editor) :
    ((∃ n ∈ added ++ removed, StructuralNode n) →
      (onChildrenChanged added removed target ed).validator_calls =
        ed.validator_calls ++ [ValidatorCall.restartAt target]) ∧
    ((¬ ∃ n ∈ added ++ removed, StructuralNode n) →
      onChildrenChanged added removed target ed = ed) ∧
    ((ns = none ∨ ns = some "") → "data-wed".toList <+: name.toList →
      (onAttributeChanged el ns name ed).timeouts =
        ed.timeouts ++ [ValidatorCall.restartAt el] ∧
      (onAttributeChanged el ns name ed).validator_calls = ed.validator_calls ∧
      (ed.timeouts = [] →
        (runTimeout (onAttributeChanged el ns name ed)).validator_calls =
          ed.validator_calls ++ [ValidatorCall.restartAt el])) := by
  refine ⟨?_, ?_, ?_⟩
  · intro h
    have hf := (childrenChangedFound_iff (added ++ removed)).mpr h
    simp [onChildrenChanged, hf]
  · intro h
    have hf : childrenChangedFound (added ++ removed) false = false := by
      rw [← Bool.not_eq_true, childrenChangedFound_iff]
      exact h
    simp [onChildrenChanged, hf]
  · intro hns hname
    have h1 : noNamespace ns = true := by
      rcases hns with h | h <;> simp [h, noNamespace]
    have h2 : indexOf name.toList "data-wed".toList = 0 :=
      (indexOf_eq_zero_iff _ _).mpr hname
    have hout : onAttributeChanged el ns name ed =
        { ed with timeouts := ed.timeouts ++ [ValidatorCall.restartAt el] } := by
      unfold onAttributeChanged
      rw [h1, h2]
      rfl
    refine ⟨by rw [hout], by rw [hout], ?_⟩
    intro he
    rw [hout]
    simp [runTimeout, he]

/-- Witness of `mutation_handlers_restart`: a removed text node, a lone
`_phantom` element, and the attribute `data-wed-rend`. -/
theorem mutation_handlers_restart_witness :
    (onChildrenChanged [] [GuiNode.text "abc"] 7 {}).validator_calls =
        [ValidatorCall.restartAt 7] ∧
    (runTimeout (onAttributeChanged 9 none "data-wed-rend" {})).validator_calls =
        [ValidatorCall.restartAt 9] :=
  ⟨(mutation_handlers_restart [] [GuiNode.text "abc"] 7 9 none "data-wed-rend" {}).1
      ⟨GuiNode.text "abc", by simp, trivial⟩,
   ((mutation_handlers_restart [] [GuiNode.text "abc"] 7 9 none "data-wed-rend" {}).2.2
      (Or.inl rfl) (by decide)).2.2 rfl⟩

theorem toInt32_of_nonneg (x : ℚ) (h0 : 0 ≤ x) (h1 : x < 2 ^ 31) : toInt32 x = ⌊x⌋ := by
  have hf0 : 0 ≤ ⌊x⌋ := Int.floor_nonneg.mpr h0
  have hf1 : ⌊x⌋ < 2 ^ 31 := by
    rw [Int.floor_lt]
    exact_mod_cast h1
  have hfl : x.floor = ⌊x⌋ := rfl
  simp only [toInt32, h0, ↓reduceIte, hfl]
  omega

/-- C3: while the validator is WORKING and `part_done` minus `_last_done_shown`,
as the handler computes it, is less than 0.05, the handler changes nothing at
all (and when it is not less the display is refreshed); when the state is VALID
or INVALID the display is always refreshed, however small the advance:
`_last_done_shown` becomes `part_done`, the width is the percentage
`part_done * 100` truncated, the progress bar carries the class of the state
and none of the other two, and the message is the name of the state. -/
theorem onValidatorStateChange_throttle (ws : WorkingState) (ed : Editor) :
    (ws.state = WState.WORKING →
      roundDouble (ws.part_done - ed._last_done_shown) < roundDouble (5 / 100) →
      _onValidatorStateChange ws ed = ed) ∧
    (ws.state = WState.WORKING →
      ¬ roundDouble (ws.part_done - ed._last_done_shown) < roundDouble (5 / 100) →
      (_onValidatorStateChange ws ed)._last_done_shown = ws.part_done ∧
      (_onValidatorStateChange ws ed).validation_message = "working") ∧
    (ws.state = WState.VALID ∨ ws.state = WState.INVALID →
      (_onValidatorStateChange ws ed)._last_done_shown = ws.part_done ∧
      (0 ≤ roundDouble (ws.part_done * 100) → roundDouble (ws.part_done * 100) < 2 ^ 31 →
        (_onValidatorStateChange ws ed).validation_progress_width =
          toString ⌊roundDouble (ws.part_done * 100)⌋ ++ "%") ∧
      (_onValidatorStateChange ws ed).validation_message =
        (if ws.state = WState.VALID then "valid" else "invalid") ∧
      (_onValidatorStateChange ws ed).validation_progress_classes =
        (ed.validation_progress_classes.filter
          (fun c => c ≠ "progress-bar-info" ∧ c ≠ "progress-bar-success" ∧
            c ≠ "progress-bar-danger")) ++
          [if ws.state = WState.VALID then "progress-bar-success"
           else "progress-bar-danger"] ∧
      (_onValidatorStateChange ws ed)._first_validation_complete = true) := by
  refine ⟨?_, ?_, ?_⟩
  · intro hs hlt
    simp [_onValidatorStateChange, hs, hlt]
  · intro hs hlt
    simp [_onValidatorStateChange, hs, hlt, showProgress, state_to_str]
  · intro hs
    have hw : ws.state ≠ WState.WORKING := by
      rcases hs with h | h <;> simp [h]
    have hcls : ∀ cl : List String,
        addClass
          (removeClasses cl
            ["progress-bar-info", "progress-bar-success", "progress-bar-danger"])
          ("progress-bar-" ++ state_to_progress_type ws.state) =
        (cl.filter (fun c => c ≠ "progress-bar-info" ∧ c ≠ "progress-bar-success" ∧
            c ≠ "progress-bar-danger")) ++
          [if ws.state = WState.VALID then "progress-bar-success"
           else "progress-bar-danger"] := by
      intro cl
      have hfilter : removeClasses cl
            ["progress-bar-info", "progress-bar-success", "progress-bar-danger"] =
          cl.filter (fun c => c ≠ "progress-bar-info" ∧ c ≠ "progress-bar-success" ∧
            c ≠ "progress-bar-danger") := by
        unfold removeClasses
        apply List.filter_congr
        intro c _
        simp [not_or]
      rw [hfilter]
      have hname : "progress-bar-" ++ state_to_progress_type ws.state =
          (if ws.state = WState.VALID then "progress-bar-success"
           else "progress-bar-danger") := by
        rcases hs with h | h <;> rw [h] <;> decide
      rw [hname]
      unfold addClass
      rw [if_neg]
      intro hc
      simp at hc
    have hmsg : state_to_str ws.state =
        (if ws.state = WState.VALID then "valid" else "invalid") := by
      rcases hs with h | h <;> rw [h] <;> rfl
    have hshow : ∀ ed1 : Editor,
        (showProgress ws ed1)._last_done_shown = ws.part_done ∧
        (0 ≤ roundDouble (ws.part_done * 100) → roundDouble (ws.part_done * 100) < 2 ^ 31 →
          (showProgress ws ed1).validation_progress_width =
            toString ⌊roundDouble (ws.part_done * 100)⌋ ++ "%") ∧
        (showProgress ws ed1).validation_message =
          (if ws.state = WState.VALID then "valid" else "invalid") ∧
        (showProgress ws ed1).validation_progress_classes =
          (ed1.validation_progress_classes.filter
            (fun c => c ≠ "progress-bar-info" ∧ c ≠ "progress-bar-success" ∧
              c ≠ "progress-bar-danger")) ++
            [if ws.state = WState.VALID then "progress-bar-success"
             else "progress-bar-danger"] := by
      intro ed1
      refine ⟨rfl, ?_, hmsg, hcls _⟩
      intro h0 h1
      simp only [showProgress, toInt32_of_nonneg _ h0 h1]
    by_cases hf : ed._first_validation_complete = true
    · have hout : _onValidatorStateChange ws ed = showProgress ws ed := by
        simp [_onValidatorStateChange, hw, hs, hf]
      rw [hout]
      obtain ⟨h1, h2, h3, h4⟩ := hshow ed
      exact ⟨h1, h2, h3, h4, hf⟩
    · have hout : _onValidatorStateChange ws ed =
          showProgress ws { ed with
            _first_validation_complete := true,
            conditions := ed.conditions ++ ["first-validation-complete"] } := by
        simp [_onValidatorStateChange, hw, hs, hf]
      rw [hout]
      obtain ⟨h1, h2, h3, h4⟩ := hshow { ed with
            _first_validation_complete := true,
            conditions := ed.conditions ++ ["first-validation-complete"] }
      exact ⟨h1, h2, h3, h4, rfl⟩

/-- Witness of `onValidatorStateChange_throttle`: while WORKING an advance from
0.5 to 0.52 is not shown; the advance from 0.004 to 0.054, whose computed
difference is the number 0.05 itself, is shown, and the one from 0.1 to 0.15,
whose computed difference is below it, is not; with VALID the advance from 0.5
to 0.52 is shown, and 0.29 is shown as 28%, since the computed product is below
29. -/
theorem onValidatorStateChange_throttle_witness :
    _onValidatorStateChange ⟨WState.WORKING, roundDouble (52 / 100)⟩
        { _last_done_shown := 1 / 2 } = { _last_done_shown := 1 / 2 } ∧
    (_onValidatorStateChange ⟨WState.WORKING, roundDouble (54 / 1000)⟩
        { _last_done_shown := roundDouble (4 / 1000) })._last_done_shown =
      roundDouble (54 / 1000) ∧
    _onValidatorStateChange ⟨WState.WORKING, roundDouble (15 / 100)⟩
        { _last_done_shown := roundDouble (1 / 10) } =
      { _last_done_shown := roundDouble (1 / 10) } ∧
    (_onValidatorStateChange ⟨WState.VALID, roundDouble (52 / 100)⟩
        { _last_done_shown := 1 / 2 })._last_done_shown = roundDouble (52 / 100) ∧
    (_onValidatorStateChange ⟨WState.INVALID, roundDouble (29 / 100)⟩
        { validation_progress_classes := ["progress", "progress-bar-info"] }
      ).validation_progress_width = "28%" ∧
    (_onValidatorStateChange ⟨WState.INVALID, roundDouble (29 / 100)⟩
        { validation_progress_classes := ["progress", "progress-bar-info"] }
      ).validation_progress_classes = ["progress", "progress-bar-danger"] :=
  ⟨(onValidatorStateChange_throttle ⟨WState.WORKING, roundDouble (52 / 100)⟩
      { _last_done_shown := 1 / 2 }).1 rfl (by decide!),
   ((onValidatorStateChange_throttle ⟨WState.WORKING, roundDouble (54 / 1000)⟩
      { _last_done_shown := roundDouble (4 / 1000) }).2.1 rfl (by decide!)).1,
   (onValidatorStateChange_throttle ⟨WState.WORKING, roundDouble (15 / 100)⟩
      { _last_done_shown := roundDouble (1 / 10) }).1 rfl (by decide!),
   ((onValidatorStateChange_throttle ⟨WState.VALID, roundDouble (52 / 100)⟩
      { _last_done_shown := 1 / 2 }).2.2 (Or.inl rfl)).1,
   by decide!, by decide!⟩

/-! ## The validation controller: walks and their invariant -/

theorem replay_append {σ : Type} (g : Grammar σ) (w : Walker σ) (a b : List CursorEvent) :
    replay g w (a ++ b) = replay g (replay g w a) b := by
  induction a generalizing w with
  | nil => rfl
  | cons e rest ih => simp [replay, ih]

theorem walkErrors_append {σ : Type} (g : Grammar σ) (w : Walker σ) (pos : Nat)
    (a b : List CursorEvent) :
    walkErrors g w pos (a ++ b) =
      walkErrors g w pos a ++ walkErrors g (replay g w a) (pos + a.length) b := by
  induction a generalizing w pos with
  | nil => simp [walkErrors, replay]
  | cons e rest ih =>
    have hpos : pos + 1 + rest.length = pos + (rest.length + 1) := by omega
    simp only [List.cons_append, walkErrors, replay, List.length_cons, List.append_assoc]
    rw [← hpos]
    exact congrArg _ (ih _ _)

theorem take_succ_of_getElem? {α : Type} (l : List α) (n : Nat) (e : α)
    (h : l[n]? = some e) : l.take (n + 1) = l.take n ++ [e] := by
  rw [List.take_succ, h]
  rfl

theorem walkerAt_succ {σ : Type} (g : Grammar σ) (root : List XNode) (p : Nat)
    (e : CursorEvent) (h : (documentEvents root)[p]? = some e) :
    walkerAt g root (p + 1) = ((walkerAt g root p).fireEvent g e.ev).1 := by
  unfold walkerAt
  rw [take_succ_of_getElem? _ _ _ h, replay_append]
  rfl

theorem walkErrors_take_succ {σ : Type} (g : Grammar σ) (root : List XNode) (p : Nat)
    (e : CursorEvent) (h : (documentEvents root)[p]? = some e) :
    walkErrors g (Walker.initial g) 0 ((documentEvents root).take (p + 1)) =
      walkErrors g (Walker.initial g) 0 ((documentEvents root).take p) ++
        recorded p e ((walkerAt g root p).fireEvent g e.ev).2 := by
  have hp : p < (documentEvents root).length := by
    rcases Nat.lt_or_ge p (documentEvents root).length with h1 | h1
    · exact h1
    · rw [List.getElem?_eq_none h1] at h
      cases h
  rw [take_succ_of_getElem? _ _ _ h, walkErrors_append]
  congr 1
  have hl : ((documentEvents root).take p).length = p := by
    rw [List.length_take]
    omega
  simp only [walkErrors, hl, Nat.zero_add, List.append_nil]
  rfl

theorem partDoneAt_succ (root : List XNode) (p : Nat) (e : CursorEvent)
    (h : (documentEvents root)[p]? = some e) :
    partDoneAt root (p + 1) = partDoneAt root p + e.gain := by
  unfold partDoneAt
  rw [take_succ_of_getElem? _ _ _ h]
  simp

theorem consume_cache {σ : Type} (g : Grammar σ) (c : Controller σ) (e : CursorEvent) :
    ∀ entry ∈ (consume g c e).cache,
      entry ∈ c.cache ∨ (entry.position = c.cursor ∧ entry.walker = c.walker) := by
  intro entry h
  have h1 : entry ∈ enterCache c e := h
  unfold enterCache at h1
  split at h1
  · rcases List.mem_cons.mp h1 with h2 | h2
    · right
      rw [h2]
      exact ⟨rfl, rfl⟩
    · exact Or.inl h2
  · exact Or.inl h1

theorem getElem?_lt_length {α : Type} {l : List α} {n : Nat} {e : α}
    (h : l[n]? = some e) : n < l.length := by
  rcases Nat.lt_or_ge n l.length with h1 | h1
  · exact h1
  · rw [List.getElem?_eq_none h1] at h
    cases h

theorem consistent_new {σ : Type} (g : Grammar σ) (root : List XNode) :
    Consistent g (Controller.new g root) where
  cursor_le := Nat.zero_le _
  walker_eq := rfl
  cache_ok := by
    intro entry h
    cases h
  errors_eq := by
    simp [Controller.new, walkErrors]
  part_done_eq := by
    simp [Controller.new, partDoneAt]
  state_final := by
    intro h
    exact absurd h (Nat.not_lt_zero _)

theorem consistent_consume {σ : Type} (g : Grammar σ) (c : Controller σ) (e : CursorEvent)
    (hc : Consistent g c) (he : (documentEvents c.root)[c.cursor]? = some e) :
    Consistent g (consume g c e) := by
  have hlt : c.cursor < (documentEvents c.root).length := getElem?_lt_length he
  have hroot : (consume g c e).root = c.root := rfl
  have hcur : (consume g c e).cursor = c.cursor + 1 := rfl
  refine ⟨?_, ?_, ?_, ?_, ?_, ?_⟩
  · rw [hroot, hcur]
    omega
  · rw [hroot, hcur, walkerAt_succ g c.root c.cursor e he, ← hc.walker_eq]
    rfl
  · intro entry h
    rw [hroot, hcur]
    rcases consume_cache g c e entry h with h1 | ⟨h1, h2⟩
    · exact ⟨Nat.lt_succ_of_lt (hc.cache_ok entry h1).1, (hc.cache_ok entry h1).2⟩
    · rw [h1, h2]
      exact ⟨Nat.lt_succ_self _, hc.walker_eq⟩
  · rw [hroot, hcur, if_pos (by omega), walkErrors_take_succ g c.root c.cursor e he,
      ← hc.walker_eq]
    have h0 := hc.errors_eq
    rw [if_pos (Nat.le_of_lt hlt)] at h0
    rw [← h0]
    rfl
  · rw [hroot, hcur, if_pos (by omega), partDoneAt_succ c.root c.cursor e he]
    have h0 := hc.part_done_eq
    rw [if_pos (Nat.le_of_lt hlt)] at h0
    rw [← h0]
    rfl
  · intro h
    rw [hroot, hcur] at h
    omega

theorem consistent_finish {σ : Type} (g : Grammar σ) (c : Controller σ)
    (hc : Consistent g c) (he : c.cursor = (documentEvents c.root).length) :
    Consistent g (finish g c) := by
  have hroot : (finish g c).root = c.root := rfl
  have hcur : (finish g c).cursor = c.cursor + 1 := rfl
  have hwalker : (finish g c).walker = c.walker := rfl
  have hcache : (finish g c).cache = c.cache := rfl
  refine ⟨?_, ?_, ?_, ?_, ?_, ?_⟩
  · rw [hroot, hcur]
    omega
  · rw [hroot, hcur, hwalker, hc.walker_eq]
    unfold walkerAt
    rw [List.take_of_length_le (by omega), List.take_of_length_le (by omega)]
  · intro entry h
    rw [hcache] at h
    rw [hroot, hcur]
    exact ⟨Nat.lt_succ_of_lt (hc.cache_ok entry h).1, (hc.cache_ok entry h).2⟩
  · rw [hroot, hcur, if_neg (by omega)]
    have h0 := hc.errors_eq
    rw [if_pos (by omega), he, List.take_length] at h0
    have hw := hc.walker_eq
    rw [he] at hw
    show c._errors ++ (closingErrors g c.root c.walker).map (fun e => ⟨c.cursor, e⟩) = _
    rw [h0, hw, he]
    rfl
  · rw [hroot, hcur, if_neg (by omega)]
    rfl
  · intro _
    rfl

theorem walkCycle_spec {σ : Type} (g : Grammar σ) (rest : List CursorEvent) :
    ∀ c : Controller σ, Consistent g c →
      (documentEvents c.root).drop c.cursor = rest →
      c.cursor ≤ (documentEvents c.root).length →
      Consistent g (walkCycle g rest c) ∧ (walkCycle g rest c).root = c.root ∧
        c.cursor < (walkCycle g rest c).cursor ∧
        ((walkCycle g rest c).running = true → c.running = true) ∧
        ((walkCycle g rest c).finished = false → (walkCycle g rest c).running = c.running) := by
  induction rest with
  | nil =>
    intro c hc hd hle
    have he : c.cursor = (documentEvents c.root).length := by
      have := List.drop_eq_nil_iff.mp hd
      omega
    refine ⟨consistent_finish g c hc he, rfl, Nat.lt_succ_self _, ?_, ?_⟩
    · intro hr
      cases hr
    · intro hf
      have : (finish g c).finished = true := by
        simp [Controller.finished, finish, he]
      have hf1 : (finish g c).finished = false := hf
      rw [this] at hf1
      cases hf1
  | cons e rest ih =>
    intro c hc hd hle
    have hget : (documentEvents c.root)[c.cursor]? = some e := by
      rw [← List.head?_drop, hd]
      rfl
    have hcons := consistent_consume g c e hc hget
    have hlt : c.cursor < (documentEvents c.root).length := getElem?_lt_length hget
    unfold walkCycle
    by_cases hend : e.endsCycle = true
    · rw [if_pos hend]
      exact ⟨hcons, rfl, Nat.lt_succ_self _, fun h => h, fun _ => rfl⟩
    · rw [if_neg hend]
      have hd1 : (documentEvents (consume g c e).root).drop (consume g c e).cursor = rest := by
        show (documentEvents c.root).drop (c.cursor + 1) = rest
        rw [← List.drop_drop, hd]
        rfl
      have hle1 : (consume g c e).cursor ≤ (documentEvents (consume g c e).root).length := hlt
      obtain ⟨h1, h2, h3, h4, h5⟩ := ih (consume g c e) hcons hd1 hle1
      refine ⟨h1, h2, ?_, h4, h5⟩
      exact Nat.lt_trans (Nat.lt_succ_self _) h3

theorem consistent_congr {σ : Type} (g : Grammar σ) (c c1 : Controller σ)
    (hc : Consistent g c) (h1 : c1.root = c.root) (h2 : c1.cursor = c.cursor)
    (h3 : c1.walker = c.walker) (h4 : c1.cache = c.cache) (h5 : c1._errors = c._errors)
    (h6 : c1._part_done = c._part_done) (h7 : c1._working_state = c._working_state) :
    Consistent g c1 := by
  refine ⟨?_, ?_, ?_, ?_, ?_, ?_⟩
  · rw [h1, h2]
    exact hc.cursor_le
  · rw [h1, h2, h3]
    exact hc.walker_eq
  · rw [h1, h2, h4]
    exact hc.cache_ok
  · rw [h1, h2, h5]
    exact hc.errors_eq
  · rw [h1, h2, h6]
    exact hc.part_done_eq
  · rw [h1, h2, h5, h7]
    exact hc.state_final

theorem consistent_start {σ : Type} (g : Grammar σ) (c : Controller σ)
    (hc : Consistent g c) : Consistent g (start c) := by
  unfold start
  split
  · exact hc
  · refine ⟨hc.cursor_le, hc.walker_eq, hc.cache_ok, hc.errors_eq, hc.part_done_eq, ?_⟩
    intro h
    have h1 := hc.state_final h
    show (if c._working_state = WState.INCOMPLETE then WState.WORKING else c._working_state) = _
    rw [h1]
    split <;> simp

theorem consistent_stop {σ : Type} (g : Grammar σ) (c : Controller σ)
    (hc : Consistent g c) : Consistent g (stop c) :=
  consistent_congr g c (stop c) hc rfl rfl rfl rfl rfl rfl rfl

theorem finished_iff {σ : Type} (c : Controller σ) :
    c.finished = true ↔ (documentEvents c.root).length < c.cursor := by
  simp [Controller.finished]

theorem cycle_root {σ : Type} (g : Grammar σ) (c : Controller σ) (hc : Consistent g c) :
    (_cycle g c).root = c.root := by
  unfold _cycle
  split
  · rfl
  · rename_i hf
    have hle : c.cursor ≤ (documentEvents c.root).length := by
      have := (finished_iff c).not.mp hf
      omega
    exact (walkCycle_spec g _ c hc rfl hle).2.1

theorem consistent_cycle {σ : Type} (g : Grammar σ) (c : Controller σ)
    (hc : Consistent g c) : Consistent g (_cycle g c) := by
  unfold _cycle
  split
  · exact consistent_congr g c _ hc rfl rfl rfl rfl rfl rfl rfl
  · rename_i hf
    have hle : c.cursor ≤ (documentEvents c.root).length := by
      have := (finished_iff c).not.mp hf
      omega
    exact consistent_congr g _ _ (walkCycle_spec g _ c hc rfl hle).1 rfl rfl rfl rfl rfl rfl rfl

theorem walkErrors_position {σ : Type} (g : Grammar σ) (w : Walker σ) (pos : Nat)
    (evs : List CursorEvent) :
    ∀ r ∈ walkErrors g w pos evs, pos ≤ r.position := by
  induction evs generalizing w pos with
  | nil =>
    intro r h
    cases h
  | cons e rest ih =>
    intro r h
    unfold walkErrors at h
    rcases List.mem_append.mp h with h1 | h1
    · unfold recorded at h1
      split at h1
      · rw [List.mem_singleton.mp h1]
      · cases h1
    · exact Nat.le_of_succ_le (ih _ _ r h1)

theorem filter_walkErrors {σ : Type} (g : Grammar σ) (w : Walker σ) (pos : Nat)
    (evs : List CursorEvent) (k : Nat) :
    (walkErrors g w pos evs).filter (fun r => decide (r.position < pos + k)) =
      walkErrors g w pos (evs.take k) := by
  induction evs generalizing w pos k with
  | nil => simp [walkErrors]
  | cons e rest ih =>
    cases k with
    | zero =>
      simp only [Nat.add_zero, List.take_zero, walkErrors]
      rw [List.filter_eq_nil_iff]
      intro r hr
      have := walkErrors_position g w pos (e :: rest) r hr
      simp only [decide_eq_true_eq]
      omega
    | succ k =>
      simp only [List.take_succ_cons, walkErrors, List.filter_append]
      congr 1
      · unfold recorded
        split
        · simp
        · rfl
      · have h := ih (w.fireEvent g e.ev).1 (pos + 1) k
        have hk : pos + 1 + k = pos + (k + 1) := by omega
        rw [hk] at h
        exact h

theorem consistent_errors_before {σ : Type} (g : Grammar σ) (c : Controller σ)
    (hc : Consistent g c) (p : Nat) (hp : p ≤ c.cursor)
    (hl : p ≤ (documentEvents c.root).length) :
    c._errors.filter (fun r => decide (r.position < p)) =
      walkErrors g (Walker.initial g) 0 ((documentEvents c.root).take p) := by
  have h0 := filter_walkErrors g (Walker.initial g) 0
  simp only [Nat.zero_add] at h0
  rw [hc.errors_eq]
  split
  · rw [h0, List.take_take, Nat.min_eq_left hp]
  · unfold expectedErrors
    rw [List.filter_append, h0]
    have hnil : ((closingErrors g c.root
        (walkerAt g c.root (documentEvents c.root).length)).map
          (fun e => (⟨(documentEvents c.root).length, e⟩ : RecordedError))).filter
            (fun r => decide (r.position < p)) = [] := by
      rw [List.filter_eq_nil_iff]
      intro r hr
      obtain ⟨e, _, he⟩ := List.mem_map.mp hr
      rw [← he]
      simp only [decide_eq_true_eq]
      omega
    rw [hnil, List.append_nil]

theorem nearestCached_spec {σ : Type} (g : Grammar σ) (c : Controller σ)
    (hc : Consistent g c) (n : Path) (p : Nat) :
    (nearestCached g c n p).1 ≤ p ∧
      (nearestCached g c n p).2 = walkerAt g c.root (nearestCached g c n p).1 := by
  unfold nearestCached
  cases hfind : n.inits.reverse.findSome? (fun a =>
      (c.cache.find? (fun entry => entry.node == a && decide (entry.position ≤ p))).map
        (fun entry => (entry.position, entry.walker))) with
  | none => exact ⟨Nat.zero_le _, rfl⟩
  | some r =>
    obtain ⟨a, _, ha⟩ := List.exists_of_findSome?_eq_some hfind
    cases hentry : c.cache.find? (fun entry => entry.node == a && decide (entry.position ≤ p)) with
    | none =>
      rw [hentry] at ha
      cases ha
    | some entry =>
      rw [hentry] at ha
      have hr : r = (entry.position, entry.walker) := by
        simpa using ha.symm
      have hmem := List.mem_of_find?_eq_some hentry
      have hpred := List.find?_some hentry
      simp only [Bool.and_eq_true, decide_eq_true_eq] at hpred
      rw [Option.getD_some, hr]
      exact ⟨hpred.2, (hc.cache_ok entry hmem).2⟩

theorem walkerFrom_eq {σ : Type} (g : Grammar σ) (c : Controller σ)
    (hc : Consistent g c) (n : Path) (p : Nat) :
    walkerFrom g c n p = walkerAt g c.root p := by
  obtain ⟨h1, h2⟩ := nearestCached_spec g c hc n p
  unfold walkerFrom
  rw [h2]
  unfold walkerAt
  rw [← replay_append, ← List.take_add, Nat.add_sub_cancel' h1]

theorem position_le (root : List XNode) (n : Path) (q : Nat)
    (h : position root n = some q) : q ≤ (documentEvents root).length := by
  unfold position at h
  split at h
  · cases h
    exact Nat.zero_le _
  · simp only at h
    split at h
    · cases h
      omega
    · cases h

theorem resetTo_root {σ : Type} (g : Grammar σ) (n : Path) (c : Controller σ) :
    (_resetTo g n c).root = c.root := by
  unfold _resetTo
  split <;> rfl

theorem consistent_resetTo {σ : Type} (g : Grammar σ) (n : Path) (c : Controller σ)
    (hc : Consistent g c) : Consistent g (_resetTo g n c) := by
  unfold _resetTo
  split
  · exact hc
  · rename_i q hq
    have hq1 := position_le c.root n q hq
    have hp1 : min q c.cursor ≤ c.cursor := Nat.min_le_right _ _
    have hp2 : min q c.cursor ≤ (documentEvents c.root).length :=
      Nat.le_trans (Nat.min_le_left _ _) hq1
    refine ⟨?_, ?_, ?_, ?_, ?_, ?_⟩
    · exact Nat.le_succ_of_le hp2
    · exact walkerFrom_eq g c hc n _
    · intro entry h
      have h1 := List.mem_filter.mp h
      exact ⟨by simpa using h1.2, (hc.cache_ok entry h1.1).2⟩
    · show c._errors.filter (fun e => decide (e.position < min q c.cursor)) = _
      rw [consistent_errors_before g c hc _ hp1 hp2]
      exact (if_pos hp2).symm
    · exact (if_pos hp2).symm
    · intro h
      exact absurd hp2 (Nat.not_le_of_lt h)

theorem restartAt_root {σ : Type} (g : Grammar σ) (n : Path) (c : Controller σ) :
    (restartAt g n c).root = c.root :=
  resetTo_root g n c

theorem consistent_restartAt {σ : Type} (g : Grammar σ) (n : Path) (c : Controller σ)
    (hc : Consistent g c) : Consistent g (restartAt g n c) :=
  consistent_congr g _ _ (consistent_resetTo g n c hc) rfl rfl rfl rfl rfl rfl rfl

theorem speculativelyValidate_snd {σ : Type} (g : Grammar σ) (fuel : Nat)
    (c : Controller σ) (container : Path) (offset : Nat) (candidate : List XNode)
    (r : SpeculativeResult ValidationError) (c1 : Controller σ)
    (h : speculativelyValidate g fuel c container offset candidate = some (r, c1)) :
    c1 = c := by
  unfold speculativelyValidate at h
  split at h
  · cases h
  · simp only at h
    split at h
    · cases h
    · split at h <;> (cases h; rfl)

theorem exec_speculative {σ : Type} (g : Grammar σ) (c : Controller σ) (op : Op)
    (h : op.isSpeculative = true) : exec g c op = c := by
  cases op with
  | speculativelyValidate fuel container offset candidate =>
    show (match speculativelyValidate g fuel c container offset candidate with
      | some (_, c1) => c1
      | none => c) = c
    cases hs : speculativelyValidate g fuel c container offset candidate with
    | none => rfl
    | some rc =>
      obtain ⟨r, c1⟩ := rc
      exact speculativelyValidate_snd g fuel c container offset candidate r c1 hs
  | _ => cases h

theorem exec_root {σ : Type} (g : Grammar σ) (c : Controller σ) (hc : Consistent g c)
    (op : Op) : (exec g c op).root = c.root := by
  cases op with
  | start =>
    show (start c).root = c.root
    unfold start
    split <;> rfl
  | stop => rfl
  | cycle => exact cycle_root g c hc
  | restartAt n => exact restartAt_root g n c
  | speculativelyValidate fuel container offset candidate =>
    rw [exec_speculative g c (Op.speculativelyValidate fuel container offset candidate) rfl]

theorem consistent_exec {σ : Type} (g : Grammar σ) (c : Controller σ) (hc : Consistent g c)
    (op : Op) : Consistent g (exec g c op) := by
  cases op with
  | start => exact consistent_start g c hc
  | stop => exact consistent_stop g c hc
  | cycle => exact consistent_cycle g c hc
  | restartAt n => exact consistent_restartAt g n c hc
  | speculativelyValidate fuel container offset candidate =>
    rw [exec_speculative g c (Op.speculativelyValidate fuel container offset candidate) rfl]
    exact hc

theorem consistent_execAll {σ : Type} (g : Grammar σ) (ops : List Op) :
    ∀ c : Controller σ, Consistent g c →
      Consistent g (execAll g c ops) ∧ (execAll g c ops).root = c.root := by
  induction ops with
  | nil =>
    intro c hc
    exact ⟨hc, rfl⟩
  | cons op rest ih =>
    intro c hc
    have h := ih (exec g c op) (consistent_exec g c hc op)
    exact ⟨h.1, h.2.trans (exec_root g c hc op)⟩

theorem runToCompletion_stopped {σ : Type} (g : Grammar σ) (fuel : Nat) (c : Controller σ)
    (h : c.running = false) : runToCompletion g fuel c = some c := by
  cases fuel <;> simp [runToCompletion, h]

theorem cycle_spec {σ : Type} (g : Grammar σ) (c : Controller σ) (hc : Consistent g c)
    (hf : c.finished = false) :
    c.cursor < (_cycle g c).cursor ∧
      ((_cycle g c).finished = false → (_cycle g c).running = c.running) := by
  have hle : c.cursor ≤ (documentEvents c.root).length := by
    have := (finished_iff c).not.mp (by simp [hf])
    omega
  have h := walkCycle_spec g _ c hc rfl hle
  unfold _cycle
  rw [if_neg (by simp [hf])]
  exact ⟨h.2.2.1, h.2.2.2.2⟩

theorem runToCompletion_spec {σ : Type} (g : Grammar σ) (fuel : Nat) :
    ∀ c : Controller σ, Consistent g c → c.running = true →
      (documentEvents c.root).length + 2 - c.cursor ≤ fuel →
      ∃ c1, runToCompletion g fuel c = some c1 ∧ Consistent g c1 ∧
        c1.finished = true ∧ c1.root = c.root ∧ c1.running = false := by
  induction fuel with
  | zero =>
    intro c hc _ hfuel
    have := hc.cursor_le
    omega
  | succ fuel ih =>
    intro c hc hrun hfuel
    unfold runToCompletion
    rw [if_pos hrun]
    by_cases hf : c.finished = true
    · have hcy : _cycle g c = { c with running := false } := by
        unfold _cycle
        rw [if_pos hf]
      rw [hcy, runToCompletion_stopped g fuel _ rfl]
      exact ⟨_, rfl, consistent_congr g c _ hc rfl rfl rfl rfl rfl rfl rfl, hf, rfl, rfl⟩
    · have hf0 : c.finished = false := by simpa using hf
      have hcons := consistent_cycle g c hc
      have hroot := cycle_root g c hc
      obtain ⟨hlt, hkeep⟩ := cycle_spec g c hc hf0
      by_cases hrun1 : (_cycle g c).running = true
      · have hfuel1 : (documentEvents (_cycle g c).root).length + 2 - (_cycle g c).cursor ≤ fuel := by
          rw [hroot]
          omega
        obtain ⟨c1, h1, h2, h3, h4, h5⟩ := ih (_cycle g c) hcons hrun1 hfuel1
        exact ⟨c1, h1, h2, h3, h4.trans hroot, h5⟩
      · have hrun0 : (_cycle g c).running = false := by simpa using hrun1
        rw [runToCompletion_stopped g fuel _ hrun0]
        refine ⟨_, rfl, hcons, ?_, hroot, hrun0⟩
        by_contra hnf
        have := hkeep (by simpa using hnf)
        rw [hrun, hrun0] at this
        cases this

theorem finished_result {σ : Type} (g : Grammar σ) (c : Controller σ)
    (hc : Consistent g c) (hf : c.finished = true) :
    c._errors = expectedErrors g c.root ∧
      c._working_state =
        (if (expectedErrors g c.root).isEmpty then WState.VALID else WState.INVALID) ∧
      c._part_done = 1 := by
  have hlt := (finished_iff c).mp hf
  have he : c._errors = expectedErrors g c.root := by
    rw [hc.errors_eq, if_neg (by omega)]
  refine ⟨he, ?_, ?_⟩
  · rw [hc.state_final hlt, he]
  · rw [hc.part_done_eq, if_neg (by omega)]

theorem start_running {σ : Type} (c : Controller σ) : (start c).running = true := by
  unfold start
  split
  · assumption
  · rfl

theorem start_root {σ : Type} (c : Controller σ) : (start c).root = c.root := by
  unfold start
  split <;> rfl

theorem start_cursor {σ : Type} (c : Controller σ) : (start c).cursor = c.cursor := by
  unfold start
  split <;> rfl

theorem firstPass_spec {σ : Type} (g : Grammar σ) (root : List XNode) (fuel : Nat)
    (hfuel : (documentEvents root).length + 2 ≤ fuel) :
    ∃ c1, firstPass g fuel (Controller.new g root) = some c1 ∧ Consistent g c1 ∧
      c1.finished = true ∧ c1.root = root ∧ c1.running = false := by
  have hc := consistent_start g _ (consistent_new g root)
  have hroot : (start (Controller.new g root)).root = root := start_root _
  have hcur : (start (Controller.new g root)).cursor = 0 := start_cursor _
  obtain ⟨c1, h1, h2, h3, h4, h5⟩ :=
    runToCompletion_spec g fuel _ hc (start_running _) (by rw [hroot, hcur]; omega)
  exact ⟨c1, h1, h2, h3, h4.trans hroot, h5⟩

theorem restartAt_running {σ : Type} (g : Grammar σ) (n : Path) (c : Controller σ)
    (q : Nat) (hq : position c.root n = some q) : (restartAt g n c).running = true := by
  show ((position c.root n).isSome || c.running) = true
  rw [hq]
  rfl

theorem accepts_walk {σ : Type} (g : Grammar σ) (events : List CursorEvent) :
    ∀ (s s1 : σ) (pos : Nat),
      accepts g s (events.map (fun e => e.ev)) = some s1 →
      walkErrors g ⟨s, 0⟩ pos events = [] ∧ replay g ⟨s, 0⟩ events = ⟨s1, 0⟩ := by
  induction events with
  | nil =>
    intro s s1 pos h
    simp only [List.map_nil, accepts, Option.some.injEq] at h
    rw [h]
    exact ⟨rfl, rfl⟩
  | cons e rest ih =>
    intro s s1 pos h
    simp only [List.map_cons, accepts] at h
    cases hadv : g.advance s e.ev with
    | none =>
      rw [hadv] at h
      cases h
    | some s2 =>
      rw [hadv] at h
      have hfire : (Walker.fireEvent g ⟨s, 0⟩ e.ev) = (⟨s2, 0⟩, none) := by
        simp [Walker.fireEvent, hadv]
      obtain ⟨h1, h2⟩ := ih s2 s1 (pos + 1) h
      constructor
      · simp only [walkErrors, hfire, recorded, h1, List.append_nil]
      · simp only [replay, hfire, h2]

theorem conforms_expectedErrors {σ : Type} (g : Grammar σ) (root : List XNode)
    (h : conforms g root = true) : expectedErrors g root = [] := by
  unfold conforms at h
  cases hacc : accepts g g.start ((documentEvents root).map (fun e => e.ev)) with
  | none =>
    rw [hacc] at h
    cases h
  | some s =>
    rw [hacc] at h
    simp only [List.isEmpty_iff] at h
    obtain ⟨h1, h2⟩ := accepts_walk g (documentEvents root) g.start s 0 hacc
    unfold expectedErrors walkerAt
    rw [List.take_length]
    have hi : Walker.initial g = ⟨g.start, 0⟩ := rfl
    rw [hi, h1, h2]
    simp [closingErrors, h]

/-- C8: for every document that fully conforms to the grammar (the automaton
accepts its events in order and offers no further element when the document
closes), a validation run to completion, given fuel for one cycle per event
and two more, ends with the walk over, working state VALID, an empty error
list and the scheduler stopped. -/
theorem valid_document_is_VALID {σ : Type} (g : Grammar σ) (root : List XNode)
    (fuel : Nat) (hfuel : (documentEvents root).length + 2 ≤ fuel)
    (hvalid : conforms g root = true) :
    ∃ c, firstPass g fuel (Controller.new g root) = some c ∧
      c.finished = true ∧ c._working_state = WState.VALID ∧ c._errors = [] ∧
      c.running = false := by
  obtain ⟨c, h1, h2, h3, h4, h5⟩ := firstPass_spec g root fuel hfuel
  obtain ⟨he, hs, _⟩ := finished_result g c h2 h3
  rw [h4, conforms_expectedErrors g root hvalid] at he hs
  exact ⟨c, h1, h3, hs, he, h5⟩

/-- Witness of `valid_document_is_VALID`: the document of the tests conforms to
the schema of the tests and validates to VALID without errors. -/
theorem valid_document_is_VALID_witness :
    conforms testGrammar testDocument = true ∧
    ∃ c, firstPass testGrammar 20 (Controller.new testGrammar testDocument) = some c ∧
      c.finished = true ∧ c._working_state = WState.VALID ∧ c._errors = [] ∧
      c.running = false :=
  ⟨by decide, valid_document_is_VALID testGrammar testDocument 20 (by decide) (by decide)⟩

theorem restartAt_fields {σ : Type} (g : Grammar σ) (n : Path) (c : Controller σ) (q : Nat)
    (hq : position c.root n = some q) :
    (restartAt g n c)._errors =
        c._errors.filter (fun e => decide (e.position < min q c.cursor)) ∧
      (restartAt g n c).cursor = min q c.cursor ∧
      (restartAt g n c)._working_state = WState.WORKING ∧
      (restartAt g n c)._part_done = partDoneAt c.root (min q c.cursor) ∧
      (restartAt g n c).cache =
        c.cache.filter (fun entry => decide (entry.position < min q c.cursor)) := by
  unfold restartAt _resetTo
  rw [hq]
  exact ⟨rfl, rfl, rfl, rfl, rfl⟩

theorem restartAt_twice {σ : Type} (g : Grammar σ) (n : Path) (c : Controller σ) :
    (restartAt g n (restartAt g n c))._errors = (restartAt g n c)._errors ∧
      (restartAt g n (restartAt g n c))._working_state = (restartAt g n c)._working_state ∧
      (restartAt g n (restartAt g n c)).cursor = (restartAt g n c).cursor ∧
      (restartAt g n (restartAt g n c))._part_done = (restartAt g n c)._part_done ∧
      (restartAt g n (restartAt g n c)).cache = (restartAt g n c).cache := by
  cases hq : position c.root n with
  | none =>
    have hsame : restartAt g n c = c := by
      unfold restartAt _resetTo
      rw [hq]
      show { c with running := false || c.running } = c
      rw [Bool.false_or]
    rw [hsame, hsame]
    exact ⟨rfl, rfl, rfl, rfl, rfl⟩
  | some q =>
    have hroot := restartAt_root g n c
    have hq2 : position (restartAt g n c).root n = some q := by
      rw [hroot]
      exact hq
    obtain ⟨h1, h2, h3, h4, h5⟩ := restartAt_fields g n c q hq
    obtain ⟨k1, k2, k3, k4, k5⟩ := restartAt_fields g n (restartAt g n c) q hq2
    have hmin : min q (min q c.cursor) = min q c.cursor := by omega
    rw [h2, hmin] at k1 k2 k4 k5
    refine ⟨?_, k3.trans h3.symm, k2.trans h2.symm, ?_, ?_⟩
    · rw [k1, h1, List.filter_filter]
      simp
    · rw [k4, h4, hroot]
    · rw [k5, h5, List.filter_filter]
      simp

/-- C6: after a first complete run of any document, `restartAt(N)` followed by a
run to completion ends with the same error list and the same working state as
the run before it, for every node N (and every path that is no node); calling
`restartAt(N)` twice in a row gives at once the same error list, working
state, cursor and cache as calling it once, and after a run to completion the
same error list and working state; and for a document that conforms to the
grammar each of these runs ends VALID with zero errors. -/
theorem restart_idempotent {σ : Type} (g : Grammar σ) (root : List XNode) (n : Path)
    (fuel : Nat) (hfuel : (documentEvents root).length + 2 ≤ fuel) :
    ∃ c1 c2 c3,
      firstPass g fuel (Controller.new g root) = some c1 ∧
      runToCompletion g fuel (restartAt g n c1) = some c2 ∧
      runToCompletion g fuel (restartAt g n (restartAt g n c1)) = some c3 ∧
      c2._errors = c1._errors ∧ c2._working_state = c1._working_state ∧
      c3._errors = c2._errors ∧ c3._working_state = c2._working_state ∧
      c2.finished = true ∧ c3.finished = true ∧
      (restartAt g n (restartAt g n c1))._errors = (restartAt g n c1)._errors ∧
      (restartAt g n (restartAt g n c1))._working_state =
        (restartAt g n c1)._working_state ∧
      (restartAt g n (restartAt g n c1)).cursor = (restartAt g n c1).cursor ∧
      (restartAt g n (restartAt g n c1)).cache = (restartAt g n c1).cache ∧
      (conforms g root = true →
        c2._working_state = WState.VALID ∧ c2._errors = [] ∧
        c3._working_state = WState.VALID ∧ c3._errors = []) := by
  obtain ⟨c1, h1, hc1, hf1, hr1, hrun1⟩ := firstPass_spec g root fuel hfuel
  obtain ⟨he1, hs1, _⟩ := finished_result g c1 hc1 hf1
  have key : ∀ c : Controller σ, Consistent g c → c.finished = true → c.root = root →
      c.running = false →
      ∃ c2, runToCompletion g fuel (restartAt g n c) = some c2 ∧ Consistent g c2 ∧
        c2.finished = true ∧ c2.root = root ∧
        (restartAt g n c).root = root ∧ Consistent g (restartAt g n c) := by
    intro c hc hf hr hrun
    have hcr := consistent_restartAt g n c hc
    have hrr : (restartAt g n c).root = root := (restartAt_root g n c).trans hr
    cases hq : position c.root n with
    | none =>
      have hsame : restartAt g n c = c := by
        unfold restartAt _resetTo
        rw [hq]
        show { c with running := false || c.running } = c
        rw [Bool.false_or]
      rw [hsame, runToCompletion_stopped g fuel c hrun]
      exact ⟨c, rfl, hc, hf, hr, hr, hc⟩
    | some q =>
      have hrunning := restartAt_running g n c q hq
      obtain ⟨c2, h2, hc2, hf2, hr2, _⟩ :=
        runToCompletion_spec g fuel _ hcr hrunning (by rw [hrr]; omega)
      exact ⟨c2, h2, hc2, hf2, hr2.trans hrr, hrr, hcr⟩
  obtain ⟨c2, h2, hc2, hf2, hr2, hrr, hcr⟩ := key c1 hc1 hf1 hr1 hrun1
  obtain ⟨he2, hs2, _⟩ := finished_result g c2 hc2 hf2
  have hcrr := consistent_restartAt g n _ hcr
  have hrrr : (restartAt g n (restartAt g n c1)).root = root :=
    (restartAt_root g n _).trans hrr
  have h3 : ∃ c3, runToCompletion g fuel (restartAt g n (restartAt g n c1)) = some c3 ∧
      Consistent g c3 ∧ c3.finished = true ∧ c3.root = root := by
    cases hq : position c1.root n with
    | none =>
      have hsame : restartAt g n c1 = c1 := by
        unfold restartAt _resetTo
        rw [hq]
        show { c1 with running := false || c1.running } = c1
        rw [Bool.false_or]
      rw [hsame, hsame, runToCompletion_stopped g fuel c1 hrun1]
      exact ⟨c1, rfl, hc1, hf1, hr1⟩
    | some q =>
      have hq2 : position (restartAt g n c1).root n = some q := by
        rw [hrr, ← hr1]
        exact hq
      have hrunning := restartAt_running g n (restartAt g n c1) q hq2
      obtain ⟨c3, h3, hc3, hf3, hr3, _⟩ :=
        runToCompletion_spec g fuel _ hcrr hrunning (by rw [hrrr]; omega)
      exact ⟨c3, h3, hc3, hf3, hr3.trans hrrr⟩
  obtain ⟨c3, h3, hc3, hf3, hr3⟩ := h3
  obtain ⟨he3, hs3, _⟩ := finished_result g c3 hc3 hf3
  rw [hr1] at he1 hs1
  rw [hr2] at he2 hs2
  rw [hr3] at he3 hs3
  obtain ⟨t1, t2, t3, _, t5⟩ := restartAt_twice g n c1
  refine ⟨c1, c2, c3, h1, h2, h3, he2.trans he1.symm, hs2.trans hs1.symm,
    he3.trans he2.symm, hs3.trans hs2.symm, hf2, hf3, t1, t2, t3, t5, ?_⟩
  intro hvalid
  have hnil := conforms_expectedErrors g root hvalid
  rw [hnil] at he2 hs2 he3 hs3
  exact ⟨hs2, he2, hs3, he3⟩

/-- Witness of `restart_idempotent`: the document of the tests, restarted at its
`body` element. -/
theorem restart_idempotent_witness :
    ∃ c1 c2 c3,
      firstPass testGrammar 20 (Controller.new testGrammar testDocument) = some c1 ∧
      runToCompletion testGrammar 20 (restartAt testGrammar [0, 1] c1) = some c2 ∧
      runToCompletion testGrammar 20
        (restartAt testGrammar [0, 1] (restartAt testGrammar [0, 1] c1)) = some c3 ∧
      c2._errors = c1._errors ∧ c2._working_state = c1._working_state ∧
      c3._errors = c2._errors ∧ c3._working_state = c2._working_state ∧
      c2._working_state = WState.VALID ∧ c2._errors = [] ∧
      c3._working_state = WState.VALID ∧ c3._errors = [] := by
  obtain ⟨c1, c2, c3, h1, h2, h3, h4, h5, h6, h7, _, _, _, _, _, _, h8⟩ :=
    restart_idempotent testGrammar testDocument [0, 1] 20 (by decide)
  exact ⟨c1, c2, c3, h1, h2, h3, h4, h5, h6, h7, h8 (by decide)⟩

/-- C7: validating an empty root against a grammar whose start state requires
one specific child element ends, after a single cycle, in working state
INVALID with exactly one recorded error, the required-element-missing error
naming that element and rendered `tag required: {ns}name`; the error is
delivered as exactly one `error` notification, located at the root. -/
theorem empty_document_is_INVALID {σ : Type} (g : Grammar σ) (ns name : String)
    (fuel : Nat) (hfuel : 1 ≤ fuel)
    (hreq : g.possibleEvents g.start = [Event.enterStartTag ns name]) :
    ∃ c e, firstPass g fuel (Controller.new g []) = some c ∧
      c._working_state = WState.INVALID ∧
      c._errors.map (fun r => r.error) = [e] ∧
      e.kind = ErrorKind.requiredMissing ∧ e.names = [⟨ns, name⟩] ∧
      e.toString = "tag required: " ++ EName.toString ⟨ns, name⟩ ∧
      e.node = [] ∧
      c.notifications.filter Notification.isError = [Notification.error e] ∧
      c.finished = true := by
  obtain ⟨fuel, rfl⟩ : ∃ k, fuel = k + 1 := ⟨fuel - 1, by omega⟩
  have hclose : closingErrors g [] (Walker.initial g) =
      [{ node := [], offset := 0, kind := ErrorKind.requiredMissing, event := none,
         names := [⟨ns, name⟩] }] := by
    simp [closingErrors, Walker.initial, hreq, startTagNames]
  have hcycle : _cycle g (start (Controller.new g [])) =
      { root := [], cursor := 1, walker := Walker.initial g, cache := [],
        _errors := [⟨0, { node := [], offset := 0, kind := ErrorKind.requiredMissing,
                          event := none, names := [⟨ns, name⟩] }⟩],
        _working_state := WState.INVALID, _part_done := 1, running := false,
        notifications :=
          [Notification.error { node := [], offset := 0, kind := ErrorKind.requiredMissing,
                                event := none, names := [⟨ns, name⟩] },
           Notification.stateUpdate WState.INVALID 1] } := by
    simp [_cycle, start, Controller.new, Controller.finished, documentEvents, childrenEvents,
      walkCycle, finish, hclose]
  refine ⟨_cycle g (start (Controller.new g [])),
    { node := [], offset := 0, kind := ErrorKind.requiredMissing, event := none,
      names := [⟨ns, name⟩] }, ?_, ?_⟩
  · unfold firstPass runToCompletion
    rw [if_pos (start_running _)]
    exact runToCompletion_stopped g fuel _ (by rw [hcycle])
  · rw [hcycle]
    refine ⟨rfl, rfl, rfl, rfl, ?_, rfl, ?_, ?_⟩
    · simp [ValidationError.toString, String.intercalate, String.intercalate.go]
    · simp [Notification.isError]
    · simp [Controller.finished, documentEvents, childrenEvents]

/-- Witness of `empty_document_is_INVALID`: the schema of the tests requires
`html`, and the one error reads `tag required: {}html`, as the test "with an
empty document" expects. -/
theorem empty_document_is_INVALID_witness :
    ∃ c e, firstPass testGrammar 1 (Controller.new testGrammar []) = some c ∧
      c._working_state = WState.INVALID ∧
      c._errors.map (fun r => r.error) = [e] ∧
      e.toString = "tag required: \x7b\x7dhtml" ∧
      e.node = [] ∧
      c.notifications.filter Notification.isError = [Notification.error e] := by
  obtain ⟨c, e, h1, h2, h3, _, _, h6, h7, h8, _⟩ :=
    empty_document_is_INVALID testGrammar "" "html" 1 (Nat.le_refl 1) rfl
  exact ⟨c, e, h1, h2, h3, h6.trans (by decide), h7, h8⟩

theorem walkTo_spec {σ : Type} (g : Grammar σ) (target : Nat) (fuel : Nat) :
    ∀ c : Controller σ, target ≤ (documentEvents c.root).length →
      target - c.cursor ≤ fuel →
      ∃ c1, walkTo g target fuel c = some c1 ∧ c1.root = c.root ∧
        c1._errors = c._errors ++
          walkErrors g c.walker c.cursor
            (((documentEvents c.root).drop c.cursor).take (target - c.cursor)) := by
  induction fuel with
  | zero =>
    intro c _ hfuel
    have ht : target ≤ c.cursor := by omega
    refine ⟨c, by simp [walkTo, ht], rfl, ?_⟩
    rw [Nat.sub_eq_zero_of_le ht]
    simp [walkErrors]
  | succ fuel ih =>
    intro c hlen hfuel
    by_cases ht : target ≤ c.cursor
    · refine ⟨c, by simp [walkTo, ht], rfl, ?_⟩
      rw [Nat.sub_eq_zero_of_le ht]
      simp [walkErrors]
    · have hlt : c.cursor < (documentEvents c.root).length := by omega
      have hget : (documentEvents c.root)[c.cursor]? =
          some ((documentEvents c.root)[c.cursor]) := List.getElem?_eq_getElem hlt
      obtain ⟨c1, h1, h2, h3⟩ := ih (consume g c (documentEvents c.root)[c.cursor])
        hlen (by
          show target - (c.cursor + 1) ≤ fuel
          omega)
      refine ⟨c1, ?_, h2, ?_⟩
      · unfold walkTo
        rw [if_neg ht, hget]
        exact h1
      · rw [h3]
        have hk : target - c.cursor = (target - (c.cursor + 1)) + 1 := by omega
        have hdrop : (documentEvents c.root).drop c.cursor =
            (documentEvents c.root)[c.cursor] :: (documentEvents c.root).drop (c.cursor + 1) :=
          List.drop_eq_getElem_cons hlt
        rw [hk, hdrop, List.take_succ_cons]
        show (c._errors ++ recorded c.cursor _ _) ++ _ = _
        rw [List.append_assoc]
        rfl

theorem speculativelyValidate_spec {σ : Type} (g : Grammar σ) (fuel : Nat)
    (c : Controller σ) (container : Path) (offset : Nat) (candidate : List XNode) (p : Nat)
    (hp : locationPosition c.root container offset = some p)
    (hfuel : (documentEvents candidate).length ≤ fuel) :
    speculativelyValidate g fuel c container offset candidate =
      some
        (if ((walkErrors g (walkerFrom g c container p) 0 (documentEvents candidate)).map
              (fun e => e.error)).isEmpty
          then SpeculativeResult.noError
          else SpeculativeResult.errors
            ((walkErrors g (walkerFrom g c container p) 0 (documentEvents candidate)).map
              (fun e => e.error)),
         c) := by
  obtain ⟨c1, h1, _, h3⟩ := walkTo_spec g (documentEvents candidate).length fuel
    ({ root := candidate, walker := walkerFrom g c container p,
       _working_state := WState.WORKING } : Controller σ) (Nat.le_refl _) hfuel
  simp only [List.nil_append, Nat.sub_zero, List.drop_zero, List.take_length] at h3
  unfold speculativelyValidate
  rw [hp]
  simp only [h1, h3]
  by_cases he : (walkErrors g (walkerFrom g c container p) 0 (documentEvents candidate)) = []
  · simp [he]
  · simp [he]

/-- C10: `speculativelyValidate` returns for every candidate: at any location of
the live tree, with fuel for one step per cursor event of the candidate, it
yields a result and hands the controller back; for a candidate that is a
single text node one step is enough. -/
theorem speculativelyValidate_terminates {σ : Type} (g : Grammar σ) (c : Controller σ)
    (container : Path) (offset : Nat) (p : Nat)
    (hp : locationPosition c.root container offset = some p) :
    (∀ (candidate : List XNode) (fuel : Nat), (documentEvents candidate).length ≤ fuel →
      ∃ r, speculativelyValidate g fuel c container offset candidate = some (r, c)) ∧
    (∀ (data : String) (fuel : Nat), 1 ≤ fuel →
      ∃ r, speculativelyValidate g fuel c container offset [XNode.text data] = some (r, c)) := by
  constructor
  · intro candidate fuel hfuel
    exact ⟨_, speculativelyValidate_spec g fuel c container offset candidate p hp hfuel⟩
  · intro data fuel hfuel
    exact ⟨_, speculativelyValidate_spec g fuel c container offset [XNode.text data] p hp
      (by
        have : (documentEvents [XNode.text data]).length = 1 := by
          simp [documentEvents, childrenEvents, nodeEvents]
        omega)⟩

theorem initializedTest_consistent :
    Consistent testGrammar initializedTest ∧ initializedTest.root = testDocument :=
  consistent_execAll testGrammar _ _ (consistent_new testGrammar testDocument)

theorem speculativelyValidate_consistent {σ : Type} (g : Grammar σ) (fuel : Nat)
    (c : Controller σ) (hc : Consistent g c) (container : Path) (offset : Nat)
    (candidate : List XNode) (p : Nat)
    (hp : locationPosition c.root container offset = some p)
    (hfuel : (documentEvents candidate).length ≤ fuel) :
    speculativelyValidate g fuel c container offset candidate =
      some
        (if (fragmentErrors g c.root p candidate).isEmpty then SpeculativeResult.noError
          else SpeculativeResult.errors (fragmentErrors g c.root p candidate), c) := by
  rw [speculativelyValidate_spec g fuel c container offset candidate p hp hfuel,
    walkerFrom_eq g c hc]
  rfl

set_option maxRecDepth 8000 in
/-- The model answers the tests of `speculativelyValidate` as they expect: on the
initialized controller a `body` offered in place of `body` is valid, an `em`
offered there gives the single error `tag not allowed here: {}em`, and the
controller's own error list is empty before and after. -/
theorem speculativelyValidate_as_tested :
    speculativelyValidate testGrammar 6 initializedTest [0] 1
        [el "body" [el "em" [.text "blah"]]] =
      some (SpeculativeResult.noError, initializedTest) ∧
    (∃ e, speculativelyValidate testGrammar 6 initializedTest [0] 1 [el "em" [.text "blah"]] =
        some (SpeculativeResult.errors [e], initializedTest) ∧
      e.toString = "tag not allowed here: \x7b\x7dem") ∧
    initializedTest._errors = [] := by
  obtain ⟨hc, hroot⟩ := initializedTest_consistent
  have hp : locationPosition initializedTest.root [0] 1 = some 6 := by
    rw [hroot]
    decide
  have h1 := speculativelyValidate_consistent testGrammar 6 initializedTest hc [0] 1
    [el "body" [el "em" [.text "blah"]]] 6 hp (by decide)
  have h2 := speculativelyValidate_consistent testGrammar 6 initializedTest hc [0] 1
    [el "em" [.text "blah"]] 6 hp (by decide)
  rw [hroot] at h1 h2
  have e1 : fragmentErrors testGrammar testDocument 6 [el "body" [el "em" [.text "blah"]]] =
      [] := by decide
  have e2 : fragmentErrors testGrammar testDocument 6 [el "em" [.text "blah"]] =
      [misplacedEm] := by decide
  rw [e1] at h1
  rw [e2] at h2
  refine ⟨h1, ⟨_, h2, by decide⟩, ?_⟩
  have hf : initializedTest.finished = true := by decide
  rw [(finished_result testGrammar initializedTest hc hf).1, hroot]
  exact conforms_expectedErrors testGrammar testDocument (by decide)

/-- Witness of `speculativelyValidate_terminates`: the test "works fine if the
data to validate is only text": a text node offered at offset 0 of the first
`em` of the initialized controller; the result is `false`. -/
theorem speculativelyValidate_terminates_witness :
    locationPosition initializedTest.root [0, 1, 0] 0 = some 8 ∧
    speculativelyValidate testGrammar 1 initializedTest [0, 1, 0] 0 [XNode.text "data"] =
      some (SpeculativeResult.noError, initializedTest) := by
  have hp : locationPosition initializedTest.root [0, 1, 0] 0 = some 8 := by
    rw [initializedTest_consistent.2]
    decide
  refine ⟨hp, ?_⟩
  obtain ⟨r, hr⟩ := (speculativelyValidate_terminates testGrammar initializedTest
    [0, 1, 0] 0 8 hp).2 "data" 1 (Nat.le_refl 1)
  have h2 := speculativelyValidate_consistent testGrammar 1 initializedTest
    initializedTest_consistent.1 [0, 1, 0] 0 [XNode.text "data"] 8 hp (by decide)
  rw [initializedTest_consistent.2] at h2
  have h3 : fragmentErrors testGrammar testDocument 8 [XNode.text "data"] = [] := by decide
  rw [h3] at h2
  exact hr.trans (hr.symm.trans h2)

theorem accepts_none_split {σ : Type} (g : Grammar σ) (events : List CursorEvent) :
    ∀ s : σ, accepts g s (events.map (fun e => e.ev)) = none →
      ∃ pre e post s1, events = pre ++ e :: post ∧
        accepts g s (pre.map (fun e => e.ev)) = some s1 ∧ g.advance s1 e.ev = none := by
  induction events with
  | nil =>
    intro s h
    simp [accepts] at h
  | cons e rest ih =>
    intro s h
    simp only [List.map_cons, accepts] at h
    cases hadv : g.advance s e.ev with
    | none => exact ⟨[], e, rest, s, rfl, rfl, hadv⟩
    | some s2 =>
      rw [hadv] at h
      obtain ⟨pre, e1, post, s1, h1, h2, h3⟩ := ih s2 h
      refine ⟨e :: pre, e1, post, s1, by rw [h1]; rfl, ?_, h3⟩
      simp only [List.map_cons, accepts, hadv]
      exact h2

theorem fireEvent_rejected {σ : Type} (g : Grammar σ) (s : σ) (e : CursorEvent)
    (h : g.advance s e.ev = none) :
    recorded 0 e ((Walker.fireEvent g ⟨s, 0⟩ e.ev).2) = [⟨0, rejectionOf g s e⟩] ∧
    ∀ pos, recorded pos e ((Walker.fireEvent g ⟨s, 0⟩ e.ev).2) = [⟨pos, rejectionOf g s e⟩] := by
  have key : ∀ pos, recorded pos e ((Walker.fireEvent g ⟨s, 0⟩ e.ev).2) =
      [⟨pos, rejectionOf g s e⟩] := by
    intro pos
    have hf : (Walker.fireEvent g ⟨s, 0⟩ e.ev).2 =
        some ⟨(rejectionOf g s e).kind, startTagNames (g.possibleEvents s)⟩ := by
      have h0 : g.advance s e.ev = none := h
      cases hev : e.ev <;> rw [hev] at h0 <;>
        simp [Walker.fireEvent, h0, hev, rejectionOf]
    rw [hf]
    rfl
  exact ⟨key 0, key⟩

theorem walkErrors_first_rejection {σ : Type} (g : Grammar σ) (s s1 : σ)
    (pre : List CursorEvent) (e : CursorEvent) (post : List CursorEvent)
    (hpre : accepts g s (pre.map (fun e => e.ev)) = some s1)
    (hrej : g.advance s1 e.ev = none) :
    ∃ rest, (walkErrors g ⟨s, 0⟩ 0 (pre ++ e :: post)).map (fun r => r.error) =
      rejectionOf g s1 e :: rest := by
  obtain ⟨h1, h2⟩ := accepts_walk g pre s s1 0 hpre
  rw [walkErrors_append, h1, h2]
  simp only [List.nil_append, walkErrors, (fireEvent_rejected g s1 e hrej).2, List.singleton_append,
    List.map_cons]
  exact ⟨_, rfl⟩

/-- C4: (1) on a controller reached by any history of operations, at an
insertion point before which the automaton accepts the document,
`speculativelyValidate`, given fuel for the candidate, returns `false` when the
automaton accepts the events of the candidate from the state it has at the
insertion point; otherwise it returns a non-empty list of errors, the first of
which is the rejection of the first event the automaton rejects. (2)
`_pasteHandler` commits on that value: with a caret, a non-empty clipboard text
and a text taken as XML, a result `false` fires the paste transformation with
the parsed nodes; a list of errors fires nothing and brings up the paste modal,
whose answer "Yes" fires the paste transformation with a `div` holding the
clipboard text as one text node, while any other answer fires nothing. -/
theorem paste_commits_on_speculative_result {σ ε : Type} (g : Grammar σ)
    (root : List XNode) (ops : List Op) (fuel : Nat) (container : Path) (offset p : Nat)
    (candidate : List XNode) (s : σ) (env : PasteEnv ε) (ed : Editor) (caret : Caret)
    (text : String)
    (hp : locationPosition root container offset = some p)
    (hfuel : (documentEvents candidate).length ≤ fuel)
    (hbefore : accepts g g.start (((documentEvents root).take p).map (fun e => e.ev)) = some s)
    (hcaret : env.getDataCaret = some caret) (htext : env.clipboardText = some text)
    (hne : text ≠ "")
    (hxml : pasteAsXml (env.parseFromString ("<div>" ++ text ++ "</div>")) = true) :
    (∀ s1, accepts g s ((documentEvents candidate).map (fun e => e.ev)) = some s1 →
      speculativelyValidate g fuel (execAll g (Controller.new g root) ops)
          container offset candidate =
        some (SpeculativeResult.noError, execAll g (Controller.new g root) ops)) ∧
    (accepts g s ((documentEvents candidate).map (fun e => e.ev)) = none →
      ∃ first rest,
        speculativelyValidate g fuel (execAll g (Controller.new g root) ops)
            container offset candidate =
          some (SpeculativeResult.errors (first :: rest),
                execAll g (Controller.new g root) ops)) ∧
    (∀ pre e post s1, documentEvents candidate = pre ++ e :: post →
      accepts g s (pre.map (fun e => e.ev)) = some s1 → g.advance s1 e.ev = none →
      ∃ rest,
        speculativelyValidate g fuel (execAll g (Controller.new g root) ops)
            container offset candidate =
          some (SpeculativeResult.errors (rejectionOf g s1 e :: rest),
                execAll g (Controller.new g root) ops)) ∧
    (env.speculativelyValidate caret
        (env.parseFromString ("<div>" ++ text ++ "</div>")).children =
          SpeculativeResult.noError →
      (_pasteHandler env ed).fired_paste =
        ed.fired_paste ++
          [⟨caret.node, env.parseFromString ("<div>" ++ text ++ "</div>")⟩] ∧
      (_pasteHandler env ed).paste_modal = ed.paste_modal) ∧
    (∀ es, env.speculativelyValidate caret
        (env.parseFromString ("<div>" ++ text ++ "</div>")).children =
          SpeculativeResult.errors es →
      (_pasteHandler env ed).fired_paste = ed.fired_paste ∧
      (_pasteHandler env ed).paste_modal = some ⟨text, caret.node⟩ ∧
      (pasteModalDismissed "Yes" (_pasteHandler env ed)).fired_paste =
        ed.fired_paste ++
          [⟨caret.node, DomNode.element "div" none [DomNode.text text]⟩] ∧
      ∀ clicked, clicked ≠ "Yes" →
        (pasteModalDismissed clicked (_pasteHandler env ed)).fired_paste = ed.fired_paste) := by
  obtain ⟨hc, hroot⟩ := consistent_execAll g ops _ (consistent_new g root)
  have hroot1 : (execAll g (Controller.new g root) ops).root = root := hroot
  have hspec := speculativelyValidate_consistent g fuel _ hc container offset candidate p
    (by rw [hroot1]; exact hp) hfuel
  rw [hroot1] at hspec
  have hwalker : walkerAt g root p = ⟨s, 0⟩ :=
    (accepts_walk g ((documentEvents root).take p) g.start s 0 hbefore).2
  have hfrag : fragmentErrors g root p candidate =
      (walkErrors g ⟨s, 0⟩ 0 (documentEvents candidate)).map (fun r => r.error) := by
    unfold fragmentErrors
    rw [hwalker]
  have hsplit : ∀ pre e post s1, documentEvents candidate = pre ++ e :: post →
      accepts g s (pre.map (fun e => e.ev)) = some s1 → g.advance s1 e.ev = none →
      ∃ rest,
        speculativelyValidate g fuel (execAll g (Controller.new g root) ops)
            container offset candidate =
          some (SpeculativeResult.errors (rejectionOf g s1 e :: rest),
                execAll g (Controller.new g root) ops) := by
    intro pre e post s1 hev hpre hrej
    obtain ⟨rest, hrest⟩ := walkErrors_first_rejection g s s1 pre e post hpre hrej
    rw [← hev, ← hfrag] at hrest
    refine ⟨rest, ?_⟩
    rw [hspec, hrest]
    rfl
  refine ⟨?_, ?_, hsplit, ?_, ?_⟩
  · intro s1 h
    have h1 := (accepts_walk g (documentEvents candidate) s s1 0 h).1
    rw [hspec, hfrag, h1]
    rfl
  · intro h
    obtain ⟨pre, e, post, s1, hev, hpre, hrej⟩ := accepts_none_split g _ s h
    obtain ⟨rest, hrest⟩ := hsplit pre e post s1 hev hpre hrej
    exact ⟨_, rest, hrest⟩
  · intro h
    simp [_pasteHandler, hcaret, htext, hne, hxml, h, SpeculativeResult.truthy, firePaste]
  · intro es h
    have hout : _pasteHandler env ed = { ed with paste_modal := some ⟨text, caret.node⟩ } := by
      simp [_pasteHandler, hcaret, htext, hne, hxml, h, SpeculativeResult.truthy]
    rw [hout]
    refine ⟨rfl, rfl, ?_, ?_⟩
    · simp [pasteModalDismissed, firePaste, textDiv, hne]
    · intro clicked hclicked
      simp [pasteModalDismissed, hclicked]

set_option maxRecDepth 8000 in
/-- Witness of `paste_commits_on_speculative_result`: on the initialized
controller of the tests a `body` offered where `body` stands is valid, and an
`em` offered there gives the error `tag not allowed here: {}em` first; and a
paste whose validation reports an error pastes nothing until the user answers
"Yes", and then pastes a `div` holding the clipboard text. -/
theorem paste_commits_on_speculative_result_witness :
    speculativelyValidate testGrammar 4
        (execAll testGrammar (Controller.new testGrammar testDocument)
          (Op.start :: List.replicate 18 Op.cycle))
        [0] 1 [el "body" [el "em" []]] =
      some (SpeculativeResult.noError,
        execAll testGrammar (Controller.new testGrammar testDocument)
          (Op.start :: List.replicate 18 Op.cycle)) ∧
    (∃ rest, speculativelyValidate testGrammar 4
        (execAll testGrammar (Controller.new testGrammar testDocument)
          (Op.start :: List.replicate 18 Op.cycle))
        [0] 1 [el "em" [.text "blah"]] =
      some (SpeculativeResult.errors
          (rejectionOf testGrammar [("html", 1), ("", 0)]
            ⟨Event.enterStartTag "" "em", [0], [], 0, true, 0⟩ :: rest),
        execAll testGrammar (Controller.new testGrammar testDocument)
          (Op.start :: List.replicate 18 Op.cycle))) ∧
    (rejectionOf testGrammar [("html", 1), ("", 0)]
        ⟨Event.enterStartTag "" "em", [0], [], 0, true, 0⟩).toString =
      "tag not allowed here: \x7b\x7dem" ∧
    (_pasteHandler (testPasteEnv "<em/>" (SpeculativeResult.errors [misplacedEm])) {}).fired_paste =
      [] ∧
    (pasteModalDismissed "Yes"
        (_pasteHandler (testPasteEnv "<em/>"
          (SpeculativeResult.errors [misplacedEm])) {})).fired_paste =
      [] ++ [⟨5, DomNode.element "div" none [DomNode.text "<em/>"]⟩] :=
  have h := paste_commits_on_speculative_result testGrammar testDocument
    (Op.start :: List.replicate 18 Op.cycle) 4 [0] 1 6 [el "body" [el "em" []]]
    [("html", 1), ("", 0)]
    (testPasteEnv "<em/>" (SpeculativeResult.errors [misplacedEm])) {} ⟨5, 0⟩ "<em/>"
    (by decide) (by decide) (by decide) rfl rfl (by decide) (by decide)
  have h2 := paste_commits_on_speculative_result testGrammar testDocument
    (Op.start :: List.replicate 18 Op.cycle) 4 [0] 1 6 [el "em" [.text "blah"]]
    [("html", 1), ("", 0)]
    (testPasteEnv "<em/>" (SpeculativeResult.errors [misplacedEm])) {} ⟨5, 0⟩ "<em/>"
    (by decide) (by decide) (by decide) rfl rfl (by decide) (by decide)
  ⟨h.1 [("html", 2), ("", 0)] (by decide),
   h2.2.2.1 [] ⟨Event.enterStartTag "" "em", [0], [], 0, true, 0⟩
     (documentEvents [el "em" [.text "blah"]]).tail [("html", 1), ("", 0)]
     (by decide!) (by decide) (by decide),
   by decide,
   (h.2.2.2.2 [misplacedEm] rfl).1, (h.2.2.2.2 [misplacedEm] rfl).2.2.1⟩

theorem attrEvents_gain (self parent : Path) (i : Nat) (attrs : List Attr) :
    ∀ e ∈ attrEvents self parent i attrs, e.gain = 0 := by
  induction attrs with
  | nil =>
    intro e h
    cases h
  | cons a rest ih =>
    intro e h
    unfold attrEvents at h
    rcases List.mem_cons.mp h with h1 | h1
    · rw [h1]
    · rcases List.mem_cons.mp h1 with h2 | h2
      · rw [h2]
      · exact ih e h2

theorem attrEvents_sum (self parent : Path) (i : Nat) (attrs : List Attr) :
    ((attrEvents self parent i attrs).map (fun e => e.gain)).sum = 0 := by
  apply List.sum_eq_zero
  intro x hx
  obtain ⟨e, he, rfl⟩ := List.mem_map.mp hx
  exact attrEvents_gain self parent i attrs e he

mutual
theorem nodeEvents_gain : ∀ (n : XNode) (portion : ℚ) (parent : Path) (i : Nat),
    0 ≤ portion →
    (∀ e ∈ nodeEvents portion parent i n, 0 ≤ e.gain) ∧
    ((nodeEvents portion parent i n).map (fun e => e.gain)).sum ≤ portion
  | .text _, portion, parent, i, hp => by
    constructor
    · intro e h
      simp only [nodeEvents, List.mem_singleton] at h
      rw [h]
    · simpa [nodeEvents] using hp
  | .element ns name attrs children, portion, parent, i, hp => by
    have hq : 0 ≤ portion / (elementCount children : ℚ) :=
      div_nonneg hp (Nat.cast_nonneg _)
    obtain ⟨h1, h2⟩ := childrenEvents_gain children (portion / elementCount children)
      (parent ++ [i]) 0 hq
    constructor
    · intro e h
      simp only [nodeEvents, List.mem_cons, List.mem_append, List.mem_singleton,
        List.not_mem_nil, or_false] at h
      rcases h with h | h | h | h
      · rw [h]
      · rw [attrEvents_gain _ _ _ _ e h]
      · exact h1 e h
      · rw [h]
        show 0 ≤ (if elementCount children = 0 then portion else 0)
        split
        · exact hp
        · exact le_refl _
    · simp only [nodeEvents, List.map_cons, List.map_append, List.sum_cons, List.sum_append,
        List.map_nil, List.sum_nil, attrEvents_sum, zero_add, add_zero]
      by_cases hk : elementCount children = 0
      · rw [hk] at h2
        simp only [hk, Nat.cast_zero, mul_zero, ↓reduceIte] at h2 ⊢
        have h0 : ((childrenEvents (portion / 0) (parent ++ [i]) 0 children).map
            (fun e => e.gain)).sum = 0 := h2
        rw [h0, zero_add]
      · simp only [hk, ↓reduceIte, add_zero]
        have hk1 : (elementCount children : ℚ) ≠ 0 := Nat.cast_ne_zero.mpr hk
        rw [h2, div_mul_cancel₀ _ hk1]
theorem childrenEvents_gain : ∀ (cs : List XNode) (portion : ℚ) (parent : Path) (i : Nat),
    0 ≤ portion →
    (∀ e ∈ childrenEvents portion parent i cs, 0 ≤ e.gain) ∧
    ((childrenEvents portion parent i cs).map (fun e => e.gain)).sum =
      portion * elementCount cs
  | [], portion, parent, i, _ => by
    simp [childrenEvents, elementCount]
  | .text d :: rest, portion, parent, i, hp => by
    obtain ⟨h1, h2⟩ := childrenEvents_gain rest portion parent (i + 1) hp
    constructor
    · intro e h
      simp only [childrenEvents, nodeEvents, List.singleton_append, List.mem_cons] at h
      rcases h with h | h
      · rw [h]
      · exact h1 e h
    · simp only [childrenEvents, nodeEvents, List.singleton_append, List.map_cons,
        List.sum_cons, zero_add, elementCount]
      exact h2
  | .element ns name attrs children :: rest, portion, parent, i, hp => by
    obtain ⟨h1, h2⟩ := childrenEvents_gain rest portion parent (i + 1) hp
    have hq : 0 ≤ portion / (elementCount children : ℚ) :=
      div_nonneg hp (Nat.cast_nonneg _)
    obtain ⟨h3, h4⟩ := childrenEvents_gain children (portion / elementCount children)
      (parent ++ [i]) 0 hq
    constructor
    · intro e h
      simp only [childrenEvents, nodeEvents, List.mem_cons, List.mem_append,
        List.mem_singleton, List.cons_append, List.append_assoc, List.not_mem_nil,
        or_false, false_or] at h
      rcases h with h | h | h | h | h
      · rw [h]
      · rw [attrEvents_gain _ _ _ _ e h]
      · exact h3 e h
      · rw [h]
        show 0 ≤ (if elementCount children = 0 then portion else 0)
        split
        · exact hp
        · exact le_refl _
      · exact h1 e h
    · simp only [childrenEvents, nodeEvents, List.map_cons, List.map_append, List.sum_cons,
        List.sum_append, List.map_nil, List.sum_nil, attrEvents_sum, zero_add, add_zero,
        List.cons_append, List.append_assoc, elementCount, Nat.cast_add, Nat.cast_one]
      rw [h2, h4]
      by_cases hk : elementCount children = 0
      · simp only [hk, Nat.cast_zero, mul_zero, ↓reduceIte, zero_add]
        ring
      · have hk1 : (elementCount children : ℚ) ≠ 0 := Nat.cast_ne_zero.mpr hk
        simp only [hk, ↓reduceIte, add_zero]
        rw [div_mul_cancel₀ _ hk1]
        ring
end

theorem documentEvents_gain (root : List XNode) :
    (∀ e ∈ documentEvents root, 0 ≤ e.gain) ∧
    ((documentEvents root).map (fun e => e.gain)).sum ≤ 1 := by
  have hq : (0 : ℚ) ≤ 1 / (elementCount root : ℚ) :=
    div_nonneg zero_le_one (Nat.cast_nonneg _)
  obtain ⟨h1, h2⟩ := childrenEvents_gain root (1 / elementCount root) [] 0 hq
  refine ⟨h1, ?_⟩
  unfold documentEvents
  rw [h2]
  by_cases hk : elementCount root = 0
  · simp [hk]
  · have hk1 : (elementCount root : ℚ) ≠ 0 := Nat.cast_ne_zero.mpr hk
    rw [div_mul_cancel₀ _ hk1]

theorem sum_gain_nonneg (l : List CursorEvent) (h : ∀ e ∈ l, 0 ≤ e.gain) :
    0 ≤ (l.map (fun e => e.gain)).sum := by
  apply List.sum_nonneg
  intro x hx
  obtain ⟨e, he, rfl⟩ := List.mem_map.mp hx
  exact h e he

theorem partDoneAt_mono (root : List XNode) (p q : Nat) (h : p ≤ q) :
    partDoneAt root p ≤ partDoneAt root q := by
  obtain ⟨k, rfl⟩ : ∃ k, q = p + k := ⟨q - p, by omega⟩
  unfold partDoneAt
  rw [List.take_add, List.map_append, List.sum_append]
  have : 0 ≤ ((((documentEvents root).drop p).take k).map (fun e => e.gain)).sum := by
    apply sum_gain_nonneg
    intro e he
    exact (documentEvents_gain root).1 e (List.mem_of_mem_drop (List.mem_of_mem_take he))
  linarith

theorem partDoneAt_nonneg (root : List XNode) (p : Nat) : 0 ≤ partDoneAt root p := by
  apply sum_gain_nonneg
  intro e he
  exact (documentEvents_gain root).1 e (List.mem_of_mem_take he)

theorem partDoneAt_le_one (root : List XNode) (p : Nat) : partDoneAt root p ≤ 1 := by
  have h1 := partDoneAt_mono root p (p + (documentEvents root).length) (by omega)
  have h2 : partDoneAt root (p + (documentEvents root).length) =
      ((documentEvents root).map (fun e => e.gain)).sum := by
    unfold partDoneAt
    rw [List.take_of_length_le (by omega)]
  rw [h2] at h1
  exact le_trans h1 (documentEvents_gain root).2

theorem consistent_part_done_bounds {σ : Type} (g : Grammar σ) (c : Controller σ)
    (hc : Consistent g c) : 0 ≤ c._part_done ∧ c._part_done ≤ 1 := by
  rw [hc.part_done_eq]
  split
  · exact ⟨partDoneAt_nonneg _ _, partDoneAt_le_one _ _⟩
  · exact ⟨zero_le_one, le_refl _⟩

theorem cycle_cursor_le {σ : Type} (g : Grammar σ) (c : Controller σ) (hc : Consistent g c) :
    c.cursor ≤ (_cycle g c).cursor := by
  by_cases hf : c.finished = true
  · unfold _cycle
    rw [if_pos hf]
  · exact Nat.le_of_lt (cycle_spec g c hc (by simpa using hf)).1

/-- C9, amended: along any history of a controller, the next cycle never lowers
`part_done`; `part_done` stays within [0, 1]; and once the walk is over (the
cursor is exhausted and the document closed) `part_done` is exactly 1 and the
working state is VALID or INVALID. -/
theorem part_done_monotone {σ : Type} (g : Grammar σ) (root : List XNode) (ops : List Op) :
    (execAll g (Controller.new g root) ops)._part_done ≤
      (_cycle g (execAll g (Controller.new g root) ops))._part_done ∧
    0 ≤ (execAll g (Controller.new g root) ops)._part_done ∧
    (execAll g (Controller.new g root) ops)._part_done ≤ 1 ∧
    ((execAll g (Controller.new g root) ops).finished = true →
      (execAll g (Controller.new g root) ops)._part_done = 1 ∧
      ((execAll g (Controller.new g root) ops)._working_state = WState.VALID ∨
       (execAll g (Controller.new g root) ops)._working_state = WState.INVALID)) := by
  obtain ⟨hc, _⟩ := consistent_execAll g ops _ (consistent_new g root)
  have hc1 := consistent_cycle g _ hc
  have hroot := cycle_root g _ hc
  have hcur := cycle_cursor_le g _ hc
  refine ⟨?_, (consistent_part_done_bounds g _ hc).1, (consistent_part_done_bounds g _ hc).2, ?_⟩
  · rw [hc1.part_done_eq, hroot]
    split
    · rw [hc.part_done_eq, if_pos (by omega)]
      exact partDoneAt_mono _ _ _ hcur
    · exact (consistent_part_done_bounds g _ hc).2
  · intro hf
    obtain ⟨_, h2, h3⟩ := finished_result g _ hc hf
    refine ⟨h3, ?_⟩
    rw [h2]
    split
    · exact Or.inl rfl
    · exact Or.inr rfl

theorem percentWalk_part_done (n : Nat)
    (h : (percentWalk n).cursor ≤ (documentEvents percentDocument).length) :
    (percentWalk n)._part_done = partDoneAt percentDocument (percentWalk n).cursor := by
  obtain ⟨hc, hroot⟩ := consistent_execAll testGrammar (Op.start :: List.replicate n Op.cycle)
    _ (consistent_new testGrammar percentDocument)
  have h1 : (percentWalk n)._part_done =
      if (percentWalk n).cursor ≤ (documentEvents (percentWalk n).root).length then
        partDoneAt (percentWalk n).root (percentWalk n).cursor
      else 1 := hc.part_done_eq
  have hroot1 : (percentWalk n).root = percentDocument := hroot
  rw [hroot1, if_pos h] at h1
  exact h1

theorem partDoneAt_percent_14 : partDoneAt percentDocument 14 = 1 := by
  simp [partDoneAt, percentDocument, documentEvents, childrenEvents, nodeEvents, attrEvents,
    el, elementCount]
  norm_num

theorem partDoneAt_percent_values :
    partDoneAt percentDocument 3 = 0 ∧ partDoneAt percentDocument 5 = 1 / 2 ∧
    partDoneAt percentDocument 9 = 3 / 4 ∧ partDoneAt percentDocument 12 = 7 / 8 := by
  refine ⟨?_, ?_, ?_, ?_⟩ <;>
    (simp [partDoneAt, percentDocument, documentEvents, childrenEvents, nodeEvents,
      attrEvents, el, elementCount]) <;> norm_num

set_option maxRecDepth 8000 in
/-- The model walks the document of the test "percent done" as the test
expects: `part_done` is 0 after three cycles, 0.5 after the fourth, 0.75 after
the eighth, 0.875 after the eleventh and 1 after the thirteenth; the
seventeenth cycle ends the walk with VALID and no error. -/
theorem percentWalk_as_tested :
    (percentWalk 3)._part_done = 0 ∧ (percentWalk 4)._part_done = 1 / 2 ∧
    (percentWalk 8)._part_done = 3 / 4 ∧ (percentWalk 11)._part_done = 7 / 8 ∧
    (percentWalk 13)._part_done = 1 ∧
    (percentWalk 16).finished = false ∧ (percentWalk 17).finished = true ∧
    (percentWalk 17)._working_state = WState.VALID ∧ (percentWalk 17)._errors = [] := by
  have h3 : (percentWalk 3).cursor = 3 := by decide
  have h4 : (percentWalk 4).cursor = 5 := by decide
  have h8 : (percentWalk 8).cursor = 9 := by decide
  have h11 : (percentWalk 11).cursor = 12 := by decide
  have h13 : (percentWalk 13).cursor = 14 := by decide
  have hl : (documentEvents percentDocument).length = 17 := by decide
  refine ⟨?_, ?_, ?_, ?_, ?_, by decide, by decide, by decide, by decide⟩
  · rw [percentWalk_part_done 3 (by rw [h3, hl]; decide), h3]
    exact partDoneAt_percent_values.1
  · rw [percentWalk_part_done 4 (by rw [h4, hl]; decide), h4]
    exact partDoneAt_percent_values.2.1
  · rw [percentWalk_part_done 8 (by rw [h8, hl]; decide), h8]
    exact partDoneAt_percent_values.2.2.1
  · rw [percentWalk_part_done 11 (by rw [h11, hl]; decide), h11]
    exact partDoneAt_percent_values.2.2.2
  · rw [percentWalk_part_done 13 (by rw [h13, hl]; decide), h13]
    exact partDoneAt_percent_14

/-- C9, as stated, fails in both directions: on the document of the test
"percent done", after the thirteenth of seventeen cycles `part_done` is exactly
1 while the working state is still WORKING; and on a document whose first
element is not allowed, the first cycle makes the state INVALID while
`part_done` is 0. -/
theorem part_done_one_not_iff_terminal :
    ¬ ((percentWalk 13)._part_done = 1 ↔
        ((percentWalk 13)._working_state = WState.VALID ∨
         (percentWalk 13)._working_state = WState.INVALID)) ∧
    ¬ ((misplacedWalk 1)._part_done = 1 ↔
        ((misplacedWalk 1)._working_state = WState.VALID ∨
         (misplacedWalk 1)._working_state = WState.INVALID)) := by
  constructor
  · intro h
    have hs : (percentWalk 13)._working_state = WState.WORKING := by decide
    rcases h.mp percentWalk_as_tested.2.2.2.2.1 with h1 | h1
    · rw [hs] at h1
      cases h1
    · rw [hs] at h1
      cases h1
  · intro h
    have hs : (misplacedWalk 1)._working_state = WState.INVALID := by decide
    have hp : (misplacedWalk 1)._part_done = 0 := by
      simp [misplacedWalk, misplacedDocument, execAll, exec, start, Controller.new, _cycle,
        Controller.finished, walkCycle, consume, documentEvents, childrenEvents, nodeEvents,
        attrEvents, el, elementCount]
    have h1 := h.mpr (Or.inr hs)
    rw [hp] at h1
    exact absurd h1 (by norm_num)

set_option maxRecDepth 8000 in
/-- Witness of `part_done_monotone`: the walk of the test "percent done" is over
after seventeen cycles, with `part_done` at 1. -/
theorem part_done_monotone_witness :
    (percentWalk 17).finished = true ∧ (percentWalk 17)._part_done = 1 :=
  ⟨by decide,
   ((part_done_monotone testGrammar percentDocument
      (Op.start :: List.replicate 17 Op.cycle)).2.2.2 (by decide)).1⟩

/-! ## `util.ts` -/

/-- C12, evaluated at failing inputs: the round trip does not give back the
attribute name `a---b` (its encoding is `data-wed-a----b`, which decodes to
`a:-b`), nor the name `a-:b` (encoded `data-wed-a----b` as well); it does give
back `xml:lang` and `a--b`. -/
theorem decode_encode_attr_name_fails :
    encodeAttrName "a---b" = "data-wed-a----b" ∧
    decodeAttrName (encodeAttrName "a---b") = "a:-b" ∧
    decodeAttrName (encodeAttrName "a---b") ≠ "a---b" ∧
    encodeAttrName "a-:b" = "data-wed-a----b" ∧
    decodeAttrName (encodeAttrName "a-:b") ≠ "a-:b" ∧
    decodeAttrName (encodeAttrName "xml:lang") = "xml:lang" ∧
    decodeAttrName (encodeAttrName "a--b") = "a--b" := by
  decide

/-- C13: for a point in the rectangle or touching it (`left ≤ x ≤ right` and
`top ≤ y ≤ bottom`), `distFromRect` returns 0 (whatever square root function
maps 0 to 0) and `distsFromRect` returns `{x: 0, y: 0}`; and for every input
both components returned by `distsFromRect` are non-negative. -/
theorem dist_from_rect_inside (sqrt : ℚ → ℚ) (x y left top right bottom : ℚ) :
    (sqrt 0 = 0 → left ≤ x → x ≤ right → top ≤ y → y ≤ bottom →
      distFromRect sqrt x y left top right bottom = 0 ∧
      distsFromRect x y left top right bottom = { x := 0, y := 0 }) ∧
    0 ≤ (distsFromRect x y left top right bottom).x ∧
    0 ≤ (distsFromRect x y left top right bottom).y := by
  refine ⟨?_, abs_nonneg _, abs_nonneg _⟩
  intro hsqrt h1 h2 h3 h4
  have a1 : ¬ (x - left < 0) := by linarith
  have a2 : ¬ (x - right > 0) := by linarith
  have a3 : ¬ (y - top < 0) := by linarith
  have a4 : ¬ (y - bottom > 0) := by linarith
  constructor
  · simp only [distFromRect, distFromDeltas, a1, a2, a3, a4, decide_False,
      Bool.false_eq_true, ↓reduceIte, mul_zero, add_zero]
    exact hsqrt
  · simp only [distsFromRect, a1, a2, a3, a4, decide_False, Bool.false_eq_true,
      ↓reduceIte, abs_zero]

/-- Witness of `dist_from_rect_inside`: the corner (1, 2) of the rectangle from
(1, 2) to (3, 4), with the rational square root. -/
theorem dist_from_rect_inside_witness :
    distFromRect Rat.sqrt 1 2 1 2 3 4 = 0 ∧
    distsFromRect 1 2 1 2 3 4 = { x := 0, y := 0 } :=
  (dist_from_rect_inside Rat.sqrt 1 2 1 2 3 4).1 (by simp [Rat.sqrt])
    (by norm_num) (by norm_num) (by norm_num) (by norm_num)

theorem digitChar_value (d : Nat) (h : d < 10) : (Nat.digitChar d).toNat - 48 = d := by
  interval_cases d <;> rfl

theorem toDigitsCore_append (fuel : Nat) :
    ∀ (n : Nat) (ds : List Char),
      Nat.toDigitsCore 10 fuel n ds = Nat.toDigitsCore 10 fuel n [] ++ ds := by
  induction fuel with
  | zero =>
    intro n ds
    simp [Nat.toDigitsCore]
  | succ fuel ih =>
    intro n ds
    simp only [Nat.toDigitsCore]
    split
    · simp
    · rw [ih (n / 10) (Nat.digitChar (n % 10) :: ds), ih (n / 10) [Nat.digitChar (n % 10)]]
      simp

theorem decimalValue_toDigitsCore (fuel : Nat) :
    ∀ n : Nat, n < fuel → decimalValue (Nat.toDigitsCore 10 fuel n []) = n := by
  induction fuel with
  | zero =>
    intro n h
    omega
  | succ fuel ih =>
    intro n h
    simp only [Nat.toDigitsCore]
    have hd := digitChar_value (n % 10) (Nat.mod_lt _ (by decide))
    split
    · rename_i h0
      simp only [decimalValue, List.foldl_cons, List.foldl_nil, hd]
      omega
    · rename_i h0
      rw [toDigitsCore_append]
      have hlt : n / 10 < fuel := by omega
      have := ih (n / 10) hlt
      simp only [decimalValue, List.foldl_append, List.foldl_cons, List.foldl_nil] at this ⊢
      rw [this, hd]
      omega

theorem decimalValue_toString (n : Nat) : decimalValue (toString n).toList = n := by
  show decimalValue (Nat.toDigits 10 n).asString.toList = n
  exact decimalValue_toDigitsCore (n + 1) n (Nat.lt_succ_self n)

theorem newGenericID_injective (m n : Nat)
    (h : (newGenericID m).1 = (newGenericID n).1) : m = n := by
  unfold newGenericID at h
  simp only at h
  have h1 : ("WED-ID-" ++ toString (m + 1)).data = ("WED-ID-" ++ toString (n + 1)).data := by
    rw [h]
  rw [String.data_append, String.data_append] at h1
  have h2 : (toString (m + 1)).toList = (toString (n + 1)).toList :=
    List.append_cancel_left h1
  have h3 := congrArg decimalValue h2
  rw [decimalValue_toString, decimalValue_toString] at h3
  omega

theorem newGenericIDs_spec (n : Nat) :
    ∀ nextID : Nat,
      (newGenericIDs n nextID).1 =
        (List.range n).map (fun i => "WED-ID-" ++ toString (nextID + i + 1)) ∧
      (newGenericIDs n nextID).2 = nextID + n := by
  induction n with
  | zero =>
    intro nextID
    exact ⟨rfl, rfl⟩
  | succ n ih =>
    intro nextID
    obtain ⟨h1, h2⟩ := ih (nextID + 1)
    constructor
    · simp only [newGenericIDs, newGenericID, h1, List.range_succ_eq_map, List.map_cons,
        List.map_map]
      congr 1
      apply List.map_congr_left
      intro i _
      simp only [Function.comp]
      congr 2
      omega
    · simp only [newGenericIDs, newGenericID, h2]
      omega

/-- C14: the ids of any number of successive calls of `newGenericID` are
pairwise distinct, whatever the counter was before them; and counted from the
start of the run (`nextID = 0`) the `k`-th call (`k ≥ 1`) returns `WED-ID-k`. -/
theorem newGenericID_unique (n : Nat) :
    (∀ nextID, (newGenericIDs n nextID).1.Nodup) ∧
    ∀ k, 1 ≤ k → k ≤ n → (newGenericIDs n 0).1[k - 1]? = some ("WED-ID-" ++ toString k) := by
  constructor
  · intro nextID
    rw [(newGenericIDs_spec n nextID).1]
    apply List.Nodup.map_on _ (List.nodup_range n)
    intro a _ b _ hab
    have := newGenericID_injective (nextID + a) (nextID + b) hab
    omega
  · intro k hk1 hkn
    rw [(newGenericIDs_spec n 0).1, List.getElem?_map, List.getElem?_range (by omega)]
    simp only [Option.map_some', Nat.zero_add]
    congr 3
    omega

/-- Witness of `newGenericID_unique`: the first three calls return `WED-ID-1`,
`WED-ID-2` and `WED-ID-3`. -/
theorem newGenericID_unique_witness :
    (newGenericIDs 3 0).1 = ["WED-ID-1", "WED-ID-2", "WED-ID-3"] ∧
    (newGenericIDs 3 0).1[2]? = some ("WED-ID-" ++ toString 3) :=
  ⟨by decide, (newGenericID_unique 3).2 3 (by decide) (by decide)⟩

/-- C15, as stated, fails: the `NsName` pattern "any name of the default
namespace except `foo`" has `ns` defined, `name` undefined and a URI the
resolver maps to the empty prefix, yet it converts to `* except (foo)`, not to
`*`. -/
theorem convertPatternObj_nsName_exception :
    convertPatternObj testResolver nsNameExceptFoo = .ok "* except (foo)" ∧
    convertPatternObj testResolver nsNameExceptFoo ≠ .ok "*" := by
  have h : convertPatternObj testResolver nsNameExceptFoo = .ok "* except (foo)" := by
    simp [convertPatternObj, testResolver, nsNameExceptFoo]
  refine ⟨h, ?_⟩
  rw [h]
  intro h1
  injection h1 with h2
  exact absurd h2 (by decide)

/-- C15, amended: for a pattern object that is not a `NameChoice` and has no
exception, an `AnyName` converts to `*:*`; an `NsName` (`ns` defined, `name`
undefined) converts to `*` when the resolver maps its URI to the empty prefix,
to `p:*` when it maps it to a non-empty prefix `p`, and to `{uri}*` when it
cannot resolve it; a `Name` converts to the resolver's unresolved name or, when
that is undefined, to `{ns}name`. With an exception, the conversion of the
exception follows, as ` except (…)`. -/
theorem convertPatternObj_spec (resolver : NameResolver) (pattern ns name : Option String)
    (uri local1 : String) :
    (pattern = some "AnyName" →
      convertPatternObj resolver (.mk none none pattern ns name none) = .ok "*:*") ∧
    (pattern ≠ some "AnyName" → resolver.prefixFromURI uri = some "" →
      convertPatternObj resolver (.mk none none pattern (some uri) none none) = .ok "*") ∧
    (∀ p, pattern ≠ some "AnyName" → resolver.prefixFromURI uri = some p → p ≠ "" →
      convertPatternObj resolver (.mk none none pattern (some uri) none none) =
        .ok (p ++ ":" ++ "*")) ∧
    (pattern ≠ some "AnyName" → resolver.prefixFromURI uri = none →
      convertPatternObj resolver (.mk none none pattern (some uri) none none) =
        .ok ("\x7b" ++ uri ++ "\x7d" ++ "*")) ∧
    (∀ r, pattern ≠ some "AnyName" → resolver.unresolveName uri local1 = some r →
      convertPatternObj resolver (.mk none none pattern (some uri) (some local1) none) =
        .ok r) ∧
    (pattern ≠ some "AnyName" → resolver.unresolveName uri local1 = none →
      convertPatternObj resolver (.mk none none pattern (some uri) (some local1) none) =
        .ok ("\x7b" ++ uri ++ "\x7d" ++ local1)) ∧
    (∀ ex base s,
      convertPatternObj resolver (.mk none none pattern ns name none) = .ok base →
      convertPatternObj resolver ex = .ok s →
      convertPatternObj resolver (.mk none none pattern ns name (some ex)) =
        .ok (base ++ " except (" ++ s ++ ")")) := by
  refine ⟨?_, ?_, ?_, ?_, ?_, ?_, ?_⟩
  · intro h
    simp [convertPatternObj, h]
  · intro h hp
    simp [convertPatternObj, h, hp]
  · intro p h hp hne
    simp [convertPatternObj, h, hp, hne]
  · intro h hp
    simp [convertPatternObj, h, hp]
  · intro r h hr
    simp [convertPatternObj, h, hr]
  · intro h hr
    simp [convertPatternObj, h, hr]
  · intro ex base s hbase hs
    unfold convertPatternObj at hbase ⊢
    simp only at hbase ⊢
    split at hbase
    · cases hbase
    · simp only [hs]
      cases hbase
      rfl

/-- Witness of `convertPatternObj_spec`: with the resolver of the tests, "any
name in the namespace of `p`" converts to `p:*`, and "any name of the default
namespace except `foo`" converts to `* except (foo)`. -/
theorem convertPatternObj_spec_witness :
    convertPatternObj testResolver (.mk none none (some "NsName") (some "uri:p") none none) =
      .ok ("p" ++ ":" ++ "*") ∧
    convertPatternObj testResolver nsNameExceptFoo = .ok ("*" ++ " except (" ++ "foo" ++ ")") :=
  ⟨(convertPatternObj_spec testResolver (some "NsName") (some "uri:p") none "uri:p" "").2.2.1
      "p" (by decide) (by decide) (by decide),
   (convertPatternObj_spec testResolver (some "NsName") (some "uri:d") none "uri:d" "").2.2.2.2.2.2
      _ "*" "foo"
      ((convertPatternObj_spec testResolver (some "NsName") (some "uri:d") none "uri:d" "").2.1
        (by decide) (by decide))
      ((convertPatternObj_spec testResolver (some "Name") (some "uri:d") (some "foo")
        "uri:d" "foo").2.2.2.2.1 "foo" (by decide) (by decide))⟩

/-! ## `wundo.js` -/

theorem TextUndoGroup.record_limit {α : Type} (parentRecord : List α → α → List α)
    (g : TextUndoGroup α) (op : α) :
    (TextUndoGroup.record parentRecord g op).state._limit = g._limit := by
  unfold TextUndoGroup.record
  split
  · rfl
  · simp only
    split <;> rfl

theorem TextUndoGroup.record_length {α : Type} (parentRecord : List α → α → List α)
    (hparent : ∀ l op, (parentRecord l op).length = l.length + 1)
    (g : TextUndoGroup α) (op : α) (h : g._list.length ≤ g._limit) :
    (TextUndoGroup.record parentRecord g op).state._list.length ≤ g._limit := by
  unfold TextUndoGroup.record
  split
  · exact h
  · rename_i hlt
    simp only
    split <;> simp only [hparent] <;> omega

theorem TextUndoGroup.recordAll_inv {α : Type} (parentRecord : List α → α → List α)
    (hparent : ∀ l op, (parentRecord l op).length = l.length + 1)
    (ops : List α) :
    ∀ g : TextUndoGroup α, g._list.length ≤ g._limit →
      (TextUndoGroup.recordAll parentRecord g ops)._limit = g._limit ∧
      (TextUndoGroup.recordAll parentRecord g ops)._list.length ≤ g._limit := by
  induction ops with
  | nil => intro g h; exact ⟨rfl, h⟩
  | cons op rest ih =>
      intro g h
      have h1 := TextUndoGroup.record_limit parentRecord g op
      have h2 := TextUndoGroup.record_length parentRecord hparent g op h
      have h3 := ih (TextUndoGroup.record parentRecord g op).state (by rw [h1]; exact h2)
      rw [h1] at h3
      exact h3

/-- C16: a `TextUndoGroup` created with limit `L` (`L ≥ 1` is not even needed)
never holds more than `L` recorded operations, whatever calls to `record` were
made on it (the parent's `record` adding one operation to `_list`); and in
every state `g` so reached, `record` throws "TextUndoGroup.record called beyond
the limit" if and only if the group already holds at least `L` operations, then
recording nothing, and otherwise records the operation through the parent and
calls `endGroup()` on the owning undo list exactly when the count has become
`L`. -/
theorem TextUndoGroup_bounded {α : Type} (parentRecord : List α → α → List α)
    (hparent : ∀ l op, (parentRecord l op).length = l.length + 1)
    (L : Nat) (ops : List α) (op : α) (g : TextUndoGroup α)
    (hg : g = TextUndoGroup.recordAll parentRecord (TextUndoGroup.create α L) ops) :
    g._list.length ≤ L ∧
    ((TextUndoGroup.record parentRecord g op).thrown =
        some "TextUndoGroup.record called beyond the limit" ↔ L ≤ g._list.length) ∧
    ((TextUndoGroup.record parentRecord g op).thrown = none ↔ g._list.length < L) ∧
    (L ≤ g._list.length → (TextUndoGroup.record parentRecord g op).state = g) ∧
    (g._list.length < L →
      (TextUndoGroup.record parentRecord g op).state._list = parentRecord g._list op ∧
      (TextUndoGroup.record parentRecord g op).state._list.length = g._list.length + 1 ∧
      (TextUndoGroup.record parentRecord g op).state.endGroup_calls =
        g.endGroup_calls + (if g._list.length + 1 = L then 1 else 0)) := by
  have hinv := TextUndoGroup.recordAll_inv parentRecord hparent ops
    (TextUndoGroup.create α L) (by simp [TextUndoGroup.create])
  rw [← hg] at hinv
  have hlim : g._limit = L := hinv.1
  have hlen : g._list.length ≤ L := hinv.2
  refine ⟨hlen, ?_⟩
  by_cases hc : L ≤ g._list.length
  · have hr : TextUndoGroup.record parentRecord g op =
        { thrown := some "TextUndoGroup.record called beyond the limit", state := g } := by
      unfold TextUndoGroup.record
      rw [if_pos (by rw [hlim]; exact hc)]
    rw [hr]
    refine ⟨⟨fun _ => hc, fun _ => rfl⟩, ⟨fun h => (by cases h), fun h => (by omega)⟩,
      fun _ => rfl, fun h => (by omega)⟩
  · have hlt : g._list.length < L := by omega
    have hn : ¬ g._list.length ≥ g._limit := by rw [hlim]; omega
    by_cases he : g._list.length + 1 = L
    · have hr : TextUndoGroup.record parentRecord g op =
          { thrown := none,
            state := { g with _list := parentRecord g._list op,
                              endGroup_calls := g.endGroup_calls + 1 } } := by
        unfold TextUndoGroup.record
        rw [if_neg hn]
        simp only
        rw [if_pos (by rw [hparent, hlim]; exact he)]
      rw [hr]
      refine ⟨⟨fun h => (by cases h), fun h => absurd h hc⟩, ⟨fun _ => hlt, fun _ => rfl⟩,
        fun h => absurd h hc, fun _ => ⟨rfl, hparent _ _, by simp [he]⟩⟩
    · have hr : TextUndoGroup.record parentRecord g op =
          { thrown := none, state := { g with _list := parentRecord g._list op } } := by
        unfold TextUndoGroup.record
        rw [if_neg hn]
        simp only
        rw [if_neg (by rw [hparent, hlim]; exact he)]
      rw [hr]
      refine ⟨⟨fun h => (by cases h), fun h => absurd h hc⟩, ⟨fun _ => hlt, fun _ => rfl⟩,
        fun h => absurd h hc, fun _ => ⟨rfl, hparent _ _, by simp [he]⟩⟩

/-- Witness of `TextUndoGroup_bounded`: with limit 2 and a parent that appends,
after three calls to `record` the group holds two operations, `endGroup()` was
called once, and a further call throws and changes nothing. -/
theorem TextUndoGroup_bounded_witness :
    TextUndoGroup.recordAll (fun l (op : Nat) => l ++ [op]) (TextUndoGroup.create Nat 2)
        [7, 8, 9] = { _list := [7, 8], _limit := 2, endGroup_calls := 1 } ∧
    (TextUndoGroup.record (fun l (op : Nat) => l ++ [op])
        { _list := [7, 8], _limit := 2, endGroup_calls := 1 } 10).thrown =
      some "TextUndoGroup.record called beyond the limit" ∧
    (TextUndoGroup.record (fun l (op : Nat) => l ++ [op])
        { _list := [7, 8], _limit := 2, endGroup_calls := 1 } 10).state =
      { _list := [7, 8], _limit := 2, endGroup_calls := 1 } :=
  ⟨by decide,
   (TextUndoGroup_bounded (fun l (op : Nat) => l ++ [op]) (by intro l op; simp) 2
     [7, 8, 9] 10 { _list := [7, 8], _limit := 2, endGroup_calls := 1 }
     (by decide)).2.1.mpr (by decide),
   (TextUndoGroup_bounded (fun l (op : Nat) => l ++ [op]) (by intro l op; simp) 2
     [7, 8, 9] 10 { _list := [7, 8], _limit := 2, endGroup_calls := 1 }
     (by decide)).2.2.2.1 (by decide)⟩

/-! ## `_processWedOptions` -/

theorem lowerLabelLevel_done (initial : Int) (fuel : Nat) (ed : Editor) (c : Int)
    (hc : ed._current_label_level = some c) (hle : c ≤ initial) :
    lowerLabelLevel initial fuel ed = some ed := by
  have : aboveLevel initial ed = false := by
    simp only [aboveLevel, hc, decide_eq_false_iff_not]
    omega
  cases fuel <;> simp [lowerLabelLevel, this]

/-- With enough fuel the loop that lowers the label level ends, at the initial
level, unless it would have to go below zero from a level that is not. -/
theorem lowerLabelLevel_enough (initial : Int) :
    ∀ (fuel : Nat) (ed : Editor) (c : Int), ed._current_label_level = some c →
      initial < c → (0 ≤ initial ∨ c < 0) → (c - initial).toNat ≤ fuel →
      lowerLabelLevel initial fuel ed =
        some { ed with _current_label_level := some initial } := by
  intro fuel
  induction fuel with
  | zero =>
      intro ed c hc hlt _ hf
      omega
  | succ n ih =>
      intro ed c hc hlt hsign hf
      have h0 : c ≠ 0 := by omega
      have hab : aboveLevel initial ed = true := by
        simp only [aboveLevel, hc, decide_eq_true_eq]
        omega
      have hd : decreaseLabelVisiblityLevel ed =
          { ed with _current_label_level := some (c - 1) } := by
        simp [decreaseLabelVisiblityLevel, hc, h0]
      simp only [lowerLabelLevel, hab, ↓reduceIte, hd]
      by_cases h1 : c - 1 = initial
      · rw [lowerLabelLevel_done initial n _ (c - 1) rfl (by omega)]
        rw [h1]
      · rw [ih _ (c - 1) rfl (by omega) (by omega) (by omega)]

/-- What `_processWedOptions` checks, in fact: for options that pass the
template check, and with enough fuel for the loop, it returns `true` exactly
when `max ≥ 1`, `1 ≤ initial ≤ max` and `attributes` is unset, empty or one of
`hide`, `show`, `edit`. -/
theorem _processWedOptions_true_iff (ret : CheckResult) (fuel : Nat) (options : WedOptions)
    (ed : Editor) (htemplate : templateErrors ret = [])
    (hsign : 0 ≤ options.label_levels.initial ∨ options.label_levels.max < 0)
    (hfuel : (options.label_levels.max - options.label_levels.initial).toNat ≤ fuel) :
    ∃ r, _processWedOptions ret fuel options ed = some r ∧
      (r.1 = true ↔
        1 ≤ options.label_levels.max ∧
        options.label_levels.initial ≤ options.label_levels.max ∧
        1 ≤ options.label_levels.initial ∧
        (options.attributes = none ∨ options.attributes = some "" ∨
         options.attributes = some "hide" ∨ options.attributes = some "show" ∨
         options.attributes = some "edit")) := by
  obtain ⟨⟨mx, ini⟩, attrs⟩ := options
  simp only at hsign hfuel ⊢
  have hl : ∃ ed2, lowerLabelLevel ini fuel
      { ed with max_label_level := some mx, _current_label_level := some mx,
                attributes := some (attributesOrDefault attrs) } = some ed2 := by
    by_cases hlt : ini < mx
    · exact ⟨_, lowerLabelLevel_enough ini fuel _ mx rfl hlt hsign hfuel⟩
    · exact ⟨_, lowerLabelLevel_done ini fuel _ mx rfl (by omega)⟩
  obtain ⟨ed2, hed2⟩ := hl
  have hattr : attributesOrDefault attrs ∈ ["hide", "show", "edit"] ↔
      (attrs = none ∨ attrs = some "" ∨ attrs = some "hide" ∨ attrs = some "show" ∨
       attrs = some "edit") := by
    cases attrs with
    | none => simp [attributesOrDefault]
    | some a =>
        by_cases ha : a = ""
        · simp [attributesOrDefault, ha]
        · simp [attributesOrDefault, ha]
  have herrs : optionErrors { max := mx, initial := ini } (attributesOrDefault attrs) = [] ↔
      (1 ≤ mx ∧ ini ≤ mx ∧ 1 ≤ ini ∧ attributesOrDefault attrs ∈ ["hide", "show", "edit"]) := by
    simp only [optionErrors, List.append_eq_nil, ite_eq_right_iff, List.cons_ne_self,
      imp_false, not_lt, not_not, gt_iff_lt, reduceCtorEq, and_assoc]
  rw [hattr] at herrs
  unfold _processWedOptions
  simp only [htemplate, ne_eq, not_true_eq_false, ↓reduceIte, hed2]
  by_cases herr : optionErrors { max := mx, initial := ini } (attributesOrDefault attrs) = []
  · rw [if_neg (by simpa using herr)]
    exact ⟨_, rfl, by simpa using herrs.mp herr⟩
  · rw [if_pos (by simpa using herr)]
    refine ⟨_, rfl, ?_⟩
    simp only [terminate, Bool.false_eq_true, false_iff]
    exact fun h => herr (herrs.mpr h)

theorem optionErrors_eq_nil_iff (levels : LabelLevels) (attributes : String) :
    optionErrors levels attributes = [] ↔
      (1 ≤ levels.max ∧ levels.initial ≤ levels.max ∧ 1 ≤ levels.initial ∧
        attributes ∈ ["hide", "show", "edit"]) := by
  simp only [optionErrors, List.append_eq_nil, ite_eq_right_iff, List.cons_ne_self,
    imp_false, not_lt, not_not, gt_iff_lt, reduceCtorEq, and_assoc]

theorem lowerLabelLevel_attributes (initial : Int) :
    ∀ (fuel : Nat) (ed ed2 : Editor), lowerLabelLevel initial fuel ed = some ed2 →
      ed2.limitation_modal_body = ed.limitation_modal_body ∧
      ed2.limitation_modal_shown = ed.limitation_modal_shown := by
  have hd : ∀ ed : Editor,
      (decreaseLabelVisiblityLevel ed).limitation_modal_body = ed.limitation_modal_body ∧
      (decreaseLabelVisiblityLevel ed).limitation_modal_shown = ed.limitation_modal_shown := by
    intro ed
    unfold decreaseLabelVisiblityLevel
    split
    · exact ⟨rfl, rfl⟩
    · split <;> exact ⟨rfl, rfl⟩
  intro fuel
  induction fuel with
  | zero =>
      intro ed ed2 h
      unfold lowerLabelLevel at h
      split at h
      · cases h
      · cases h; exact ⟨rfl, rfl⟩
  | succ n ih =>
      intro ed ed2 h
      unfold lowerLabelLevel at h
      split at h
      · have := ih _ _ h
        rw [(hd ed).1, (hd ed).2] at this
        exact this
      · cases h; exact ⟨rfl, rfl⟩

/-- C18, as stated, fails: options that pass the template check and have
`label_levels.max = 1` and `label_levels.initial = 1`, where `initial` is not
strictly less than `max`, make `_processWedOptions` return `true`, with no
error for these levels, the limitation modal untouched and the editor not
destroyed: the guard is `initial > max`, and the level may stand at `max`. -/
theorem _processWedOptions_initial_eq_max :
    ¬ ((1 : Int) < 1) ∧
    _processWedOptions {} 0 { label_levels := { max := 1, initial := 1 } } {} =
      some (true,
            { max_label_level := some 1, _current_label_level := some 1,
              attributes := some "hide" },
            { label_levels := { max := 1, initial := 1 }, attributes := some "hide" }) ∧
    _processWedOptions {} 7 { label_levels := { max := 1, initial := 1 } } {} =
      some (true,
            { max_label_level := some 1, _current_label_level := some 1,
              attributes := some "hide" },
            { label_levels := { max := 1, initial := 1 }, attributes := some "hide" }) ∧
    optionErrors { max := 1, initial := 1 } "hide" = [] :=
  ⟨by decide, rfl, rfl, by decide⟩

/-- C18, amended: for every options object that passes the template check,
`_processWedOptions` returns `true` only if `label_levels.initial` is at most
`label_levels.max` (and `initial ≥ 1`, `max ≥ 1`, and `attributes`, once the
default is filled in, is one of `hide`, `show`, `edit`), and with enough fuel
for the loop that lowers the label level it does return `true` then; whenever
`initial` is greater than `max` it returns `false` whatever the fuel, and the
error "label_levels.initial must be < label_levels.max" is among those it puts
up in the limitation modal. -/
theorem _processWedOptions_enforces (ret : CheckResult) (fuel : Nat) (options : WedOptions)
    (ed : Editor) (htemplate : templateErrors ret = []) :
    (∀ r, _processWedOptions ret fuel options ed = some r → r.1 = true →
      1 ≤ options.label_levels.max ∧
      options.label_levels.initial ≤ options.label_levels.max ∧
      1 ≤ options.label_levels.initial ∧
      (r.2.2.attributes = some "hide" ∨ r.2.2.attributes = some "show" ∨
       r.2.2.attributes = some "edit")) ∧
    (1 ≤ options.label_levels.max →
      options.label_levels.initial ≤ options.label_levels.max →
      1 ≤ options.label_levels.initial →
      attributesOrDefault options.attributes ∈ ["hide", "show", "edit"] →
      (options.label_levels.max - options.label_levels.initial).toNat ≤ fuel →
      ∃ r, _processWedOptions ret fuel options ed = some r ∧ r.1 = true ∧
        r.2.1._current_label_level = some options.label_levels.initial ∧
        r.2.1._destroyed = ed._destroyed) ∧
    (options.label_levels.max < options.label_levels.initial →
      ∃ ed1 options1, _processWedOptions ret fuel options ed = some (false, ed1, options1) ∧
        "label_levels.initial must be < label_levels.max" ∈
          optionErrors options.label_levels (attributesOrDefault options.attributes) ∧
        ed1.limitation_modal_body = some (
          "<p>The mode you are trying to use is passing incorrect " ++
          "options to wed. Contact the mode author with the " ++
          "following information: </p>" ++
          "<ul><li>" ++
          join "</li><li>"
            (optionErrors options.label_levels (attributesOrDefault options.attributes)) ++
          "</li></ul>") ∧
        ed1.limitation_modal_shown = ed.limitation_modal_shown + 1 ∧
        ed1._destroyed = true) := by
  obtain ⟨⟨mx, ini⟩, attrs⟩ := options
  simp only
  refine ⟨?_, ?_, ?_⟩
  · intro r hr htrue
    unfold _processWedOptions at hr
    simp only [htemplate, ne_eq, not_true_eq_false, ↓reduceIte] at hr
    split at hr
    · cases hr
    · rename_i ed2 _
      by_cases herr : optionErrors { max := mx, initial := ini } (attributesOrDefault attrs) = []
      · rw [if_neg (by simpa using herr)] at hr
        cases hr
        obtain ⟨h1, h2, h3, h4⟩ := (optionErrors_eq_nil_iff _ _).mp herr
        refine ⟨h1, h2, h3, ?_⟩
        simpa using h4
      · rw [if_pos (by simpa using herr)] at hr
        cases hr
        simp [terminate] at htrue
  · intro h1 h2 h3 h4 hfuel
    have herr : optionErrors { max := mx, initial := ini } (attributesOrDefault attrs) = [] :=
      (optionErrors_eq_nil_iff _ _).mpr ⟨h1, h2, h3, h4⟩
    have hl : lowerLabelLevel ini fuel
        { ed with max_label_level := some mx, _current_label_level := some mx,
                  attributes := some (attributesOrDefault attrs) } =
        some { ed with max_label_level := some mx, _current_label_level := some ini,
                       attributes := some (attributesOrDefault attrs) } := by
      by_cases hlt : ini < mx
      · exact lowerLabelLevel_enough ini fuel _ mx rfl hlt (Or.inl (by omega)) hfuel
      · have heq : mx = ini := by omega
        rw [lowerLabelLevel_done ini fuel _ mx rfl (by omega), heq]
    unfold _processWedOptions
    simp only [htemplate, ne_eq, not_true_eq_false, ↓reduceIte, hl, herr]
    exact ⟨_, rfl, rfl, rfl, rfl⟩
  · intro hgt
    have hmem : "label_levels.initial must be < label_levels.max" ∈
        optionErrors { max := mx, initial := ini } (attributesOrDefault attrs) := by
      simp [optionErrors, hgt]
    have herr : optionErrors { max := mx, initial := ini } (attributesOrDefault attrs) ≠ [] :=
      List.ne_nil_of_mem hmem
    have hl := lowerLabelLevel_done ini fuel
        { ed with max_label_level := some mx, _current_label_level := some mx,
                  attributes := some (attributesOrDefault attrs) } mx rfl (by omega)
    unfold _processWedOptions
    simp only [htemplate, ne_eq, not_true_eq_false, ↓reduceIte, hl, herr]
    refine ⟨_, _, rfl, hmem, ?_, ?_, ?_⟩
    · simp only [terminate, destroy]
      split <;> rfl
    · simp only [terminate, destroy]
      split <;> rfl
    · simp only [terminate, destroy]
      split
      · rename_i h
        simpa using h
      · rfl

/-- Witness of `_processWedOptions_enforces`: with `max = 3` and `initial = 1`
the method returns `true` and leaves the label level at 1; with `max = 1` and
`initial = 2` it returns `false`, puts the message up and destroys the
editor. -/
theorem _processWedOptions_enforces_witness :
    (∃ r, _processWedOptions {} 2 { label_levels := { max := 3, initial := 1 } } {} = some r ∧
      r.1 = true ∧ r.2.1._current_label_level = some 1 ∧
      r.2.1._destroyed = ({} : Editor)._destroyed) ∧
    _processWedOptions {} 0 { label_levels := { max := 1, initial := 2 } } {} =
      some (false,
            { max_label_level := some 1, _current_label_level := some 1,
              attributes := some "hide",
              limitation_modal_body := some (
                "<p>The mode you are trying to use is passing incorrect " ++
                "options to wed. Contact the mode author with the " ++
                "following information: </p>" ++
                "<ul><li>label_levels.initial must be < label_levels.max</li></ul>"),
              limitation_modal_shown := 1,
              validator_calls := [ValidatorCall.stop],
              _destroyed := true },
            { label_levels := { max := 1, initial := 2 }, attributes := some "hide" }) :=
  ⟨(_processWedOptions_enforces {} 2 { label_levels := { max := 3, initial := 1 } } {} rfl).2.1
      (by decide) (by decide) (by decide) (by decide) (by decide),
   rfl⟩

/-! ## `decorator.js` -/

theorem elementsLoop_no_match (elMatches : String → Bool) (name : String) :
    ∀ elements : List ElementSpec, (∀ e ∈ elements, elMatches e.selector = false) →
      elementsLoop elMatches name elements = false := by
  intro elements
  induction elements with
  | nil => intro _; rfl
  | cons e rest ih =>
      intro h
      simp only [elementsLoop, h e (List.mem_cons_self _ _), Bool.false_eq_true, ↓reduceIte]
      exact ih (fun e1 he1 => h e1 (List.mem_cons_of_mem _ he1))

theorem elementsLoop_first_match (elMatches : String → Bool) (name : String)
    (spec : ElementSpec) (post : List ElementSpec) (hspec : elMatches spec.selector = true) :
    ∀ pre : List ElementSpec, (∀ e ∈ pre, elMatches e.selector = false) →
      elementsLoop elMatches name (pre ++ spec :: post) =
        attributesLoop name false spec.attributes := by
  intro pre
  induction pre with
  | nil =>
      intro _
      simp only [List.nil_append, elementsLoop, hspec, ↓reduceIte]
  | cons e rest ih =>
      intro h
      simp only [List.cons_append, elementsLoop, h e (List.mem_cons_self _ _),
        Bool.false_eq_true, ↓reduceIte]
      exact ih (fun e1 he1 => h e1 (List.mem_cons_of_mem _ he1))

/-- C20: `mustHideAttribute(el, name)` returns `false` when no attribute-hiding
specs are configured, and when no element spec has a selector that matches
`el`; otherwise, `spec` being the first element spec in list order whose
selector matches `el`, the result is what the attributes of `spec` alone
decide, and it is the same whatever specs follow `spec` in the list. -/
theorem mustHideAttribute_first_match (elMatches : String → Bool) (name : String) :
    mustHideAttribute none elMatches name = false ∧
    (∀ specs : AttributeHidingSpecs, (∀ e ∈ specs.elements, elMatches e.selector = false) →
      mustHideAttribute (some specs) elMatches name = false) ∧
    (∀ (pre : List ElementSpec) (spec : ElementSpec) (post : List ElementSpec),
      (∀ e ∈ pre, elMatches e.selector = false) → elMatches spec.selector = true →
      mustHideAttribute (some { elements := pre ++ spec :: post }) elMatches name =
        attributesLoop name false spec.attributes ∧
      ∀ post1 : List ElementSpec,
        mustHideAttribute (some { elements := pre ++ spec :: post1 }) elMatches name =
          mustHideAttribute (some { elements := pre ++ spec :: post }) elMatches name) := by
  refine ⟨rfl, ?_, ?_⟩
  · intro specs h
    exact elementsLoop_no_match elMatches name specs.elements h
  · intro pre spec post hpre hspec
    refine ⟨elementsLoop_first_match elMatches name spec post hspec pre hpre, ?_⟩
    intro post1
    show elementsLoop elMatches name (pre ++ spec :: post1) =
      elementsLoop elMatches name (pre ++ spec :: post)
    rw [elementsLoop_first_match elMatches name spec post1 hspec pre hpre,
      elementsLoop_first_match elMatches name spec post hspec pre hpre]

/-- Witness of `mustHideAttribute_first_match`: on a `p` element, the spec of
`p` is the first that matches and decides that `type` is not hidden, although
the spec that follows it would hide it; `rend` is hidden; and on an element no
selector matches nothing is hidden. -/
theorem mustHideAttribute_first_match_witness :
    mustHideAttribute (some testHidingSpecs) (fun s => s == "p" || s == "*") "type" = false ∧
    mustHideAttribute (some testHidingSpecs) (fun s => s == "p" || s == "*") "rend" = true ∧
    mustHideAttribute (some { elements := [{ selector := "*", attributes := [.selector "*"] }] })
      (fun s => s == "p" || s == "*") "type" = true ∧
    mustHideAttribute (some testHidingSpecs) (fun _ => false) "type" = false ∧
    (mustHideAttribute (some { elements :=
        [{ selector := "div", attributes := [.selector "*"] }] ++
          { selector := "p", attributes := [.selector "*", .exceptions ["type"]] } ::
          [{ selector := "*", attributes := [.selector "*"] }] })
        (fun s => s == "p" || s == "*") "type" =
      attributesLoop "type" false [.selector "*", .exceptions ["type"]] ∧
     ∀ post1 : List ElementSpec,
      mustHideAttribute (some { elements :=
        [{ selector := "div", attributes := [.selector "*"] }] ++
          { selector := "p", attributes := [.selector "*", .exceptions ["type"]] } :: post1 })
        (fun s => s == "p" || s == "*") "type" =
      mustHideAttribute (some { elements :=
        [{ selector := "div", attributes := [.selector "*"] }] ++
          { selector := "p", attributes := [.selector "*", .exceptions ["type"]] } ::
          [{ selector := "*", attributes := [.selector "*"] }] })
        (fun s => s == "p" || s == "*") "type") :=
  ⟨by decide, by decide, by decide,
   (mustHideAttribute_first_match (fun _ => false) "type").2.1 testHidingSpecs
     (fun _ _ => rfl),
   (mustHideAttribute_first_match (fun s => s == "p" || s == "*") "type").2.2
     [{ selector := "div", attributes := [.selector "*"] }]
     { selector := "p", attributes := [.selector "*", .exceptions ["type"]] }
     [{ selector := "*", attributes := [.selector "*"] }]
     (by decide) (by decide)⟩

/-! ### `listDecorator` -/

theorem collectNames_same (t : String) :
    ∀ el : List Element, (∀ c ∈ el, c.isReal = true → getOriginalName c = t) →
      collectNames [t] el = [t] := by
  intro el
  induction el with
  | nil => intro _; rfl
  | cons c rest ih =>
      intro h
      have hrest := ih (fun c1 hc1 => h c1 (List.mem_cons_of_mem _ hc1))
      by_cases hc : c.isReal = true
      · have ht := h c (List.mem_cons_self _ _) hc
        simp only [collectNames, hc, ↓reduceIte, ht, setKey, List.mem_singleton]
        exact hrest
      · simp only [collectNames, hc, Bool.false_eq_true, ↓reduceIte]
        exact hrest

theorem collectNames_homogeneous (t : String) :
    ∀ el : List Element, (∀ c ∈ el, c.isReal = true → getOriginalName c = t) →
      (∃ c ∈ el, c.isReal = true) → collectNames [] el = [t] := by
  intro el
  induction el with
  | nil => intro _ ⟨c, hc, _⟩; cases hc
  | cons c rest ih =>
      intro h hex
      by_cases hc : c.isReal = true
      · have ht := h c (List.mem_cons_self _ _) hc
        simp only [collectNames, hc, ↓reduceIte, ht, setKey, List.not_mem_nil, List.nil_append]
        exact collectNames_same t rest (fun c1 hc1 => h c1 (List.mem_cons_of_mem _ hc1))
      · simp only [collectNames, hc, Bool.false_eq_true, ↓reduceIte]
        apply ih (fun c1 hc1 => h c1 (List.mem_cons_of_mem _ hc1))
        obtain ⟨c1, hc1, hr1⟩ := hex
        rcases List.mem_cons.mp hc1 with heq | hmem
        · rw [heq] at hr1; exact absurd hr1 hc
        · exact ⟨c1, hmem, hr1⟩

theorem collectNames_no_real :
    ∀ (nameMap : List String) (el : List Element), (∀ c ∈ el, c.isReal = false) →
      collectNames nameMap el = nameMap := by
  intro nameMap el
  induction el generalizing nameMap with
  | nil => intro _; rfl
  | cons c rest ih =>
      intro h
      simp only [collectNames, h c (List.mem_cons_self _ _), Bool.false_eq_true, ↓reduceIte]
      exact ih nameMap (fun c1 hc1 => h c1 (List.mem_cons_of_mem _ hc1))

theorem mem_setKey (keys : List String) (key k : String) :
    k ∈ setKey keys key ↔ k ∈ keys ∨ k = key := by
  unfold setKey
  split
  · rename_i h
    constructor
    · exact Or.inl
    · rintro (h1 | h1)
      · exact h1
      · rw [h1]; exact h
  · simp

theorem mem_collectNames (k : String) :
    ∀ (el : List Element) (nameMap : List String),
      k ∈ collectNames nameMap el ↔
        k ∈ nameMap ∨ ∃ c ∈ el, c.isReal = true ∧ getOriginalName c = k := by
  intro el
  induction el with
  | nil => intro nameMap; simp [collectNames]
  | cons c rest ih =>
      intro nameMap
      simp only [collectNames, ih, List.mem_cons, exists_eq_or_imp]
      by_cases hc : c.isReal = true
      · simp only [hc, ↓reduceIte, mem_setKey, true_and]
        constructor
        · rintro ((h | h) | h)
          · exact Or.inl h
          · exact Or.inr (Or.inl h.symm)
          · exact Or.inr (Or.inr h)
        · rintro (h | h | h)
          · exact Or.inl (Or.inl h)
          · exact Or.inl (Or.inr h.symm)
          · exact Or.inr h
      · simp [hc]

theorem two_le_length_of_mem_ne {α : Type} (l : List α) (a b : α) (ha : a ∈ l) (hb : b ∈ l)
    (hab : a ≠ b) : 2 ≤ l.length := by
  match l, ha, hb with
  | [x], ha, hb =>
      simp only [List.mem_singleton] at ha hb
      exact absurd (ha.trans hb.symm) hab
  | _ :: _ :: _, _, _ => simp

theorem dropSeparators_eq_filter (el : List Element) :
    dropSeparators el = el.filter (fun c => !c.hasAttribute "data-wed--separator-for") := by
  induction el with
  | nil => rfl
  | cons c rest ih =>
      by_cases hc : c.hasAttribute "data-wed--separator-for" = true
      · simp [dropSeparators, hc, ih]
      · simp [dropSeparators, hc, ih]

theorem dropSeparators_clean (el : List Element) :
    ∀ c ∈ dropSeparators el, c.hasAttribute "data-wed--separator-for" = false := by
  intro c hc
  rw [dropSeparators_eq_filter] at hc
  simpa using (List.mem_filter.mp hc).2

theorem dropSeparators_real (el : List Element)
    (h : ∀ c ∈ el, c.isReal = true → c.hasAttribute "data-wed--separator-for" = false) :
    (dropSeparators el).filter Element.isReal = el.filter Element.isReal := by
  induction el with
  | nil => rfl
  | cons c rest ih =>
      have hrest := ih (fun c1 hc1 => h c1 (List.mem_cons_of_mem _ hc1))
      by_cases hs : c.hasAttribute "data-wed--separator-for" = true
      · have hr : c.isReal = false := by
          cases hcr : c.isReal with
          | false => rfl
          | true =>
              have := h c (List.mem_cons_self _ _) hcr
              rw [this] at hs
              cases hs
        simp [dropSeparators, hs, hr, hrest]
      · by_cases hr : c.isReal = true
        · simp [dropSeparators, hs, hr, hrest]
        · simp [dropSeparators, hs, hr, hrest]

theorem collectNames_dropSeparators
    (el : List Element)
    (h : ∀ c ∈ el, c.isReal = true → c.hasAttribute "data-wed--separator-for" = false) :
    ∀ nameMap, collectNames nameMap (dropSeparators el) = collectNames nameMap el := by
  induction el with
  | nil => intro _; rfl
  | cons c rest ih =>
      intro nameMap
      have hrest := ih (fun c1 hc1 => h c1 (List.mem_cons_of_mem _ hc1))
      by_cases hs : c.hasAttribute "data-wed--separator-for" = true
      · have hr : c.isReal = false := by
          cases hcr : c.isReal with
          | false => rfl
          | true =>
              have := h c (List.mem_cons_self _ _) hcr
              rw [this] at hs
              cases hs
        simp [dropSeparators, collectNames, hs, hr, hrest]
      · simp [dropSeparators, collectNames, hs, hrest]

theorem insertSeparators_drop (sepNode : Element)
    (hsep : sepNode.hasAttribute "data-wed--separator-for" = true) :
    ∀ (base : List Element) (first : Bool),
      (∀ c ∈ base, c.hasAttribute "data-wed--separator-for" = false) →
      dropSeparators (insertSeparators sepNode first base) = base := by
  intro base
  induction base with
  | nil => intro _ _; rfl
  | cons c rest ih =>
      intro first h
      have hc := h c (List.mem_cons_self _ _)
      have hrest := fun f => ih f (fun c1 hc1 => h c1 (List.mem_cons_of_mem _ hc1))
      by_cases hr : c.isReal = true
      · cases first
        · simp [insertSeparators, hr, dropSeparators, hsep, hc, hrest]
        · simp [insertSeparators, hr, dropSeparators, hc, hrest]
      · simp [insertSeparators, hr, dropSeparators, hc, hrest]

theorem insertSeparators_real (sepNode : Element) (hsep : sepNode.isReal = false) :
    ∀ (base : List Element) (first : Bool),
      (insertSeparators sepNode first base).filter Element.isReal =
        base.filter Element.isReal := by
  intro base
  induction base with
  | nil => intro _; rfl
  | cons c rest ih =>
      intro first
      by_cases hr : c.isReal = true
      · cases first
        · simp [insertSeparators, hr, hsep, ih]
        · simp [insertSeparators, hr, ih]
      · simp [insertSeparators, hr, ih]

theorem collectNames_insertSeparators (sepNode : Element) (hsep : sepNode.isReal = false) :
    ∀ (base : List Element) (first : Bool) (nameMap : List String),
      collectNames nameMap (insertSeparators sepNode first base) =
        collectNames nameMap base := by
  intro base
  induction base with
  | nil => intro _ _; rfl
  | cons c rest ih =>
      intro first nameMap
      by_cases hr : c.isReal = true
      · cases first
        · simp [insertSeparators, hr, collectNames, hsep, ih]
        · simp [insertSeparators, hr, collectNames, ih]
      · simp [insertSeparators, hr, collectNames, ih]

theorem insertSeparators_separators (sepNode : Element)
    (hsep : sepNode.hasAttribute "data-wed--separator-for" = true) :
    ∀ (base : List Element) (first : Bool),
      (∀ c ∈ base, c.hasAttribute "data-wed--separator-for" = false) →
      (insertSeparators sepNode first base).filter
          (fun c => c.hasAttribute "data-wed--separator-for") =
        List.replicate ((base.filter Element.isReal).length - (if first then 1 else 0))
          sepNode := by
  intro base
  induction base with
  | nil => intro _ _; simp [insertSeparators]
  | cons c rest ih =>
      intro first h
      have hc := h c (List.mem_cons_self _ _)
      have hrest := fun f => ih f (fun c1 hc1 => h c1 (List.mem_cons_of_mem _ hc1))
      by_cases hr : c.isReal = true
      · cases first
        · simp only [insertSeparators, hr, ↓reduceIte, Bool.not_false, List.filter_cons, hsep,
            hc, Bool.false_eq_true, hrest, List.length_cons, tsub_zero]
          rfl
        · simp [insertSeparators, hr, hc, hrest]
      · simp [insertSeparators, hr, hc, hrest]

theorem insertSeparators_before (sepNode : Element) (hsep : sepNode.isReal = false) :
    ∀ (base : List Element) (first : Bool) (pre : List Element) (c : Element)
      (post : List Element),
      insertSeparators sepNode first base = pre ++ c :: post → c.isReal = true →
      (first = false ∨ ∃ c1 ∈ pre, c1.isReal = true) →
      ∃ pre1, pre = pre1 ++ [sepNode] := by
  intro base
  induction base with
  | nil =>
      intro first pre c post h _ _
      simp [insertSeparators] at h
  | cons b rest ih =>
      intro first pre c post h hc hfirst
      by_cases hr : b.isReal = true
      · cases first
        · simp only [insertSeparators, hr, ↓reduceIte, Bool.not_false] at h
          match pre, h with
          | [], h =>
              simp only [List.nil_append, List.cons.injEq] at h
              rw [← h.1, hsep] at hc
              cases hc
          | [x], h =>
              simp only [List.singleton_append, List.cons.injEq] at h
              exact ⟨[], by rw [h.1]; rfl⟩
          | x :: y :: pre2, h =>
              simp only [List.cons_append, List.cons.injEq] at h
              obtain ⟨pre1, hpre1⟩ := ih false pre2 c post h.2.2 hc (Or.inl rfl)
              exact ⟨x :: y :: pre1, by rw [hpre1]; rfl⟩
        · simp only [insertSeparators, hr, ↓reduceIte, Bool.not_true, Bool.false_eq_true] at h
          match pre, h, hfirst with
          | [], _, hfirst =>
              rcases hfirst with h1 | ⟨c1, h1, _⟩
              · cases h1
              · cases h1
          | x :: pre2, h, _ =>
              simp only [List.cons_append, List.cons.injEq] at h
              obtain ⟨pre1, hpre1⟩ := ih false pre2 c post h.2 hc (Or.inl rfl)
              exact ⟨x :: pre1, by rw [hpre1]; rfl⟩
      · simp only [insertSeparators, hr, Bool.false_eq_true, ↓reduceIte] at h
        match pre, h, hfirst with
        | [], h, _ =>
            simp only [List.nil_append, List.cons.injEq] at h
            rw [← h.1] at hc
            exact absurd hc hr
        | x :: pre2, h, hfirst =>
            simp only [List.cons_append, List.cons.injEq] at h
            have hfirst2 : first = false ∨ ∃ c1 ∈ pre2, c1.isReal = true := by
              rcases hfirst with h1 | ⟨c1, h1, h2⟩
              · exact Or.inl h1
              · rcases List.mem_cons.mp h1 with heq | hmem
                · rw [heq, ← h.1] at h2
                  exact absurd h2 hr
                · exact Or.inr ⟨c1, hmem, h2⟩
            obtain ⟨pre1, hpre1⟩ := ih first pre2 c post h.2 hc hfirst2
            exact ⟨x :: pre1, by rw [hpre1]; rfl⟩

theorem setAttributeIn_any (name value : String) (l : List (String × String)) :
    (setAttributeIn name value l).any (fun a => a.1 == name) = true := by
  induction l with
  | nil => simp [setAttributeIn]
  | cons a rest ih =>
      by_cases h : (a.1 == name) = true
      · simp [setAttributeIn, h]
      · simp only [setAttributeIn, h, Bool.false_eq_true, ↓reduceIte, List.any_cons, ih,
          Bool.or_true]

theorem setAttributeIn_idem (name value : String) (l : List (String × String)) :
    setAttributeIn name value (setAttributeIn name value l) = setAttributeIn name value l := by
  induction l with
  | nil => simp [setAttributeIn]
  | cons a rest ih =>
      by_cases h : (a.1 == name) = true
      · simp [setAttributeIn, h]
      · simp only [setAttributeIn, h, Bool.false_eq_true, ↓reduceIte, ih]

theorem mem_addClass (l : List String) (c d : String) :
    d ∈ addClass l c ↔ d ∈ l ∨ d = c := by
  unfold addClass
  by_cases h : l.contains c = true
  · rw [if_pos h]
    have hmem : c ∈ l := by simpa using h
    constructor
    · exact Or.inl
    · rintro (h1 | h1)
      · exact h1
      · rw [h1]; exact hmem
  · rw [if_neg h]
    simp

theorem addClass_of_mem (l : List String) (c : String) (h : c ∈ l) : addClass l c = l := by
  unfold addClass
  rw [if_pos (by simpa using h)]

theorem isReal_iff (e : Element) : e.isReal = true ↔ "_real" ∈ e.classList := by
  simp [Element.isReal]

theorem makeSepNode_hasAttribute (sep : Separator) (tagName : String) :
    (makeSepNode sep tagName).hasAttribute "data-wed--separator-for" = true := by
  simp only [makeSepNode, Element.hasAttribute, Element.setAttribute]
  exact setAttributeIn_any _ _ _

theorem makeSepNode_isReal (sep : Separator) (tagName : String)
    (h : ∀ e, sep = .node e → e.isReal = false) :
    (makeSepNode sep tagName).isReal = false := by
  cases hr : (makeSepNode sep tagName).isReal with
  | false => rfl
  | true =>
      exfalso
      rw [isReal_iff] at hr
      simp only [makeSepNode, Element.setAttribute, mem_addClass] at hr
      rcases hr with (hr | hr) | hr
      · cases sep with
        | text s => simp at hr
        | node e =>
            have he := h e rfl
            have : e.isReal = true := (isReal_iff e).mpr hr
            rw [he] at this
            cases this
      · exact absurd hr (by decide)
      · exact absurd hr (by decide)

theorem makeSepNode_idem (sep : Separator) (tagName : String) :
    makeSepNode (.node (makeSepNode sep tagName)) tagName = makeSepNode sep tagName := by
  have h1 : ∀ l : List String,
      addClass (addClass (addClass (addClass l "_text") "_phantom") "_text") "_phantom" =
        addClass (addClass l "_text") "_phantom" := by
    intro l
    rw [addClass_of_mem (addClass (addClass l "_text") "_phantom") "_text"
      ((mem_addClass _ _ _).mpr (Or.inl ((mem_addClass _ _ _).mpr (Or.inr rfl))))]
    exact addClass_of_mem _ _ ((mem_addClass _ _ _).mpr (Or.inr rfl))
  simp only [makeSepNode, Element.setAttribute, h1, setAttributeIn_idem]

/-- C19, as stated, fails: an element with two `._real` children of original
name `p`, the second of which carries `data-wed--separator-for`, has `n = 2`,
yet after `listDecorator(el, ", ")` no element child carries
`data-wed--separator-for`, since the second loop removed that child and the
third found a single `._real` child. And with a separator node that is itself
`._real`, the clone put between two `p` is a `._real` child other than the
first with no separator before it. -/
theorem listDecorator_real_separator :
    ((([realP "a",
        { classList := ["p", "_real"], attributes := [("data-wed--separator-for", "p")] }] :
          List Element).filter Element.isReal).length = 2 ∧
     (∀ c ∈ ([realP "a",
        { classList := ["p", "_real"], attributes := [("data-wed--separator-for", "p")] }] :
          List Element), c.isReal = true → getOriginalName c = "p") ∧
     listDecorator
        [realP "a",
         { classList := ["p", "_real"], attributes := [("data-wed--separator-for", "p")] }]
        (.text ", ") = { thrown := none, state := [realP "a"] } ∧
     ((listDecorator
        [realP "a",
         { classList := ["p", "_real"], attributes := [("data-wed--separator-for", "p")] }]
        (.text ", ")).state.filter
       (fun c => c.hasAttribute "data-wed--separator-for")).length ≠ 2 - 1) ∧
    (listDecorator [realP "a", realP "b"] (.node { classList := ["p", "_real"] }) =
       { thrown := none,
         state := [realP "a", makeSepNode (.node { classList := ["p", "_real"] }) "p",
                   realP "b"] } ∧
     (makeSepNode (.node { classList := ["p", "_real"] }) "p").isReal = true ∧
     (realP "a").hasAttribute "data-wed--separator-for" = false) := by
  decide

/-- C19, amended: when the `._real` children of the element all share one
original name and number `n ≥ 1`, none of them carries
`data-wed--separator-for`, and the separator is a string or a node that is not
`._real`, then `listDecorator(el, sep)` does not throw, and afterwards the
element children carrying `data-wed--separator-for` are exactly `n − 1` clones
of the separator node, one immediately before each `._real` child other than
the first, the other children being those of before without the separators
they included, so that a second call, with `sep` or with the separator node,
leaves the children as they are. When two `._real` children have different
original names, it throws "calling listDecorator on a non-homogeneous list."
without modifying the element. -/
theorem listDecorator_spec (el : List Element) (sep : Separator) :
    (∀ t : String,
      (∀ c ∈ el, c.isReal = true → getOriginalName c = t) →
      1 ≤ (el.filter Element.isReal).length →
      (∀ c ∈ el, c.isReal = true → c.hasAttribute "data-wed--separator-for" = false) →
      (∀ e, sep = .node e → e.isReal = false) →
      (listDecorator el sep).thrown = none ∧
      (listDecorator el sep).state.filter (fun c => c.hasAttribute "data-wed--separator-for") =
        List.replicate ((el.filter Element.isReal).length - 1) (makeSepNode sep t) ∧
      (listDecorator el sep).state.filter
          (fun c => !c.hasAttribute "data-wed--separator-for") =
        el.filter (fun c => !c.hasAttribute "data-wed--separator-for") ∧
      (listDecorator el sep).state.filter Element.isReal = el.filter Element.isReal ∧
      (∀ pre c post, (listDecorator el sep).state = pre ++ c :: post → c.isReal = true →
        (∃ c1 ∈ pre, c1.isReal = true) → ∃ pre1, pre = pre1 ++ [makeSepNode sep t]) ∧
      listDecorator (listDecorator el sep).state sep =
        { thrown := none, state := (listDecorator el sep).state } ∧
      listDecorator (listDecorator el sep).state (.node (makeSepNode sep t)) =
        { thrown := none, state := (listDecorator el sep).state }) ∧
    (∀ a b, a ∈ el → b ∈ el → a.isReal = true → b.isReal = true →
      getOriginalName a ≠ getOriginalName b →
      listDecorator el sep =
        { thrown := some "calling listDecorator on a non-homogeneous list.", state := el }) := by
  constructor
  · intro t hhom hn hW1 hW2
    have hex : ∃ c ∈ el, c.isReal = true := by
      match hf : el.filter Element.isReal, hn with
      | c :: _, _ =>
          have hc : c ∈ el.filter Element.isReal := by rw [hf]; exact List.mem_cons_self _ _
          exact ⟨c, (List.mem_filter.mp hc).1, (List.mem_filter.mp hc).2⟩
    have htags : collectNames [] el = [t] := collectNames_homogeneous t el hhom hex
    have hsepA := makeSepNode_hasAttribute sep t
    have hsepR := makeSepNode_isReal sep t hW2
    have hclean := dropSeparators_clean el
    have hout : listDecorator el sep =
        { thrown := none,
          state := insertSeparators (makeSepNode sep t) true (dropSeparators el) } := by
      simp [listDecorator, htags]
    have hdrop := insertSeparators_drop (makeSepNode sep t) hsepA (dropSeparators el) true hclean
    have htags2 : collectNames []
        (insertSeparators (makeSepNode sep t) true (dropSeparators el)) = [t] := by
      rw [collectNames_insertSeparators _ hsepR, collectNames_dropSeparators el hW1, htags]
    rw [hout]
    simp only
    refine ⟨trivial, ?_, ?_, ?_, ?_, ?_, ?_⟩
    · rw [insertSeparators_separators _ hsepA _ true hclean, dropSeparators_real el hW1]
      rfl
    · rw [← dropSeparators_eq_filter, ← dropSeparators_eq_filter, hdrop]
    · rw [insertSeparators_real _ hsepR, dropSeparators_real el hW1]
    · intro pre c post h hc hpre
      exact insertSeparators_before _ hsepR _ true pre c post h hc (Or.inr hpre)
    · simp [listDecorator, htags2, hdrop]
    · simp [listDecorator, htags2, hdrop, makeSepNode_idem]
  · intro a b ha hb hra hrb hne
    have hma : getOriginalName a ∈ collectNames [] el :=
      (mem_collectNames _ el []).mpr (Or.inr ⟨a, ha, hra, rfl⟩)
    have hmb : getOriginalName b ∈ collectNames [] el :=
      (mem_collectNames _ el []).mpr (Or.inr ⟨b, hb, hrb, rfl⟩)
    have hlen := two_le_length_of_mem_ne _ _ _ hma hmb hne
    unfold listDecorator
    simp only
    rw [if_pos (by omega)]

/-- Witness of `listDecorator_spec`: three `._real` children `p`, an old
separator and a label; after the call with `", "` there are two separators, one
before each of the second and third `p`, the old one is gone, and a second call
changes nothing. A list with a `p` and a `q` is refused and left as it is. -/
theorem listDecorator_spec_witness :
    listDecorator
        [realP "a", { classList := ["_text"], attributes := [("data-wed--separator-for", "p")],
                      textContent := "; " },
         realP "b", { classList := ["_gui"] }, realP "c"] (.text ", ") =
      { thrown := none,
        state := [realP "a", makeSepNode (.text ", ") "p", realP "b", { classList := ["_gui"] },
                  makeSepNode (.text ", ") "p", realP "c"] } ∧
    makeSepNode (.text ", ") "p" =
      { tagName := "div", classList := ["_text", "_phantom"],
        attributes := [("data-wed--separator-for", "p")], textContent := ", " } ∧
    (listDecorator
        [realP "a", { classList := ["_text"], attributes := [("data-wed--separator-for", "p")],
                      textContent := "; " },
         realP "b", { classList := ["_gui"] }, realP "c"] (.text ", ")).state.filter
        (fun c => c.hasAttribute "data-wed--separator-for") =
      List.replicate 2 (makeSepNode (.text ", ") "p") ∧
    listDecorator
        (listDecorator
          [realP "a", { classList := ["_text"], attributes := [("data-wed--separator-for", "p")],
                        textContent := "; " },
           realP "b", { classList := ["_gui"] }, realP "c"] (.text ", ")).state (.text ", ") =
      { thrown := none,
        state := (listDecorator
          [realP "a", { classList := ["_text"], attributes := [("data-wed--separator-for", "p")],
                        textContent := "; " },
           realP "b", { classList := ["_gui"] }, realP "c"] (.text ", ")).state } ∧
    listDecorator [realP "a", { classList := ["q", "_real"] }] (.text ", ") =
      { thrown := some "calling listDecorator on a non-homogeneous list.",
        state := [realP "a", { classList := ["q", "_real"] }] } :=
  ⟨by decide, by decide,
   ((listDecorator_spec
      [realP "a", { classList := ["_text"], attributes := [("data-wed--separator-for", "p")],
                    textContent := "; " },
       realP "b", { classList := ["_gui"] }, realP "c"] (.text ", ")).1 "p"
      (by decide) (by decide) (by decide) (by intro e h; cases h)).2.1,
   ((listDecorator_spec
      [realP "a", { classList := ["_text"], attributes := [("data-wed--separator-for", "p")],
                    textContent := "; " },
       realP "b", { classList := ["_gui"] }, realP "c"] (.text ", ")).1 "p"
      (by decide) (by decide) (by decide) (by intro e h; cases h)).2.2.2.2.2.1,
   (listDecorator_spec [realP "a", { classList := ["q", "_real"] }] (.text ", ")).2
      (realP "a") { classList := ["q", "_real"] } (by decide) (by decide) (by decide)
      (by decide) (by decide)⟩

/-! ## `generic-tr.js` -/

theorem autoinsertStep_executed_iff {W : Type} (env : AutoinsertEnv W) (w : W)
    (a : Action W) (after : W) :
    autoinsertStep env w = .executed a after ↔
      InsertionCalledFor env w a after ∧ a.needsInput = false := by
  constructor
  · intro h
    unfold autoinsertStep at h
    split at h
    · cases h
    · rename_i err errs herrs
      split at h
      · cases h
      · rename_i ename enames henames
        split at h
        · cases h
        · rename_i names hnames
          split at h
          · cases h
          · rename_i hlen
            split at h
            · cases h
            · rename_i name_1 rest
              have hrest : rest = [] := by
                cases rest with
                | nil => rfl
                | cons _ _ => simp at hlen
              subst hrest
              split at h
              · rename_i location hloc
                simp only at h
                split at h
                · rename_i action hact
                  split at h
                  · cases h
                  · rename_i hni
                    injection h with h1 h2
                    subst h1
                    refine ⟨⟨err, errs, ename, enames, name_1, location, herrs, henames,
                      hnames, hloc, hact, h2.symm⟩, ?_⟩
                    simpa using hni
                · cases h
              · cases h
  · rintro ⟨⟨err, errs, ename, enames, name, location, herrs, henames, hnames, hloc, hact,
      hafter⟩, hni⟩
    unfold autoinsertStep
    simp only [herrs, henames, hnames, List.length_singleton, gt_iff_lt, lt_self_iff_false,
      ↓reduceIte, hloc, hact, hni, Bool.false_eq_true, hafter]

theorem _autoinsert_executions {W : Type} (env : AutoinsertEnv W) :
    ∀ (fuel : Nat) (w : W),
      (∀ e ∈ (_autoinsert env fuel w).executions,
        e.action.needsInput = false ∧ InsertionCalledFor env e.before e.action e.after) ∧
      Linked w (_autoinsert env fuel w).executions (_autoinsert env fuel w).state ∧
      ((_autoinsert env fuel w).ending = .unfinished →
        (_autoinsert env fuel w).executions.length = fuel) := by
  intro fuel
  induction fuel with
  | zero =>
      intro w
      simp [_autoinsert, Linked]
  | succ n ih =>
      intro w
      unfold _autoinsert
      split
      · simp [Linked]
      · simp [Linked]
      · rename_i action after hstep
        obtain ⟨h1, h2, h3⟩ := ih after
        have hs := (autoinsertStep_executed_iff env w action after).mp hstep
        refine ⟨?_, ?_, ?_⟩
        · intro e he
          simp only [List.mem_cons] at he
          rcases he with he | he
          · rw [he]
            exact ⟨hs.2, hs.1⟩
          · exact h1 e he
        · exact ⟨rfl, h2⟩
        · intro hend
          simp only [List.length_cons, add_left_inj]
          exact h3 hend

/-- C17: `_autoinsert` never executes an action whose `needsInput` is true, and
every action it executes is executed in a state in which the first "tag
required" error of `validator.getErrorsFor(el)` names exactly one simple name,
`validator.possibleWhere` returns exactly one location for it and the mode
offers exactly one contextual "insert" action there; the state changes through
these executions only; an iteration executes an action exactly under these
conditions, and when they fail in the state the function is called in, it ends
at once with the state as it was. The run stays unfinished after `fuel`
iterations only if each of them executed an insertion. -/
theorem _autoinsert_backs_off {W : Type} (env : AutoinsertEnv W) (fuel : Nat) (w : W) :
    (∀ e ∈ (_autoinsert env fuel w).executions,
      e.action.needsInput = false ∧ InsertionCalledFor env e.before e.action e.after) ∧
    Linked w (_autoinsert env fuel w).executions (_autoinsert env fuel w).state ∧
    ((_autoinsert env fuel w).ending = .unfinished →
      (_autoinsert env fuel w).executions.length = fuel) ∧
    (∀ a after, autoinsertStep env w = .executed a after ↔
      InsertionCalledFor env w a after ∧ a.needsInput = false) ∧
    ((¬ ∃ a after, InsertionCalledFor env w a after ∧ a.needsInput = false) →
      (_autoinsert env (fuel + 1) w).executions = [] ∧
      (_autoinsert env (fuel + 1) w).state = w ∧
      (_autoinsert env (fuel + 1) w).ending ≠ .unfinished) := by
  obtain ⟨h1, h2, h3⟩ := _autoinsert_executions env fuel w
  refine ⟨h1, h2, h3, autoinsertStep_executed_iff env w, ?_⟩
  intro hno
  unfold _autoinsert
  split
  · exact ⟨rfl, rfl, by simp⟩
  · exact ⟨rfl, rfl, by simp⟩
  · rename_i action after hstep
    exact absurd ⟨action, after, (autoinsertStep_executed_iff env w action after).mp hstep⟩ hno

/-- Witness of `_autoinsert_backs_off`: where two `p` are required and the one
insert action needs no input, `_autoinsert` executes it twice and returns; where
the action needs input, it returns at once and the state is as it was. -/
theorem _autoinsert_backs_off_witness :
    ((_autoinsert (testAutoinsertEnv false) 5 0).executions.map (fun e => (e.before, e.after)) =
        [(0, 1), (1, 2)] ∧
      (_autoinsert (testAutoinsertEnv false) 5 0).state = 2 ∧
      (_autoinsert (testAutoinsertEnv false) 5 0).ending = .returned) ∧
    (∀ e ∈ (_autoinsert (testAutoinsertEnv false) 5 0).executions,
      e.action.needsInput = false ∧
      InsertionCalledFor (testAutoinsertEnv false) e.before e.action e.after) ∧
    ((_autoinsert (testAutoinsertEnv true) (4 + 1) 0).executions = [] ∧
      (_autoinsert (testAutoinsertEnv true) (4 + 1) 0).state = 0 ∧
      (_autoinsert (testAutoinsertEnv true) (4 + 1) 0).ending ≠ .unfinished) :=
  ⟨by decide,
   (_autoinsert_backs_off (testAutoinsertEnv false) 5 0).1,
   (_autoinsert_backs_off (testAutoinsertEnv true) 4 0).2.2.2.2 (by
      rintro ⟨a, after, ⟨err, errs, ename, enames, name, location, _, _, _, _, hact, _⟩, hni⟩
      simp only [testAutoinsertEnv, List.cons.injEq, and_true] at hact
      rw [← hact] at hni
      cases hni)⟩

/-! ## Namespaces -/

theorem namespacesAt_addBinding (pfx : String) (d : String × String) :
    ∀ ret : List (String × List String),
      namespacesAt pfx (addBinding ret d) =
        if d.1 = pfx then some ((namespacesAt pfx ret).getD [] ++ [d.2])
        else namespacesAt pfx ret := by
  intro ret
  induction ret with
  | nil =>
      by_cases h : d.1 = pfx
      · simp [addBinding, namespacesAt, h]
      · simp [addBinding, namespacesAt, h]
  | cons entry rest ih =>
      obtain ⟨k, us⟩ := entry
      by_cases he : k = d.1
      · by_cases h : d.1 = pfx
        · simp [addBinding, namespacesAt, he, h]
        · simp [addBinding, namespacesAt, he, h]
      · by_cases h : d.1 = pfx
        · have hne : ¬ k = pfx := fun h1 => he (h1.trans h.symm)
          simp [addBinding, namespacesAt, he, h, hne, ih]
        · by_cases h2 : k = pfx
          · subst h2
            simp [addBinding, namespacesAt, he, h]
          · simp [addBinding, namespacesAt, he, h, h2, ih]

theorem namespacesAt_foldl (pfx : String) :
    ∀ (declarations : List (String × String)) (ret : List (String × List String)),
      namespacesAt pfx (declarations.foldl addBinding ret) =
        if urisOf pfx declarations = [] then namespacesAt pfx ret
        else some ((namespacesAt pfx ret).getD [] ++ urisOf pfx declarations) := by
  intro declarations
  induction declarations with
  | nil => intro ret; simp [urisOf]
  | cons d rest ih =>
      intro ret
      rw [List.foldl_cons, ih, namespacesAt_addBinding]
      by_cases h : d.1 = pfx
      · have hu : urisOf pfx (d :: rest) = d.2 :: urisOf pfx rest := by
          simp [urisOf, List.filter_cons, h]
        rw [hu, if_pos h]
        simp only [Option.getD_some, List.append_assoc, List.singleton_append, reduceCtorEq,
          ↓reduceIte]
        split
        · rename_i h0
          rw [h0]
        · rfl
      · have hu : urisOf pfx (d :: rest) = urisOf pfx rest := by
          simp [urisOf, List.filter_cons, h]
        rw [hu, if_neg h]

theorem keys_addBinding (d : String × String) :
    ∀ ret : List (String × List String),
      (addBinding ret d).map (fun e => e.1) =
        if d.1 ∈ ret.map (fun e => e.1) then ret.map (fun e => e.1)
        else ret.map (fun e => e.1) ++ [d.1] := by
  intro ret
  induction ret with
  | nil => simp [addBinding]
  | cons entry rest ih =>
      by_cases he : entry.1 = d.1
      · simp [addBinding, he]
      · have hne : ¬ d.1 = entry.1 := fun h => he h.symm
        simp only [addBinding, he, ↓reduceIte, List.map_cons, ih, List.mem_cons, hne, false_or]
        split <;> simp

theorem keys_nodup_foldl :
    ∀ (declarations : List (String × String)) (ret : List (String × List String)),
      (ret.map (fun e => e.1)).Nodup →
      ((declarations.foldl addBinding ret).map (fun e => e.1)).Nodup := by
  intro declarations
  induction declarations with
  | nil => intro ret h; exact h
  | cons d rest ih =>
      intro ret h
      rw [List.foldl_cons]
      apply ih
      rw [keys_addBinding]
      split
      · exact h
      · rename_i hmem
        rw [List.nodup_append]
        refine ⟨h, List.nodup_singleton _, ?_⟩
        intro a ha hb
        simp only [List.mem_singleton] at hb
        rw [hb] at ha
        exact hmem ha

theorem definePrefixes_spec :
    ∀ (namespaces : List (String × List String)) (fail : Bool) (ed : Editor),
      definePrefixes namespaces (fail, ed) =
        ((fail || namespaces.any (fun e => decide (e.2.length > 1))),
         { ed with resolver_definitions :=
             ed.resolver_definitions ++ namespaces.map (fun e => (e.1, e.2.head?)) }) := by
  intro namespaces
  induction namespaces with
  | nil => intro fail ed; simp [definePrefixes]
  | cons e rest ih =>
      intro fail ed
      obtain ⟨pfx, uri⟩ := e
      simp only [definePrefixes, ih, List.any_cons, List.map_cons, List.append_assoc,
        List.singleton_append, Prod.mk.injEq, and_true]
      by_cases h : uri.length > 1
      · simp [h]
      · simp [h]

/-- C11: `getDocumentNamespaces` maps each declared name to the list of the URIs
bound to it in the document, in order, each name being a key once; and in
`_postInitialize` with a document that is not empty, on an editor that is not
destroyed: if some name is mapped to more than one URI, the editor puts the
message up in the limitation modal, destroys itself and returns, without
throwing and without any call to the validator but the `stop()` of `destroy`;
if every name has exactly one URI, each name is defined in the resolver with
that URI, the modal is left alone and the last thing done is
`validator.start()`. -/
theorem namespace_ambiguity_refused (root : List XNode)
    (namespaces : List (String × List String)) (ed : Editor) (hd : ed._destroyed = false) :
    (∀ pfx, namespacesAt pfx (getDocumentNamespaces root) =
      if urisOf pfx (childrenDeclarations root) = [] then none
      else some (urisOf pfx (childrenDeclarations root))) ∧
    ((getDocumentNamespaces root).map (fun e => e.1)).Nodup ∧
    ((∃ e ∈ namespaces, 1 < e.2.length) →
      (_postInitialize namespaces ed).thrown = none ∧
      (_postInitialize namespaces ed).state._destroyed = true ∧
      (_postInitialize namespaces ed).state.limitation_modal_body =
        some ("The document you are trying to edit uses namespaces in a " ++
              "way not supported by this version of wed.") ∧
      (_postInitialize namespaces ed).state.limitation_modal_shown =
        ed.limitation_modal_shown + 1 ∧
      (_postInitialize namespaces ed).state.validator_calls =
        ed.validator_calls ++ (if ed.has_validator then [ValidatorCall.stop] else []) ∧
      (_postInitialize namespaces ed).state.post_initialize_log = ed.post_initialize_log) ∧
    ((∀ e ∈ namespaces, e.2.length = 1) →
      (_postInitialize namespaces ed).thrown = none ∧
      (_postInitialize namespaces ed).state._destroyed = false ∧
      (_postInitialize namespaces ed).state.resolver_definitions =
        ed.resolver_definitions ++ namespaces.map (fun e => (e.1, e.2.head?)) ∧
      (∀ e ∈ namespaces, ∀ uri, e.2 = [uri] →
        (e.1, some uri) ∈ (_postInitialize namespaces ed).state.resolver_definitions) ∧
      (_postInitialize namespaces ed).state.validator_calls =
        ed.validator_calls ++ [ValidatorCall.start] ∧
      (_postInitialize namespaces ed).state.limitation_modal_body = ed.limitation_modal_body ∧
      (_postInitialize namespaces ed).state.limitation_modal_shown =
        ed.limitation_modal_shown) := by
  refine ⟨?_, ?_, ?_, ?_⟩
  · intro pfx
    unfold getDocumentNamespaces
    rw [namespacesAt_foldl]
    simp [namespacesAt]
  · exact keys_nodup_foldl _ [] List.nodup_nil
  · rintro ⟨e, he, hlen⟩
    have hany : namespaces.any (fun e => decide (e.2.length > 1)) = true :=
      List.any_eq_true.mpr ⟨e, he, by simpa using hlen⟩
    unfold _postInitialize
    rw [if_neg (by simp [hd]), definePrefixes_spec]
    simp only [Bool.false_or, hany, ↓reduceIte, destroy, hd, Bool.false_eq_true]
    refine ⟨trivial, trivial, trivial, trivial, ?_, trivial⟩
    split <;> simp
  · intro hall
    have hany : namespaces.any (fun e => decide (e.2.length > 1)) = false := by
      rw [List.any_eq_false]
      intro e he
      have := hall e he
      simp [this]
    unfold _postInitialize
    rw [if_neg (by simp [hd]), definePrefixes_spec]
    simp only [Bool.false_or, hany, Bool.false_eq_true, ↓reduceIte]
    refine ⟨trivial, hd, trivial, ?_, trivial, trivial, trivial⟩
    intro e he uri huri
    apply List.mem_append_right
    rw [List.mem_map]
    exact ⟨e, he, by rw [huri]; rfl⟩

/-- Witness of `namespace_ambiguity_refused`: the documents of the two tests of
`getDocumentNamespaces` give the objects the tests expect; on the document that
binds `x` twice a fresh editor ends destroyed, with `stop()` the only call to
the validator; on the simple document it ends with `validator.start()`. -/
theorem namespace_ambiguity_refused_witness :
    getDocumentNamespaces simpleDocument = [("", ["http://www.tei-c.org/ns/1.0"])] ∧
    getDocumentNamespaces redefinedDocument =
      [("", ["http://www.tei-c.org/ns/1.0"]), ("x", ["uri:x", "uri:x2"])] ∧
    ((_postInitialize (getDocumentNamespaces redefinedDocument) {}).state._destroyed = true ∧
     (_postInitialize (getDocumentNamespaces redefinedDocument) {}).state.validator_calls =
        ({} : Editor).validator_calls ++
          (if ({} : Editor).has_validator then [ValidatorCall.stop] else [])) ∧
    ((_postInitialize (getDocumentNamespaces simpleDocument) {}).state.resolver_definitions =
        ({} : Editor).resolver_definitions ++
          (getDocumentNamespaces simpleDocument).map (fun e => (e.1, e.2.head?)) ∧
     (_postInitialize (getDocumentNamespaces simpleDocument) {}).state.validator_calls =
        ({} : Editor).validator_calls ++ [ValidatorCall.start]) :=
  ⟨by decide, by decide,
   ⟨((namespace_ambiguity_refused redefinedDocument (getDocumentNamespaces redefinedDocument)
        {} rfl).2.2.1 ⟨("x", ["uri:x", "uri:x2"]), by decide, by decide⟩).2.1,
    ((namespace_ambiguity_refused redefinedDocument (getDocumentNamespaces redefinedDocument)
        {} rfl).2.2.1 ⟨("x", ["uri:x", "uri:x2"]), by decide, by decide⟩).2.2.2.2.1⟩,
   ⟨((namespace_ambiguity_refused simpleDocument (getDocumentNamespaces simpleDocument)
        {} rfl).2.2.2 (by decide)).2.2.1,
    ((namespace_ambiguity_refused simpleDocument (getDocumentNamespaces simpleDocument)
        {} rfl).2.2.2 (by decide)).2.2.2.2.1⟩⟩

/-! ## `isAttrProtected` -/

theorem lastIndexOfFromZero_eq_zero_iff (name pre : String) :
    lastIndexOfFromZero name.toList pre.toList = 0 ↔ ∃ rest : String, name = pre ++ rest := by
  unfold lastIndexOfFromZero
  constructor
  · intro h
    by_cases hp : pre.toList.isPrefixOf name.toList = true
    · obtain ⟨t, ht⟩ := List.isPrefixOf_iff_prefix.mp hp
      refine ⟨String.mk t, ?_⟩
      apply String.ext
      rw [String.data_append]
      exact ht.symm
    · rw [if_neg hp] at h
      cases h
  · rintro ⟨rest, hrest⟩
    have hp : pre.toList.isPrefixOf name.toList = true := by
      rw [List.isPrefixOf_iff_prefix]
      refine ⟨rest.data, ?_⟩
      rw [hrest]
      exact (String.data_append pre rest).symm
    rw [if_pos hp]

theorem protected_test_iff (name : String) :
    (name == "xmlns" || lastIndexOfFromZero name.toList "xmlns:".toList == 0) = true ↔
      ProtectedName name := by
  unfold ProtectedName
  rw [← lastIndexOfFromZero_eq_zero_iff]
  simp

/-- C21: `isAttrProtected` returns `true` if and only if the name of the
attribute is exactly `xmlns` or starts with `xmlns:`, the name being that of
the `Attr` node, the text of the `_attribute_name` sibling of the GUI element,
or the string; and when `attr` is a string and no parent is passed it throws
"must specify a parent" instead of returning, whatever the string. -/
theorem isAttrProtected_iff (siblingByClass : Element → String → Option Element)
    (parent : Option Element) :
    (∀ name, ∃ b, isAttrProtected siblingByClass (.attrNode name) parent = .ok b ∧
      (b = true ↔ ProtectedName name)) ∧
    (∀ el sibling, siblingByClass el "_attribute_name" = some sibling →
      ∃ b, isAttrProtected siblingByClass (.element el) parent = .ok b ∧
        (b = true ↔ ProtectedName sibling.textContent)) ∧
    (∀ name p, ∃ b, isAttrProtected siblingByClass (.string name) (some p) = .ok b ∧
      (b = true ↔ ProtectedName name)) ∧
    (∀ name, isAttrProtected siblingByClass (.string name) none =
      .error "must specify a parent") := by
  refine ⟨?_, ?_, ?_, ?_⟩
  · intro name
    exact ⟨_, rfl, protected_test_iff name⟩
  · intro el sibling h
    refine ⟨(sibling.textContent == "xmlns" ||
      lastIndexOfFromZero sibling.textContent.toList "xmlns:".toList == 0), ?_,
      protected_test_iff _⟩
    simp only [isAttrProtected, h]
  · intro name p
    exact ⟨_, rfl, protected_test_iff name⟩
  · intro name
    rfl

/-- Witness of `isAttrProtected_iff`: `xmlns:tei` is protected and `xml:lang` is
not, as a node, as a string with a parent and as the text of the name sibling
of a GUI element; the string without a parent makes the method throw. -/
theorem isAttrProtected_iff_witness :
    isAttrProtected testSiblingByClass (.attrNode "xmlns:tei") none = .ok true ∧
    isAttrProtected testSiblingByClass (.attrNode "xmlns") none = .ok true ∧
    isAttrProtected testSiblingByClass (.attrNode "xml:lang") none = .ok false ∧
    isAttrProtected testSiblingByClass (.attrNode "xmlnsx") none = .ok false ∧
    isAttrProtected testSiblingByClass (.string "xmlns:tei") (some (realP "a")) = .ok true ∧
    isAttrProtected testSiblingByClass (.string "xmlns:tei") none =
      .error "must specify a parent" ∧
    (∃ b, isAttrProtected testSiblingByClass (.element { classList := ["xmlns:tei"] }) none =
        .ok b ∧
      (b = true ↔ ProtectedName
        ({ classList := ["_attribute_name"], textContent := "xmlns:tei" } : Element).textContent)) :=
  ⟨rfl, rfl, rfl, rfl, rfl, rfl,
   (isAttrProtected_iff testSiblingByClass none).2.1 { classList := ["xmlns:tei"] }
     { classList := ["_attribute_name"], textContent := "xmlns:tei" } (by decide)⟩

/-! ### Validators as objects -/

theorem take_set_of_le {α : Type} (x : α) :
    ∀ (l : List α) (n a : Nat), n ≤ a → (l.set a x).take n = l.take n := by
  intro l
  induction l with
  | nil => intro n a _; simp
  | cons y rest ih =>
    intro n a h
    cases n with
    | zero => simp
    | succ n =>
      cases a with
      | zero => omega
      | succ a =>
        simp only [List.set_cons_succ, List.take_succ_cons, List.cons.injEq, true_and]
        exact ih n a (by omega)

theorem le_length_of_take_eq {α : Type} (l l0 : List α) (h : l.take l0.length = l0) :
    l0.length ≤ l.length := by
  have := congrArg List.length h
  rw [List.length_take] at this
  omega

theorem getElem?_of_take_eq {α : Type} (l l0 : List α) (h : l.take l0.length = l0)
    (i : Nat) (hi : i < l0.length) : l[i]? = l0[i]? := by
  conv_rhs => rw [← h]
  rw [List.getElem?_take_of_lt hi]

theorem heap_keeps_refl {σ : Type} (h : Heap σ) : Heap.Keeps h h :=
  ⟨List.take_length _, List.take_length _⟩

theorem heap_keeps_clone {σ : Type} (g : Grammar σ) (h0 h : Heap σ) (a : Nat)
    (hk : Heap.Keeps h0 h) : Heap.Keeps h0 (h.clone g a).1 := by
  refine ⟨?_, hk.2⟩
  show (h.walkers ++ [h.read g a]).take h0.walkers.length = h0.walkers
  rw [List.take_append_of_le_length (le_length_of_take_eq _ _ hk.1)]
  exact hk.1

theorem heap_keeps_fireEvent {σ : Type} (g : Grammar σ) (h0 h : Heap σ) (a : Nat) (ev : Event)
    (hk : Heap.Keeps h0 h) (ha : h0.walkers.length ≤ a) :
    Heap.Keeps h0 (h.fireEvent g a ev).1 := by
  refine ⟨?_, hk.2⟩
  show (h.walkers.set a _).take h0.walkers.length = h0.walkers
  rw [take_set_of_le _ _ _ _ ha]
  exact hk.1

theorem heap_fireEvent_read {σ : Type} (g : Grammar σ) (h : Heap σ) (a : Nat) (ev : Event)
    (ha : a < h.walkers.length) :
    (h.fireEvent g a ev).1.read g a = ((h.read g a).fireEvent g ev).1 ∧
    (h.fireEvent g a ev).1.walkers.length = h.walkers.length ∧
    (h.fireEvent g a ev).1.validators = h.validators := by
  refine ⟨?_, ?_, rfl⟩
  · show ((h.walkers.set a _)[a]?).getD _ = _
    simp [List.getElem?_set, ha]
  · show (h.walkers.set a _).length = _
    simp

theorem heap_replay_spec {σ : Type} (g : Grammar σ) (h0 : Heap σ) (a : Nat)
    (events : List CursorEvent) :
    ∀ h : Heap σ, Heap.Keeps h0 h → h0.walkers.length ≤ a → a < h.walkers.length →
      Heap.Keeps h0 (Heap.replay g h a events) ∧
      (Heap.replay g h a events).read g a = replay g (h.read g a) events ∧
      (Heap.replay g h a events).walkers.length = h.walkers.length ∧
      (Heap.replay g h a events).validators = h.validators := by
  induction events with
  | nil => intro h hk _ _; exact ⟨hk, rfl, rfl, rfl⟩
  | cons e rest ih =>
    intro h hk ha hlt
    obtain ⟨f1, f2, f3⟩ := heap_fireEvent_read g h a e.ev hlt
    obtain ⟨i1, i2, i3, i4⟩ := ih (h.fireEvent g a e.ev).1
      (heap_keeps_fireEvent g h0 h a e.ev hk ha) ha (by rw [f2]; exact hlt)
    refine ⟨i1, ?_, ?_, ?_⟩
    · show (Heap.replay g (h.fireEvent g a e.ev).1 a rest).read g a = _
      rw [i2, f1]
      rfl
    · show (Heap.replay g (h.fireEvent g a e.ev).1 a rest).walkers.length = _
      rw [i3, f2]
    · show (Heap.replay g (h.fireEvent g a e.ev).1 a rest).validators = _
      rw [i4, f3]

theorem heap_enterCache_spec {σ : Type} (g : Grammar σ) (h0 h : Heap σ)
    (obj : ValidatorObject) (e : CursorEvent) (hk : Heap.Keeps h0 h)
    (hw : obj.walker < h.walkers.length) :
    Heap.Keeps h0 (h.enterCache g obj e).1 ∧
    (h.enterCache g obj e).1.read g obj.walker = h.read g obj.walker ∧
    obj.walker < (h.enterCache g obj e).1.walkers.length ∧
    (h.enterCache g obj e).1.validators = h.validators := by
  unfold Heap.enterCache
  cases e.ev with
  | enterStartTag ns name =>
    refine ⟨heap_keeps_clone g h0 h obj.walker hk, ?_, ?_, rfl⟩
    · show ((h.walkers ++ [h.read g obj.walker])[obj.walker]?).getD _ = _
      rw [List.getElem?_append_left hw]
      rfl
    · show obj.walker < (h.walkers ++ [h.read g obj.walker]).length
      simp
      omega
  | endTag ns name => exact ⟨hk, rfl, hw, rfl⟩
  | attributeName ns name => exact ⟨hk, rfl, hw, rfl⟩
  | attributeValue value => exact ⟨hk, rfl, hw, rfl⟩
  | text => exact ⟨hk, rfl, hw, rfl⟩

theorem heap_consume_spec {σ : Type} (g : Grammar σ) (h0 h : Heap σ) (v : Nat)
    (e : CursorEvent) (obj : ValidatorObject) (hv : h.validators[v]? = some obj)
    (hk : Heap.Keeps h0 h) (hv0 : h0.validators.length ≤ v)
    (hw0 : h0.walkers.length ≤ obj.walker) (hw : obj.walker < h.walkers.length) :
    Heap.Keeps h0 (h.consume g v e) ∧
    obj.walker < (h.consume g v e).walkers.length ∧
    (h.consume g v e).read g obj.walker = ((h.read g obj.walker).fireEvent g e.ev).1 ∧
    ∃ obj1, (h.consume g v e).validators[v]? = some obj1 ∧
      obj1.root = obj.root ∧ obj1.cursor = obj.cursor + 1 ∧ obj1.walker = obj.walker ∧
      obj1._errors = obj._errors ++
        recorded obj.cursor e ((h.read g obj.walker).fireEvent g e.ev).2 := by
  obtain ⟨c1, c2, c3, c4⟩ := heap_enterCache_spec g h0 h obj e hk hw
  obtain ⟨f1, f2, f3⟩ := heap_fireEvent_read g (h.enterCache g obj e).1 obj.walker e.ev c3
  have hkf := heap_keeps_fireEvent g h0 (h.enterCache g obj e).1 obj.walker e.ev c1 hw0
  have hvlt : v < h.validators.length := by
    rcases Nat.lt_or_ge v h.validators.length with h1 | h1
    · exact h1
    · rw [List.getElem?_eq_none h1] at hv
      cases hv
  unfold Heap.consume
  simp only [hv]
  refine ⟨⟨hkf.1, ?_⟩, ?_, ?_, ?_⟩
  · show (List.set _ v _).take h0.validators.length = h0.validators
    rw [take_set_of_le _ _ _ _ hv0]
    exact hkf.2
  · show obj.walker < ((h.enterCache g obj e).1.fireEvent g obj.walker e.ev).1.walkers.length
    rw [f2]
    exact c3
  · show (((h.enterCache g obj e).1.fireEvent g obj.walker e.ev).1.walkers[obj.walker]?).getD _ = _
    have := f1
    unfold Heap.read at this
    rw [this]
    have hr : (h.enterCache g obj e).1.read g obj.walker = h.read g obj.walker := c2
    unfold Heap.read at hr
    rw [hr]
    rfl
  · have hget : ∀ x : ValidatorObject,
        (List.set ((h.enterCache g obj e).1.fireEvent g obj.walker e.ev).1.validators v x)[v]? =
          some x := by
      intro x
      rw [List.getElem?_set]
      simp [f3, c4, hvlt]
    refine ⟨_, hget _, rfl, rfl, rfl, ?_⟩
    show obj._errors ++ recorded obj.cursor e
        (((h.enterCache g obj e).1.read g obj.walker).fireEvent g e.ev).2 = _
    rw [c2]

theorem heap_walkTo_spec {σ : Type} (g : Grammar σ) (h0 : Heap σ) (target v : Nat)
    (hv0 : h0.validators.length ≤ v) (fuel : Nat) :
    ∀ (h : Heap σ) (obj : ValidatorObject), h.validators[v]? = some obj →
      Heap.Keeps h0 h → h0.walkers.length ≤ obj.walker → obj.walker < h.walkers.length →
      target ≤ (documentEvents obj.root).length → target - obj.cursor ≤ fuel →
      ∃ h1 obj1, Heap.walkTo g target v fuel h = some h1 ∧ Heap.Keeps h0 h1 ∧
        h1.validators[v]? = some obj1 ∧
        obj1._errors = obj._errors ++
          walkErrors g (h.read g obj.walker) obj.cursor
            (((documentEvents obj.root).drop obj.cursor).take (target - obj.cursor)) := by
  induction fuel with
  | zero =>
    intro h obj hv hk _ _ _ hfuel
    have ht : target ≤ obj.cursor := by omega
    refine ⟨h, obj, by simp [Heap.walkTo, hv, ht], hk, hv, ?_⟩
    rw [Nat.sub_eq_zero_of_le ht]
    simp [walkErrors]
  | succ fuel ih =>
    intro h obj hv hk hw0 hw hlen hfuel
    by_cases ht : target ≤ obj.cursor
    · refine ⟨h, obj, by simp [Heap.walkTo, hv, ht], hk, hv, ?_⟩
      rw [Nat.sub_eq_zero_of_le ht]
      simp [walkErrors]
    · have hlt : obj.cursor < (documentEvents obj.root).length := by omega
      have hget : (documentEvents obj.root)[obj.cursor]? =
          some ((documentEvents obj.root)[obj.cursor]) := List.getElem?_eq_getElem hlt
      obtain ⟨c1, c2, c3, obj1, c4, c5, c6, c7, c8⟩ :=
        heap_consume_spec g h0 h v (documentEvents obj.root)[obj.cursor] obj hv hk hv0 hw0 hw
      obtain ⟨h1, obj2, i1, i2, i3, i4⟩ := ih _ obj1 c4 c1 (by rw [c7]; exact hw0)
        (by rw [c7]; exact c2) (by rw [c5]; exact hlen) (by rw [c6]; omega)
      refine ⟨h1, obj2, ?_, i2, i3, ?_⟩
      · unfold Heap.walkTo
        simp only [hv, if_neg ht, hget]
        exact i1
      · rw [i4, c8, c7, c3, c5, c6]
        have hk2 : target - obj.cursor = (target - (obj.cursor + 1)) + 1 := by omega
        have hdrop : (documentEvents obj.root).drop obj.cursor =
            (documentEvents obj.root)[obj.cursor] ::
              (documentEvents obj.root).drop (obj.cursor + 1) :=
          List.drop_eq_getElem_cons hlt
        rw [hk2, hdrop, List.take_succ_cons, List.append_assoc]
        rfl

theorem findSome?_map_comp {α β γ : Type} (F : α → Option β) (k : β → γ) :
    ∀ l : List α, l.findSome? (fun a => (F a).map k) = (l.findSome? F).map k := by
  intro l
  induction l with
  | nil => rfl
  | cons a rest ih =>
    simp only [List.findSome?_cons]
    cases F a with
    | none => simpa using ih
    | some b => rfl

theorem heap_nearestCached {σ : Type} (g : Grammar σ) (h : Heap σ) (obj : ValidatorObject)
    (c : Controller σ)
    (hcache : c.cache = obj.cache.map (fun r => ⟨r.node, r.position, h.read g r.walker⟩))
    (n : Path) (p : Nat) :
    nearestCached g c n p =
      match obj.nearestCached n p with
      | some entry => (entry.position, h.read g entry.walker)
      | none => (0, Walker.initial g) := by
  unfold nearestCached ValidatorObject.nearestCached
  have hinner : ∀ a : Path,
      (c.cache.find? (fun entry => entry.node == a && decide (entry.position ≤ p))).map
        (fun entry => (entry.position, entry.walker)) =
      (obj.cache.find? (fun entry => entry.node == a && decide (entry.position ≤ p))).map
        (fun r => (r.position, h.read g r.walker)) := by
    intro a
    rw [hcache, List.find?_map, Option.map_map]
    rfl
  simp only [hinner]
  rw [findSome?_map_comp]
  cases List.findSome? (fun a =>
      obj.cache.find? (fun entry => entry.node == a && decide (entry.position ≤ p)))
      n.inits.reverse with
  | none => rfl
  | some entry => rfl

theorem heap_walkerAt_spec {σ : Type} (g : Grammar σ) (h : Heap σ) (obj : ValidatorObject)
    (c : Controller σ) (hroot : c.root = obj.root)
    (hcache : c.cache = obj.cache.map (fun r => ⟨r.node, r.position, h.read g r.walker⟩))
    (n : Path) (p : Nat) :
    Heap.Keeps h (h.walkerAt g obj n p).1 ∧
    (h.walkerAt g obj n p).1.validators = h.validators ∧
    h.walkers.length ≤ (h.walkerAt g obj n p).2 ∧
    (h.walkerAt g obj n p).2 < (h.walkerAt g obj n p).1.walkers.length ∧
    (h.walkerAt g obj n p).1.read g (h.walkerAt g obj n p).2 = walkerFrom g c n p := by
  have hnc := heap_nearestCached g h obj c hcache n p
  unfold walkerFrom
  rw [hnc, hroot]
  unfold Heap.walkerAt
  cases obj.nearestCached n p with
  | some entry =>
    simp only
    have hk := heap_keeps_clone g h h entry.walker (heap_keeps_refl h)
    have hlen : (h.clone g entry.walker).2 < (h.clone g entry.walker).1.walkers.length := by
      show h.walkers.length < (h.walkers ++ [h.read g entry.walker]).length
      simp
    obtain ⟨r1, r2, r3, r4⟩ := heap_replay_spec g h (h.clone g entry.walker).2
      (((documentEvents obj.root).drop entry.position).take (p - entry.position))
      (h.clone g entry.walker).1 hk (Nat.le_refl _) hlen
    refine ⟨r1, r4, Nat.le_refl _, by rw [r3]; exact hlen, ?_⟩
    rw [r2]
    congr 1
    show ((h.walkers ++ [h.read g entry.walker])[h.walkers.length]?).getD _ = _
    simp
  | none =>
    simp only
    have hk : Heap.Keeps h { h with walkers := h.walkers ++ [Walker.initial g] } := by
      refine ⟨?_, List.take_length _⟩
      show (h.walkers ++ [Walker.initial g]).take h.walkers.length = h.walkers
      simp
    have hlen : h.walkers.length <
        ({ h with walkers := h.walkers ++ [Walker.initial g] } : Heap σ).walkers.length := by
      show h.walkers.length < (h.walkers ++ [Walker.initial g]).length
      simp
    obtain ⟨r1, r2, r3, r4⟩ := heap_replay_spec g h h.walkers.length
      ((documentEvents obj.root).take p)
      { h with walkers := h.walkers ++ [Walker.initial g] } hk (Nat.le_refl _) hlen
    refine ⟨r1, r4, Nat.le_refl _, by rw [r3]; exact hlen, ?_⟩
    rw [r2]
    simp only [List.drop_zero, Nat.sub_zero]
    congr 1
    show ((h.walkers ++ [Walker.initial g])[h.walkers.length]?).getD _ = _
    simp

theorem heap_view_keeps {σ : Type} (g : Grammar σ) (h h1 : Heap σ) (v : Nat)
    (obj : ValidatorObject) (hv : h.validators[v]? = some obj) (hown : h.Owns obj)
    (hk : Heap.Keeps h h1) :
    h1.validators[v]? = some obj ∧ h1.view g v = h.view g v := by
  have hvlt : v < h.validators.length := by
    rcases Nat.lt_or_ge v h.validators.length with h2 | h2
    · exact h2
    · rw [List.getElem?_eq_none h2] at hv
      cases hv
  have hv1 : h1.validators[v]? = some obj := by
    rw [getElem?_of_take_eq _ _ hk.2 v hvlt]
    exact hv
  have hread : ∀ a, a < h.walkers.length → h1.read g a = h.read g a := by
    intro a ha
    unfold Heap.read
    rw [getElem?_of_take_eq _ _ hk.1 a ha]
  refine ⟨hv1, ?_⟩
  unfold Heap.view
  rw [hv1, hv]
  simp only [Option.map_some', Option.some.injEq]
  have hc : obj.cache.map (fun r => (⟨r.node, r.position, h1.read g r.walker⟩ : CacheEntry σ)) =
      obj.cache.map (fun r => ⟨r.node, r.position, h.read g r.walker⟩) := by
    apply List.map_congr_left
    intro r hr
    rw [hread _ (hown.2 r hr)]
  rw [hread _ hown.1, hc]

theorem refsFrom_spec {σ : Type} (g : Grammar σ) :
    ∀ (rest : List (CacheEntry σ)) (pre : List (Walker σ)),
      (refsFrom pre.length rest).map (fun r =>
          (⟨r.node, r.position,
            ((pre ++ rest.map (fun entry => entry.walker))[r.walker]?).getD (Walker.initial g)⟩ :
            CacheEntry σ)) = rest ∧
      ∀ r ∈ refsFrom pre.length rest,
        r.walker < (pre ++ rest.map (fun entry => entry.walker)).length := by
  intro rest
  induction rest with
  | nil => intro pre; exact ⟨rfl, fun r hr => by cases hr⟩
  | cons entry rest ih =>
    intro pre
    have hih := ih (pre ++ [entry.walker])
    have hl : (pre ++ [entry.walker]).length = pre.length + 1 := by simp
    have happ : pre ++ [entry.walker] ++ rest.map (fun entry => entry.walker) =
        pre ++ (entry :: rest).map (fun entry => entry.walker) := by simp
    rw [hl, happ] at hih
    constructor
    · simp only [refsFrom, List.map_cons, List.cons.injEq]
      refine ⟨?_, ?_⟩
      · have : (pre ++ entry.walker :: rest.map (fun entry => entry.walker))[pre.length]? =
            some entry.walker := by
          rw [List.getElem?_append_right (Nat.le_refl _)]
          simp
        rw [this]
        rfl
      · have := hih.1
        simp only [List.map_cons] at this
        exact this
    · intro r hr
      simp only [refsFrom, List.mem_cons] at hr
      rcases hr with hr | hr
      · rw [hr]
        simp
      · exact hih.2 r hr

theorem heap_ofController {σ : Type} (g : Grammar σ) (c : Controller σ) :
    (Heap.ofController c).validators[0]? = some c.toObject ∧
    (Heap.ofController c).Owns c.toObject ∧
    (Heap.ofController c).view g 0 = some c := by
  obtain ⟨h1, h2⟩ := refsFrom_spec g c.cache [c.walker]
  refine ⟨rfl, ⟨?_, ?_⟩, ?_⟩
  · show 0 < (c.walker :: c.cache.map (fun entry => entry.walker)).length
    simp
  · exact h2
  · show some _ = some c
    congr 1
    show ({ root := c.root, cursor := c.cursor,
            walker := (Heap.ofController c).read g 0,
            cache := (refsFrom 1 c.cache).map (fun r =>
              ⟨r.node, r.position, (Heap.ofController c).read g r.walker⟩),
            _errors := c._errors, _working_state := c._working_state,
            _part_done := c._part_done, running := c.running,
            notifications := c.notifications } : Controller σ) = c
    have hc : (refsFrom 1 c.cache).map (fun r =>
        (⟨r.node, r.position, (Heap.ofController c).read g r.walker⟩ : CacheEntry σ)) =
        c.cache := h1
    have hw : (Heap.ofController c).read g 0 = c.walker := by
      simp [Heap.read, Heap.ofController]
    rw [hc, hw]

/-- C5: a speculative validation on a validator whose walkers are objects
shared by address, given fuel for the candidate, returns, and leaves every
object that existed before the call as it was: it fires events only on clones
and records errors only in the error list of the sandbox. So the live
validator is the same object, its persistent error list is unchanged, and it
reads as the same controller, cache included; the value returned is the one
the controller read from the store returns; and whatever controller the live
validator reads as after the call, a re-validation (`_resetTo(container)`
followed by `_validateUpTo(container, -1)`, a restart run to completion, or any
history of operations) gives what it gives without the call. -/
theorem speculative_non_interference {σ : Type} (g : Grammar σ) (h : Heap σ) (v : Nat)
    (obj : ValidatorObject) (c : Controller σ) (fuel : Nat) (container : Path)
    (offset p : Nat) (candidate : List XNode)
    (hv : h.validators[v]? = some obj) (hown : h.Owns obj) (hview : h.view g v = some c)
    (hp : locationPosition c.root container offset = some p)
    (hfuel : (documentEvents candidate).length ≤ fuel) :
    ∃ r h1,
      Heap.speculativelyValidate g fuel h v container offset candidate = some (r, h1) ∧
      Heap.Keeps h h1 ∧
      h1.validators[v]? = some obj ∧
      h1.view g v = some c ∧
      speculativelyValidate g fuel c container offset candidate = some (r, c) ∧
      ∀ c1, h1.view g v = some c1 →
        c1._errors = c._errors ∧
        (∀ fuel2 node,
          _validateUpTo g fuel2 node (_resetTo g node c1) =
            _validateUpTo g fuel2 node (_resetTo g node c)) ∧
        (∀ fuel2 node,
          runToCompletion g fuel2 (restartAt g node c1) =
            runToCompletion g fuel2 (restartAt g node c)) ∧
        ∀ ops, execAll g c1 ops = execAll g c ops := by
  have hc : c =
      { root := obj.root, cursor := obj.cursor, walker := h.read g obj.walker,
        cache := obj.cache.map (fun r => ⟨r.node, r.position, h.read g r.walker⟩),
        _errors := obj._errors, _working_state := obj._working_state,
        _part_done := obj._part_done, running := obj.running,
        notifications := obj.notifications } := by
    unfold Heap.view at hview
    rw [hv] at hview
    simp only [Option.map_some', Option.some.injEq] at hview
    exact hview.symm
  have hroot : c.root = obj.root := by rw [hc]
  have hcache : c.cache = obj.cache.map (fun r => ⟨r.node, r.position, h.read g r.walker⟩) := by
    rw [hc]
  have hp1 : locationPosition obj.root container offset = some p := by
    rw [← hroot]
    exact hp
  obtain ⟨w1, w2, w3, w4, w5⟩ := heap_walkerAt_spec g h obj c hroot hcache container p
  have hk2 : Heap.Keeps h
      { (h.walkerAt g obj container p).1 with
        validators := (h.walkerAt g obj container p).1.validators ++
          [{ root := candidate, walker := (h.walkerAt g obj container p).2,
             _working_state := WState.WORKING }] } := by
    refine ⟨w1.1, ?_⟩
    show List.take h.validators.length ((h.walkerAt g obj container p).1.validators ++ _) =
      h.validators
    rw [w2]
    simp
  obtain ⟨h1, obj1, s1, s2, s3, s4⟩ := heap_walkTo_spec g h
    (documentEvents candidate).length (h.walkerAt g obj container p).1.validators.length
    (by rw [w2]) fuel
    { (h.walkerAt g obj container p).1 with
      validators := (h.walkerAt g obj container p).1.validators ++
        [{ root := candidate, walker := (h.walkerAt g obj container p).2,
           _working_state := WState.WORKING }] }
    { root := candidate, walker := (h.walkerAt g obj container p).2,
      _working_state := WState.WORKING }
    (by simp) hk2 w3 w4 (Nat.le_refl _) hfuel
  simp only [List.nil_append, Nat.sub_zero, List.drop_zero, List.take_length] at s4
  have hread : ({ (h.walkerAt g obj container p).1 with
        validators := (h.walkerAt g obj container p).1.validators ++
          [{ root := candidate, walker := (h.walkerAt g obj container p).2,
             _working_state := WState.WORKING }] } : Heap σ).read g
        (h.walkerAt g obj container p).2 = walkerFrom g c container p := w5
  rw [hread] at s4
  obtain ⟨k1, k2⟩ := heap_view_keeps g h h1 v obj hv hown s2
  have hpure := speculativelyValidate_spec g fuel c container offset candidate p hp hfuel
  have hres : Heap.speculativelyValidate g fuel h v container offset candidate =
      some (if ((walkErrors g (walkerFrom g c container p) 0 (documentEvents candidate)).map
              (fun e => e.error)).isEmpty
          then SpeculativeResult.noError
          else SpeculativeResult.errors
            ((walkErrors g (walkerFrom g c container p) 0 (documentEvents candidate)).map
              (fun e => e.error)), h1) := by
    unfold Heap.speculativelyValidate
    simp only [hv, hp1, s1, s3, s4]
    by_cases he : (walkErrors g (walkerFrom g c container p) 0 (documentEvents candidate)) = []
    · simp [he]
    · simp [he]
  refine ⟨_, h1, hres, s2, k1, by rw [k2]; exact hview, hpure, ?_⟩
  intro c1 hc1
  rw [k2, hview] at hc1
  cases hc1
  exact ⟨rfl, fun _ _ => rfl, fun _ _ => rfl, fun _ => rfl⟩

set_option maxRecDepth 8000 in
/-- Witness of `speculative_non_interference`: the initialized controller of the
tests put into a store; an `em` offered where `body` stands is refused with one
error, and the live validator reads as the initialized controller afterwards.
Firing the same start tag on the live walker itself, not on a clone, would
change it. -/
theorem speculative_non_interference_witness :
    (∃ r h1,
      Heap.speculativelyValidate testGrammar 6 (Heap.ofController initializedTest) 0 [0] 1
          [el "em" [.text "blah"]] = some (r, h1) ∧
      Heap.Keeps (Heap.ofController initializedTest) h1 ∧
      h1.validators[0]? = some initializedTest.toObject ∧
      h1.view testGrammar 0 = some initializedTest ∧
      speculativelyValidate testGrammar 6 initializedTest [0] 1 [el "em" [.text "blah"]] =
        some (r, initializedTest) ∧
      ∀ c1, h1.view testGrammar 0 = some c1 →
        c1._errors = initializedTest._errors ∧
        (∀ fuel2 node,
          _validateUpTo testGrammar fuel2 node (_resetTo testGrammar node c1) =
            _validateUpTo testGrammar fuel2 node (_resetTo testGrammar node initializedTest)) ∧
        (∀ fuel2 node,
          runToCompletion testGrammar fuel2 (restartAt testGrammar node c1) =
            runToCompletion testGrammar fuel2 (restartAt testGrammar node initializedTest)) ∧
        ∀ ops, execAll testGrammar c1 ops = execAll testGrammar initializedTest ops) ∧
    (Heap.speculativelyValidate testGrammar 6 (Heap.ofController initializedTest) 0 [0] 1
        [el "em" [.text "blah"]]).map (fun r => r.1) =
      some (SpeculativeResult.errors [misplacedEm]) ∧
    ((Heap.speculativelyValidate testGrammar 6 (Heap.ofController initializedTest) 0 [0] 1
        [el "em" [.text "blah"]]).map (fun r => r.2.walkers.length)) = some 10 ∧
    (Heap.ofController initializedTest).walkers.length = 8 ∧
    ((Heap.ofController initializedTest).fireEvent testGrammar 0
        (Event.enterStartTag "" "em")).1.walkers[0]? ≠
      (Heap.ofController initializedTest).walkers[0]? :=
  ⟨speculative_non_interference testGrammar (Heap.ofController initializedTest) 0
      initializedTest.toObject initializedTest 6 [0] 1 6 [el "em" [.text "blah"]]
      (heap_ofController testGrammar initializedTest).1
      (heap_ofController testGrammar initializedTest).2.1
      (heap_ofController testGrammar initializedTest).2.2
      (by rw [initializedTest_consistent.2]; decide) (by decide),
   by decide!, by decide!, by decide!, by decide!⟩

end Wed
